import Mathlib

/-!
Verification of the StackOrBolt game core: a shallow embedding of the
board/move data model (src/modules/AiWorker.js, GameState part), the rule
engine (src/modules/GameLogic.js) and the alpha-beta search
(src/modules/MinimaxAB.js), together with proofs about the claims of the
specification.

Modelling conventions:
* JavaScript arrays holding the tower stones (svgLayout) are lists with the
  head at the bottom of the stack (index 0) and the last element on top
  (the JS idiom svgLayout.at(-1) becomes List.getLast?).
* JS object references into boardState.cells are modelled as positions in
  the cells list.  On well-formed boards (36 cells in row-major order) the
  position of a cell equals its id (row*6+column), which is exactly the
  index arithmetic the source uses in BoardState.undoMove.
* Thrown JS exceptions become Except.error values; every error site of the
  source is given a distinct tag.  Functions that JS runs without a
  possibility of throwing stay total.
* JS floating point numbers holding heuristic weights are modelled as
  rationals; the scores +-Infinity become the top/bottom elements of
  WithBot (WithTop Rat).  Math.round is floor (q + 1/2), matching JS
  round-half-up semantics.
* DOM-only state (domRelation, domEl, svg updates, disableBoardEvents,
  waitForWebWorker) is no-op glue in the worker context the search runs in
  and is not part of the model.
-/

namespace StackOrBolt

/-- The two fixed player identifiers, PLAYER_ID in GameState. -/
inductive PlayerId
  | user
  | bot
deriving DecidableEq, Repr

/-- A single board cell: GridCell of GameState, restricted to its game
state fields (row, column, svgLayout, direction, dot).  The derived id is
row*6+column as computed in the GridCell constructor. -/
structure GridCell where
  row : Int
  column : Int
  svgLayout : List PlayerId
  direction : Int
  dot : Bool
deriving DecidableEq, Repr

/-- GridCell id as set in the GridCell constructor. -/
def GridCell.id (c : GridCell) : Int := c.row * 6 + c.column

/-- The per-player vault counters (NEW_VAULT shape in GameState). -/
structure Vault where
  self : Nat
  opponent : Nat
deriving DecidableEq, Repr

/-- Player of GameState, restricted to its game state fields. -/
structure Player where
  id : PlayerId
  isMaximizing : Bool
  turn : Bool
  lastHorizontal : Bool
  safetyTower : Nat
  vault : Vault
  winner : Bool
deriving DecidableEq, Repr

/-- The Player.safetyTower setter: caps the stored value at 6. -/
def Player.setSafetyTower (p : Player) (value : Nat) : Player :=
  { p with safetyTower := min 6 value }

/-- The Player.vault setter: caps both counters at 6. -/
def Player.setVault (p : Player) (value : Vault) : Player :=
  { p with vault := { self := min 6 value.self, opponent := min 6 value.opponent } }

/-- PlayerState of GameState: the list of the two players. -/
structure PlayerState where
  twoPlayer : List Player
deriving DecidableEq, Repr

/-- BoardState of GameState, restricted to its game state fields. -/
structure BoardState where
  cells : List GridCell
  playerState : PlayerState
deriving DecidableEq, Repr

/-- Move of GameState: pre-move snapshots of the source cell, the target
cell and both players, used by undoMove. -/
structure Move where
  srcCell : GridCell
  tgtCell : GridCell
  playerState : PlayerState
deriving DecidableEq, Repr

/-- Error tags for every throw site of the embedded source code, plus a
fuel tag marking runs of the search recursion that were cut off before
returning (the JS source recurses unboundedly). -/
inductive GErr
  | emptySource
  | sameOwner
  | noTurnPlayer
  | badCell
  | missingPlayer
  | invalidEval
  | invalidInvocation
  | noLegalMoves
  | fuel
deriving DecidableEq, Repr

/-! Settings: the slice of the ConfigState Settings object read by the
game core.  The .settings indirection of the source objects is flattened
into one structure per settings group. -/

/-- winningRules.settings of ConfigState. -/
structure WinningRules where
  safetyZone : Nat
  materialOpponent : Nat
  maxStackSize : Nat
deriving DecidableEq, Repr

/-- searchRules.settings of ConfigState (the timeout is not read by the
embedded core). -/
structure SearchRules where
  depth : Nat
deriving DecidableEq, Repr

/-- safetyZoneProximity.settings of ConfigState. -/
structure SafetyZoneProximity where
  weightRowDistance1 : ℚ
  weightRowDistance2 : ℚ
  weightRowDistance3 : ℚ
  weightRowDistance4 : ℚ
  weightRowDistance5 : ℚ
  safetyZoneTotalDistance : ℚ
  opponentWeight : ℚ
  totalWeight : ℚ
deriving DecidableEq, Repr

/-- materialAdvantageConquered.settings of ConfigState. -/
structure MaterialAdvantageConquered where
  totalWeight : ℚ
  opponentWeight : ℚ
deriving DecidableEq, Repr

/-- materialAdvantageAccounted.settings of ConfigState. -/
structure MaterialAdvantageAccounted where
  totalWeight : ℚ
deriving DecidableEq, Repr

/-- The settings snapshot handed to findBestMove. -/
structure Settings where
  winningRules : WinningRules
  searchRules : SearchRules
  safetyZoneProximity : SafetyZoneProximity
  materialAdvantageConquered : MaterialAdvantageConquered
  materialAdvantageAccounted : MaterialAdvantageAccounted
deriving DecidableEq, Repr

/-! GameLogic.js -/

/-- One iteration of the stacking loop body in stackTowers: push one stone
of the source on top of the target layout; if the length now exceeds
maxStackSize, credit the mover's vault for the bottom stone (vault.self if
it is the mover's own stone, vault.opponent otherwise, via the capping
vault setter) and shift the bottom stone away. -/
def stackStep (maxStackSize : Nat) (acc : Player × List PlayerId) (stone : PlayerId) :
    Player × List PlayerId :=
  let player := acc.1
  let pushed := acc.2 ++ [stone]
  if pushed.length > maxStackSize then
    let selfVal := player.vault.self
    let opponentVal := player.vault.opponent
    let player' :=
      if pushed.head? = some player.id then
        player.setVault ⟨selfVal + 1, opponentVal⟩
      else
        player.setVault ⟨selfVal, opponentVal + 1⟩
    (player', pushed.tail)
  else
    (player, pushed)

/-- stackTowers of GameLogic: moves all stones of the source cell onto the
target cell.  An empty source or a same-owner target throws. -/
def stackTowers (srcCell tgtCell : GridCell) (player : Player) (maxStackSize : Nat) :
    Except GErr (GridCell × Player) :=
  if srcCell.svgLayout = [] then
    .error .emptySource
  else if tgtCell.svgLayout = [] then
    .ok ({ tgtCell with svgLayout := srcCell.svgLayout }, player)
  else if srcCell.svgLayout.getLast? ≠ tgtCell.svgLayout.getLast? then
    let r := srcCell.svgLayout.foldl (stackStep maxStackSize) (player, tgtCell.svgLayout)
    .ok ({ tgtCell with svgLayout := r.2 }, r.1)
  else
    .error .sameOwner

/-- The first conditional of playMove: a not-yet-reversed user tower that
reached row 5 flips direction and gets the dot. -/
def reverseUser (srcInst t : GridCell) : GridCell :=
  if srcInst.svgLayout.getLast? = some PlayerId.user ∧ t.row = 5 ∧ srcInst.dot = false then
    { t with direction := t.direction * (-1), dot := true }
  else t

/-- The second conditional of playMove: a not-yet-reversed bot tower that
reached row 0 flips direction and gets the dot. -/
def reverseBot (srcInst t : GridCell) : GridCell :=
  if srcInst.svgLayout.getLast? = some PlayerId.bot ∧ t.row = 0 ∧ srcInst.dot = false then
    { t with direction := t.direction * (-1), dot := true }
  else t

/-- The third conditional of playMove: a reversed user tower back at row 0
is cleared and secured. -/
def captureUser (srcInst : GridCell) (tp : GridCell × Player) : GridCell × Player :=
  if srcInst.svgLayout.getLast? = some PlayerId.user ∧ tp.1.row = 0 ∧ srcInst.dot = true then
    ({ tp.1 with svgLayout := [], direction := 0, dot := false },
      tp.2.setSafetyTower (tp.2.safetyTower + 1))
  else tp

/-- The fourth conditional of playMove: a reversed bot tower back at row 5
is cleared and secured. -/
def captureBot (srcInst : GridCell) (tp : GridCell × Player) : GridCell × Player :=
  if srcInst.svgLayout.getLast? = some PlayerId.bot ∧ tp.1.row = 5 ∧ srcInst.dot = true then
    ({ tp.1 with svgLayout := [], direction := 0, dot := false },
      tp.2.setSafetyTower (tp.2.safetyTower + 1))
  else tp

/-- Cell-level body of playMove of GameLogic: stacking, direction and dot
inheritance, the two direction-reversal conditionals, the two
safety-capture conditionals, clearing of the source and the lateral-move
flag update.  The four conditionals of the source only read the source
cell (unchanged until the end) and the target row (never written), so
they are the sequential updates reverseUser, reverseBot, captureUser,
captureBot of the target cell and the mover. -/
def playMoveCells (srcInst tgtInst : GridCell) (player : Player) (maxStackSize : Nat) :
    Except GErr (GridCell × GridCell × Player) :=
  match stackTowers srcInst tgtInst player maxStackSize with
  | .error e => .error e
  | .ok (tgt0, player0) =>
    let t1 : GridCell := { tgt0 with direction := srcInst.direction, dot := srcInst.dot }
    let s5 : GridCell × Player :=
      captureBot srcInst (captureUser srcInst (reverseBot srcInst (reverseUser srcInst t1),
        player0))
    let src' : GridCell := { srcInst with svgLayout := [], direction := 0, dot := false }
    let player' : Player := { s5.2 with lastHorizontal := decide (s5.1.row = srcInst.row) }
    .ok (src', s5.1, player')

/-- Replace the first list element satisfying the predicate; models a JS
mutation of the object returned by Array.prototype.find. -/
def replaceFirst {α : Type} (pred : α → Bool) (a : α) : List α → List α
  | [] => []
  | x :: rest => if pred x then a :: rest else x :: replaceFirst pred a rest

/-- playMove of GameLogic lifted to the board: finds the player whose turn
it is, runs the cell-level move on the cells at positions si and ti and
writes the results back.  The JS source receives the two cell references;
on well-formed boards a reference into cells is exactly the position equal
to the cell id. -/
def BoardState.playMove (b : BoardState) (si ti : Nat) (maxStackSize : Nat) :
    Except GErr BoardState :=
  match b.playerState.twoPlayer.find? (fun p => p.turn) with
  | none => .error .noTurnPlayer
  | some player =>
    match b.cells[si]?, b.cells[ti]? with
    | some srcInst, some tgtInst =>
      match playMoveCells srcInst tgtInst player maxStackSize with
      | .error e => .error e
      | .ok (src', tgt', player') =>
        .ok { cells := (b.cells.set si src').set ti tgt',
              playerState := ⟨replaceFirst (fun p => p.turn) player' b.playerState.twoPlayer⟩ }
    | _, _ => .error .badCell

/-- switchPlayer of GameLogic: toggles the turn flag of both players. -/
def switchPlayer (ps : PlayerState) : PlayerState :=
  ⟨ps.twoPlayer.map (fun p => { p with turn := !p.turn })⟩

/-- BoardState.applyMoveAndTurn of GameState: playMove followed by
switchPlayer. -/
def BoardState.applyMoveAndTurn (b : BoardState) (si ti : Nat) (maxStackSize : Nat) :
    Except GErr BoardState :=
  (b.playMove si ti maxStackSize).map
    (fun b1 => { b1 with playerState := switchPlayer b1.playerState })

/-- Restore the three mutable fields of the cell at position i from a
saved cell, as the two cell assignments of BoardState.undoMove do. -/
def restoreCell (cells : List GridCell) (i : Nat) (saved : GridCell) : List GridCell :=
  match cells[i]? with
  | none => cells
  | some c =>
    cells.set i { c with svgLayout := saved.svgLayout, direction := saved.direction,
                         dot := saved.dot }

/-- Restore one player from the snapshot taken before a move, as the
player loop of BoardState.undoMove does: turn and lastHorizontal are
plain writes, safetyTower and vault go through their capping setters. -/
def restorePlayer (saved : PlayerState) (p : Player) : Player :=
  match saved.twoPlayer.find? (fun q => q.id == p.id) with
  | none => p
  | some sp =>
    (({ p with turn := sp.turn, lastHorizontal := sp.lastHorizontal
      }).setSafetyTower sp.safetyTower).setVault sp.vault

/-- BoardState.undoMove of GameState: writes the saved source and target
cell fields back at the positions given by the saved cell ids and restores
both players from the snapshot. -/
def BoardState.undoMove (b : BoardState) (loggedMove : Move) : BoardState :=
  { cells := restoreCell (restoreCell b.cells loggedMove.srcCell.id.toNat loggedMove.srcCell)
      loggedMove.tgtCell.id.toNat loggedMove.tgtCell,
    playerState := ⟨b.playerState.twoPlayer.map (restorePlayer loggedMove.playerState)⟩ }

/-- One candidate check of getLocalMoves: look up the first cell at the
candidate coordinates and keep it when its top stone owner differs from
the source top owner. -/
def checkCell (cellInst : GridCell) (boardState : BoardState) (r c : Int) : List GridCell :=
  match boardState.cells.find? (fun inst => inst.row == r && inst.column == c) with
  | some neighbor =>
    if neighbor.svgLayout.getLast? ≠ cellInst.svgLayout.getLast? then [neighbor] else []
  | none => []

/-- getLocalMoves of GameLogic: the six candidate targets of a cell in
source order (forward 1, forward 2, left 1, left 2, right 1, right 2), the
lateral four only when the mover's lastHorizontal lock is off.  The JS
remainder operator on numbers is Int.tmod (sign of the dividend); on
well-formed boards the column operands are nonnegative so it agrees with
emod. -/
def getLocalMoves (cellInst : GridCell) (player : Player) (boardState : BoardState) :
    List GridCell :=
  let x := cellInst.column
  let y := cellInst.row
  let dir := cellInst.direction
  checkCell cellInst boardState (y + dir) x ++
  checkCell cellInst boardState (y + 2 * dir) x ++
  (if player.lastHorizontal = false then
    checkCell cellInst boardState y ((x + 5).tmod 6) ++
    checkCell cellInst boardState y ((x + 4).tmod 6) ++
    checkCell cellInst boardState y ((x + 7).tmod 6) ++
    checkCell cellInst boardState y ((x + 8).tmod 6)
  else [])

/-- getAllPossibleMoves of GameLogic: all (source, target) pairs for the
cells whose top stone belongs to the player, in board order. -/
def getAllPossibleMoves (boardState : BoardState) (player : Player) :
    List (GridCell × GridCell) :=
  (boardState.cells.filter
      (fun cell => cell.svgLayout.length > 0 && cell.svgLayout.getLast? == some player.id)).flatMap
    (fun srcCell => (getLocalMoves srcCell player boardState).map (fun tgtCell => (srcCell, tgtCell)))

/-- checkWin of GameLogic.  Returns the win flag together with the player
object as mutated by the source (winner set to true exactly on a win).
Reaching the material-wipeout part with no second player present throws in
JS (reading opponent.id of undefined). -/
def checkWin (boardState : BoardState) (player : Player) (settings : Settings) :
    Except GErr (Bool × Player) :=
  if (settings.winningRules.materialOpponent > 0 ∧
        player.vault.opponent ≥ settings.winningRules.materialOpponent) ∨
      player.safetyTower ≥ settings.winningRules.safetyZone then
    .ok (true, { player with winner := true })
  else
    match boardState.playerState.twoPlayer.find? (fun q => q.id != player.id) with
    | none => .error .missingPlayer
    | some opponent =>
      let opponentTower := boardState.cells.find?
        (fun cell => cell.svgLayout.getLast? == some opponent.id)
      let owningTower := boardState.cells.find?
        (fun cell => cell.svgLayout.getLast? == some player.id)
      if player.turn = false ∧ (opponentTower = none ∨ owningTower = none) then
        .ok (true, { player with winner := true })
      else
        .ok (false, player)

/-! MinimaxAB.js -/

/-- Search scores: rationals extended with the two infinities the source
uses for certain win (top) and certain loss (bottom). -/
abbrev Score : Type := WithBot (WithTop ℚ)

/-- The -Infinity score. -/
def negInf : Score := ⊥

/-- The +Infinity score. -/
def posInf : Score := ((⊤ : WithTop ℚ) : Score)

/-- A finite score. -/
def finScore (q : ℚ) : Score := ((q : WithTop ℚ) : Score)

/-- Math.round of JS on the rationals the heuristic computes with:
round half toward positive infinity. -/
def jsRound (q : ℚ) : ℤ := ⌊q + 1 / 2⌋

/-- The accumulator of the single pass over all cells in
getTerminalNodeState. -/
structure EvalAcc where
  botTowers : Nat
  userTowers : Nat
  botTowerSafetyWeight : ℚ
  userTowerSafetyWeight : ℚ
  botTowerTotalSafetyDistance : Int
  userTowerTotalSafetyDistance : Int
deriving DecidableEq, Repr

/-- All accumulators start at zero. -/
def initEvalAcc : EvalAcc := ⟨0, 0, 0, 0, 0, 0⟩

/-- The switch statement of getTerminalNodeState: the per-distance weight
for a reversed tower, throwing on any distance outside 1..5. -/
def distanceWeight (s : Settings) (rowDistance : Int) : Except GErr ℚ :=
  if rowDistance = 1 then .ok s.safetyZoneProximity.weightRowDistance1
  else if rowDistance = 2 then .ok s.safetyZoneProximity.weightRowDistance2
  else if rowDistance = 3 then .ok s.safetyZoneProximity.weightRowDistance3
  else if rowDistance = 4 then .ok s.safetyZoneProximity.weightRowDistance4
  else if rowDistance = 5 then .ok s.safetyZoneProximity.weightRowDistance5
  else .error .invalidEval

/-- The bot half of the forEach body of getTerminalNodeState: count a
bot-topped cell and, when the safety zone rule is active and the tower is
reversed, accumulate its distance (5 - row) and its distance weight. -/
def evalCellBot (s : Settings) (botId : PlayerId) (acc : EvalAcc) (cell : GridCell) :
    Except GErr EvalAcc :=
  if cell.svgLayout.getLast? == some botId then
    let acc1 := { acc with botTowers := acc.botTowers + 1 }
    if s.winningRules.safetyZone > 0 ∧ cell.dot = true then
      let rowDistance : Int := 5 - cell.row
      let acc2 := { acc1 with
        botTowerTotalSafetyDistance := acc1.botTowerTotalSafetyDistance + rowDistance }
      match distanceWeight s rowDistance with
      | .error e => .error e
      | .ok w => .ok { acc2 with botTowerSafetyWeight := acc2.botTowerSafetyWeight + w }
    else .ok acc1
  else .ok acc

/-- The user half of the forEach body of getTerminalNodeState; the user
distance is the row itself. -/
def evalCellUser (s : Settings) (userId : PlayerId) (acc : EvalAcc) (cell : GridCell) :
    Except GErr EvalAcc :=
  if cell.svgLayout.getLast? == some userId then
    let acc1 := { acc with userTowers := acc.userTowers + 1 }
    if s.winningRules.safetyZone > 0 ∧ cell.dot = true then
      let rowDistance : Int := cell.row
      let acc2 := { acc1 with
        userTowerTotalSafetyDistance := acc1.userTowerTotalSafetyDistance + rowDistance }
      match distanceWeight s rowDistance with
      | .error e => .error e
      | .ok w => .ok { acc2 with userTowerSafetyWeight := acc2.userTowerSafetyWeight + w }
    else .ok acc1
  else .ok acc

/-- One iteration of the forEach over cells: the bot branch then the user
branch. -/
def evalCell (s : Settings) (botId userId : PlayerId) (acc : EvalAcc) (cell : GridCell) :
    Except GErr EvalAcc :=
  match evalCellBot s botId acc cell with
  | .error e => .error e
  | .ok acc1 => evalCellUser s userId acc1 cell

/-- The heuristic score assembled after the cell pass: the
material-conquered term, then (when the safety zone rule is active) the
rounded safety-proximity term plus the binary imminent-win bonus term,
then (when the vault rule is active) the accounted-material term. -/
def heuristicScore (s : Settings) (playerBot playerUser : Player) (acc : EvalAcc) : ℚ :=
  let score : ℚ := 0
  let score := score +
    ((acc.botTowers : ℚ) -
        s.materialAdvantageConquered.opponentWeight * (acc.userTowers : ℚ)) *
      s.materialAdvantageConquered.totalWeight
  let score :=
    if s.winningRules.safetyZone > 0 then
      let score := score +
        ((jsRound ((acc.botTowerSafetyWeight -
            s.safetyZoneProximity.opponentWeight * acc.userTowerSafetyWeight) *
          s.safetyZoneProximity.totalWeight) : ℤ) : ℚ)
      let userBonus : ℚ := if acc.userTowerTotalSafetyDistance > 4 then 0 else 1
      let botBonus : ℚ := if acc.botTowerTotalSafetyDistance > 4 then 0 else 1
      score + (botBonus - userBonus * s.safetyZoneProximity.opponentWeight) *
        s.safetyZoneProximity.safetyZoneTotalDistance * s.safetyZoneProximity.totalWeight
    else score
  if s.winningRules.materialOpponent > 0 then
    score + ((playerBot.vault.opponent : ℚ) - (playerUser.vault.opponent : ℚ)) *
      s.materialAdvantageAccounted.totalWeight
  else score

/-- Write a possibly mutated player object back into the board, replacing
the first player satisfying the predicate that was used to find it. -/
def BoardState.setFirstPlayer (b : BoardState) (pred : Player → Bool) (p' : Player) :
    BoardState :=
  { b with playerState := ⟨replaceFirst pred p' b.playerState.twoPlayer⟩ }

/-- getTerminalNodeState of MinimaxAB: win check for the maximizing player
(+Infinity), then for the minimizing player (-Infinity), then the
heuristic at maximum depth, else null.  The board is returned alongside
because the checkWin calls mutate the winner flag of the checked player
inside the board. -/
def getTerminalNodeState (boardState : BoardState) (depth : Nat) (s : Settings) :
    Except GErr (Option Score × BoardState) :=
  match boardState.playerState.twoPlayer.find? (fun p => p.isMaximizing),
        boardState.playerState.twoPlayer.find? (fun p => !p.isMaximizing) with
  | some playerBot, some playerUser =>
    match checkWin boardState playerBot s with
    | .error e => .error e
    | .ok (true, pb) =>
      .ok (some posInf, boardState.setFirstPlayer (fun p => p.isMaximizing) pb)
    | .ok (false, _) =>
      match checkWin boardState playerUser s with
      | .error e => .error e
      | .ok (true, pu) =>
        .ok (some negInf, boardState.setFirstPlayer (fun p => !p.isMaximizing) pu)
      | .ok (false, _) =>
        if depth = s.searchRules.depth then
          match boardState.cells.foldlM (evalCell s playerBot.id playerUser.id) initEvalAcc with
          | .error e => .error e
          | .ok acc =>
            .ok (some (finScore (heuristicScore s playerBot playerUser acc)), boardState)
        else .ok (none, boardState)
  | _, _ => .error .missingPlayer

/-- Placeholder cell for unreachable list lookups (a JS object reference
can never be absent at these sites on well-formed boards). -/
def phantomCell : GridCell := ⟨0, 0, [], 0, false⟩

/-- The maximizing-player loop of minimax: snapshot, apply, recurse, undo,
update the running maximum and alpha, and break as soon as beta <= alpha.
The recursive minimax call one depth further down is passed in as
`recurse`. -/
def maxLoop (s : Settings)
    (recurse : BoardState → Score → Score → Except GErr (Score × BoardState)) :
    List (GridCell × GridCell) → BoardState → Score → Score → Score →
    Except GErr (Score × BoardState)
  | [], boardState, _, _, maxEval => .ok (maxEval, boardState)
  | move :: rest, boardState, alpha, beta, maxEval =>
    let si := move.1.id.toNat
    let ti := move.2.id.toNat
    let loggedMove : Move :=
      ⟨boardState.cells.getD si phantomCell, boardState.cells.getD ti phantomCell,
        boardState.playerState⟩
    match boardState.applyMoveAndTurn si ti s.winningRules.maxStackSize with
    | .error e => .error e
    | .ok b1 =>
      match recurse b1 alpha beta with
      | .error e => .error e
      | .ok (evaluate, b2) =>
        let b3 := b2.undoMove loggedMove
        let maxEval2 := max maxEval evaluate
        let alpha2 := max alpha maxEval2
        if beta ≤ alpha2 then .ok (maxEval2, b3)
        else maxLoop s recurse rest b3 alpha2 beta maxEval2

/-- The minimizing-player loop of minimax: snapshot, apply, recurse, undo,
update the running minimum and beta, and break as soon as beta <= alpha. -/
def minLoop (s : Settings)
    (recurse : BoardState → Score → Score → Except GErr (Score × BoardState)) :
    List (GridCell × GridCell) → BoardState → Score → Score → Score →
    Except GErr (Score × BoardState)
  | [], boardState, _, _, minEval => .ok (minEval, boardState)
  | move :: rest, boardState, alpha, beta, minEval =>
    let si := move.1.id.toNat
    let ti := move.2.id.toNat
    let loggedMove : Move :=
      ⟨boardState.cells.getD si phantomCell, boardState.cells.getD ti phantomCell,
        boardState.playerState⟩
    match boardState.applyMoveAndTurn si ti s.winningRules.maxStackSize with
    | .error e => .error e
    | .ok b1 =>
      match recurse b1 alpha beta with
      | .error e => .error e
      | .ok (evaluate, b2) =>
        let b3 := b2.undoMove loggedMove
        let minEval2 := min minEval evaluate
        let beta2 := min beta minEval2
        if beta2 ≤ alpha then .ok (minEval2, b3)
        else minLoop s recurse rest b3 alpha beta2 minEval2

/-- minimax of MinimaxAB with alpha-beta pruning.  The fuel argument
bounds the recursion depth; fuel running out models a recursion that
never comes back (the JS function recurses unboundedly past the maximum
depth).  The board is threaded through because the source mutates it in
place and undoes every move. -/
def minimaxAux (s : Settings) : Nat → BoardState → Nat → Score → Score →
    Except GErr (Score × BoardState)
  | 0, _, _, _, _ => .error .fuel
  | fuel + 1, boardState, depth, alpha, beta =>
    let currentPlayer? := boardState.playerState.twoPlayer.find? (fun p => p.turn)
    match getTerminalNodeState boardState depth s with
    | .error e => .error e
    | .ok (some evaluation, b1) => .ok (evaluation, b1)
    | .ok (none, b1) =>
      match currentPlayer? with
      | none => .error .noTurnPlayer
      | some currentPlayer =>
        if currentPlayer.isMaximizing then
          maxLoop s (fun bb aa bb2 => minimaxAux s fuel bb (depth + 1) aa bb2)
            (getAllPossibleMoves b1 currentPlayer) b1 alpha beta negInf
        else
          minLoop s (fun bb aa bb2 => minimaxAux s fuel bb (depth + 1) aa bb2)
            (getAllPossibleMoves b1 currentPlayer) b1 alpha beta posInf

/-- The minimax entry as the rest of the module calls it: enough fuel to
reach the maximum search depth, past which the JS recursion would not
terminate by depth. -/
def minimax (s : Settings) (boardState : BoardState) (depth : Nat) (alpha beta : Score) :
    Except GErr (Score × BoardState) :=
  minimaxAux s (s.searchRules.depth + 1 - depth) boardState depth alpha beta

/-- The top-level loop of findBestMove: one ply over the mover's moves,
scoring each with a fresh full-window minimax call at depth 0 and keeping
the first strictly better move. -/
def fbmLoop (s : Settings) (moves : List (GridCell × GridCell)) (boardState : BoardState)
    (bestScore : Score) (bestMove : Option (GridCell × GridCell)) :
    Except GErr (Option (GridCell × GridCell) × BoardState) :=
  match moves with
  | [] => .ok (bestMove, boardState)
  | move :: rest =>
    let si := move.1.id.toNat
    let ti := move.2.id.toNat
    let loggedMove : Move :=
      ⟨boardState.cells.getD si phantomCell, boardState.cells.getD ti phantomCell,
        boardState.playerState⟩
    match boardState.applyMoveAndTurn si ti s.winningRules.maxStackSize with
    | .error e => .error e
    | .ok b1 =>
      match minimax s b1 0 negInf posInf with
      | .error e => .error e
      | .ok (score, b2) =>
        let b3 := b2.undoMove loggedMove
        if bestScore < score then fbmLoop s rest b3 score (some move)
        else fbmLoop s rest b3 bestScore bestMove

/-- findBestMove of MinimaxAB: precondition check (maximizing player to
move), legal-move existence check, then the one-ply scoring loop; a still
null best move falls back to the first generated move. -/
def findBestMove (boardState : BoardState) (settings : Settings) :
    Except GErr (GridCell × GridCell) :=
  match boardState.playerState.twoPlayer.find? (fun p => p.turn) with
  | none => .error .noTurnPlayer
  | some player =>
    if player.isMaximizing = false then .error .invalidInvocation
    else
      let possibleMoves := getAllPossibleMoves boardState player
      if possibleMoves.length = 0 then .error .noLegalMoves
      else
        match fbmLoop settings possibleMoves boardState negInf none with
        | .error e => .error e
        | .ok (bestMove, _) =>
          match bestMove with
          | none => .ok (possibleMoves.headD (phantomCell, phantomCell))
          | some m => .ok m

/-! Well-formedness of the states the game loop actually constructs:
36 cells in row-major order (so a cell reference is the position equal to
the cell id) and two players with distinct ids, one maximizing, one to
move, with all counters inside their caps. -/

/-- Cells are the standard 6x6 row-major grid. -/
def WFCells (cells : List GridCell) : Prop :=
  cells.length = 36 ∧ ∀ i : Nat, i < 36 →
    (cells[i]?.map GridCell.row = some ((i : Int) / 6) ∧
     cells[i]?.map GridCell.column = some ((i : Int) % 6))

/-- All player counters are inside the caps the setters enforce. -/
def PlayerCapped (p : Player) : Prop :=
  p.safetyTower ≤ 6 ∧ p.vault.self ≤ 6 ∧ p.vault.opponent ≤ 6

/-- The player list shape the game constructs: two players, distinct ids,
exactly one maximizing, exactly one whose turn it is, counters capped. -/
def WFPlayers (ps : PlayerState) : Prop :=
  ps.twoPlayer.length = 2 ∧
  (ps.twoPlayer.map Player.id).Nodup ∧
  ps.twoPlayer.countP (fun p => p.isMaximizing) = 1 ∧
  ps.twoPlayer.countP (fun p => p.turn) = 1 ∧
  ∀ p ∈ ps.twoPlayer, PlayerCapped p

/-- Full board well-formedness. -/
def BoardInv (b : BoardState) : Prop :=
  WFCells b.cells ∧ WFPlayers b.playerState

instance (cells : List GridCell) : Decidable (WFCells cells) := by
  unfold WFCells; infer_instance

instance : DecidablePred PlayerCapped := fun p => by
  unfold PlayerCapped; infer_instance

instance (ps : PlayerState) : Decidable (WFPlayers ps) := by
  unfold WFPlayers; infer_instance

instance (b : BoardState) : Decidable (BoardInv b) := by
  unfold BoardInv; infer_instance

/-- Build the cell of index i of a row-major board. -/
def mkCell (i : Nat) (layout : List PlayerId) (direction : Int) (dot : Bool) : GridCell :=
  ⟨(i : Int) / 6, (i : Int) % 6, layout, direction, dot⟩

/-- The 36 empty cells of a fresh row-major board. -/
def emptyCells : List GridCell := (List.range 36).map (fun i => mkCell i [] 0 false)

/-- The initial cell layout the main module builds: user stones with
direction 1 on rows 0 and 1, bot stones with direction -1 on rows 4 and 5. -/
def initCells : List GridCell := (List.range 36).map (fun i =>
  if i < 12 then mkCell i [PlayerId.user] 1 false
  else if 24 ≤ i then mkCell i [PlayerId.bot] (-1) false
  else mkCell i [] 0 false)

/-- The bot player as the main module creates it. -/
def botP : Player := ⟨PlayerId.bot, true, false, false, 0, ⟨0, 0⟩, false⟩

/-- The user player as the main module creates it (user moves first). -/
def userP : Player := ⟨PlayerId.user, false, true, false, 0, ⟨0, 0⟩, false⟩

/-- The factory settings of ConfigState. -/
def factorySettings : Settings :=
  ⟨⟨1, 6, 3⟩, ⟨5⟩, ⟨10, 10, 8, 7, 7, 8, 2, 10⟩, ⟨70, 1⟩, ⟨40⟩⟩

/-- Erase the winner flag of a player (the one player field undoMove never
restores). -/
def Player.eraseWinner (p : Player) : Player := { p with winner := false }

/-- Erase both winner flags of a board. -/
def BoardState.eraseWinner (b : BoardState) : BoardState :=
  { b with playerState := ⟨b.playerState.twoPlayer.map Player.eraseWinner⟩ }

/-! Specification-side definitions used to state the claims. -/

/-- Lookup of the cell at row r, column c following the specification
reading of the board: the cell exists exactly when both coordinates are on
the 6x6 grid, and then it is the cell at position r*6+c. -/
def cellAt (b : BoardState) (r c : Int) : Option GridCell :=
  if 0 ≤ r ∧ r < 6 ∧ 0 ≤ c ∧ c < 6 then b.cells[(r * 6 + c).toNat]? else none

/-- The specification's candidate coordinate list for a move source:
forward one and two rows along the cell direction in the same column,
then, only when the lateral lock is off, the same row at column +-1 and
+-2 wrapped modulo 6, in the order forward-1, forward-2, left-1, left-2,
right-1, right-2. -/
def specCandidates (cell : GridCell) (player : Player) : List (Int × Int) :=
  [(cell.row + cell.direction, cell.column), (cell.row + 2 * cell.direction, cell.column)] ++
  (if player.lastHorizontal = false then
    [(cell.row, (cell.column - 1).emod 6), (cell.row, (cell.column - 2).emod 6),
     (cell.row, (cell.column + 1).emod 6), (cell.row, (cell.column + 2).emod 6)]
  else [])

/-- The specification's legal move relation: a candidate is returned
exactly when it exists on the board and its topmost stack owner differs
from the source's topmost owner. -/
def specLegalMoves (cell : GridCell) (player : Player) (b : BoardState) : List GridCell :=
  (specCandidates cell player).filterMap (fun rc =>
    (cellAt b rc.1 rc.2).bind (fun neighbor =>
      if neighbor.svgLayout.getLast? ≠ cell.svgLayout.getLast? then some neighbor else none))

/-- The two forward candidate checks of getLocalMoves, for stating the
lateral-lock claim. -/
def forwardMoves (cellInst : GridCell) (boardState : BoardState) : List GridCell :=
  checkCell cellInst boardState (cellInst.row + cellInst.direction) cellInst.column ++
  checkCell cellInst boardState (cellInst.row + 2 * cellInst.direction) cellInst.column

/-- The four lateral candidate checks of getLocalMoves, for stating the
lateral-lock claim. -/
def lateralMoves (cellInst : GridCell) (boardState : BoardState) : List GridCell :=
  checkCell cellInst boardState cellInst.row ((cellInst.column + 5).tmod 6) ++
  checkCell cellInst boardState cellInst.row ((cellInst.column + 4).tmod 6) ++
  checkCell cellInst boardState cellInst.row ((cellInst.column + 7).tmod 6) ++
  checkCell cellInst boardState cellInst.row ((cellInst.column + 8).tmod 6)

/-- Modelled from the spec: the maximizing loop of the full-width
reference, visiting every move. -/
def fullMaxLoop (s : Settings)
    (recurse : BoardState → Except GErr (Score × BoardState)) :
    List (GridCell × GridCell) → BoardState → Score →
    Except GErr (Score × BoardState)
  | [], boardState, maxEval => .ok (maxEval, boardState)
  | move :: rest, boardState, maxEval =>
    let si := move.1.id.toNat
    let ti := move.2.id.toNat
    let loggedMove : Move :=
      ⟨boardState.cells.getD si phantomCell, boardState.cells.getD ti phantomCell,
        boardState.playerState⟩
    match boardState.applyMoveAndTurn si ti s.winningRules.maxStackSize with
    | .error e => .error e
    | .ok b1 =>
      match recurse b1 with
      | .error e => .error e
      | .ok (evaluate, b2) =>
        fullMaxLoop s recurse rest (b2.undoMove loggedMove) (max maxEval evaluate)

/-- Modelled from the spec: the minimizing loop of the full-width
reference, visiting every move. -/
def fullMinLoop (s : Settings)
    (recurse : BoardState → Except GErr (Score × BoardState)) :
    List (GridCell × GridCell) → BoardState → Score →
    Except GErr (Score × BoardState)
  | [], boardState, minEval => .ok (minEval, boardState)
  | move :: rest, boardState, minEval =>
    let si := move.1.id.toNat
    let ti := move.2.id.toNat
    let loggedMove : Move :=
      ⟨boardState.cells.getD si phantomCell, boardState.cells.getD ti phantomCell,
        boardState.playerState⟩
    match boardState.applyMoveAndTurn si ti s.winningRules.maxStackSize with
    | .error e => .error e
    | .ok b1 =>
      match recurse b1 with
      | .error e => .error e
      | .ok (evaluate, b2) =>
        fullMinLoop s recurse rest (b2.undoMove loggedMove) (min minEval evaluate)

/-- Modelled from the spec: the pruning-free full-width reference minimax
the specification's differential test compares the alpha-beta search
against.  Identical recursion to minimaxAux with the alpha-beta window and
the pruning break removed. -/
def minimaxFullAux (s : Settings) : Nat → BoardState → Nat →
    Except GErr (Score × BoardState)
  | 0, _, _ => .error .fuel
  | fuel + 1, boardState, depth =>
    let currentPlayer? := boardState.playerState.twoPlayer.find? (fun p => p.turn)
    match getTerminalNodeState boardState depth s with
    | .error e => .error e
    | .ok (some evaluation, b1) => .ok (evaluation, b1)
    | .ok (none, b1) =>
      match currentPlayer? with
      | none => .error .noTurnPlayer
      | some currentPlayer =>
        if currentPlayer.isMaximizing then
          fullMaxLoop s (fun bb => minimaxFullAux s fuel bb (depth + 1))
            (getAllPossibleMoves b1 currentPlayer) b1 negInf
        else
          fullMinLoop s (fun bb => minimaxFullAux s fuel bb (depth + 1))
            (getAllPossibleMoves b1 currentPlayer) b1 posInf

/-- The one-ply score of a single move from a fixed board, as findBestMove
computes it for each generated move: apply the move, run the full-window
minimax at depth 0, and take the score. -/
def oneStepScore (s : Settings) (b : BoardState) (move : GridCell × GridCell) :
    Except GErr Score :=
  match b.applyMoveAndTurn move.1.id.toNat move.2.id.toNat s.winningRules.maxStackSize with
  | .error e => .error e
  | .ok b1 =>
    match minimax s b1 0 negInf posInf with
    | .error e => .error e
    | .ok (score, _) => .ok score

/-- Fail-soft specification: how an alpha-beta result v relates to the
true full-width value w for a window (alpha, beta): exact inside the
window, an upper bound on w when failing low, a lower bound on w when
failing high. -/
def FailSoft (alpha beta w v : Score) : Prop :=
  (v ≤ alpha → w ≤ v) ∧ (beta ≤ v → v ≤ w) ∧ (alpha < v → v < beta → v = w)

/-! Concrete fixtures used by the witnesses. -/

/-- The initial live board: user to move. -/
def initBoard : BoardState := ⟨initCells, ⟨[botP, userP]⟩⟩

/-- The initial board with the bot to move. -/
def initBoardBotTurn : BoardState :=
  ⟨initCells, ⟨[{ botP with turn := true }, { userP with turn := false }]⟩⟩

/-- Factory settings with search depth 1, for small search witnesses. -/
def settingsDepth1 : Settings :=
  ⟨⟨1, 6, 3⟩, ⟨1⟩, ⟨10, 10, 8, 7, 7, 8, 2, 10⟩, ⟨70, 1⟩, ⟨40⟩⟩

/-- The C2 counterexample bot: already holds a secured tower (factory
safety zone count is 1) but its winner flag has not been set yet. -/
def cexBotC2 : Player := { botP with turn := true, safetyTower := 1 }

/-- The C2 counterexample board: the bot to move with one secured tower. -/
def cexBoardC2 : BoardState := ⟨initCells, ⟨[cexBotC2, { userP with turn := false }]⟩⟩

/-- The board minimax actually returns on cexBoardC2: identical except the
bot winner flag set by checkWin. -/
def cexBoardC2x : BoardState :=
  ⟨initCells, ⟨[{ cexBotC2 with winner := true }, { userP with turn := false }]⟩⟩

/-! Theorems.  Shared helper lemmas come first, then one theorem (plus a
witness or a counterexample where required) per specification claim. -/

lemma find?_opponent (ps : PlayerState) (player : Player)
    (hwf : WFPlayers ps) (hmem : player ∈ ps.twoPlayer) :
    ∃ opp, ps.twoPlayer.find? (fun q => q.id != player.id) = some opp ∧
      opp ∈ ps.twoPlayer ∧ opp.id ≠ player.id := by
  obtain ⟨hlen, hnodup, -, -, -⟩ := hwf
  obtain ⟨p, q, hpq⟩ := List.length_eq_two.mp hlen
  rw [hpq] at hmem hnodup ⊢
  have hne : p.id ≠ q.id := by simpa using hnodup
  rcases List.mem_cons.mp hmem with h | h
  · subst h
    have hne' : q.id ≠ player.id := fun hh => hne hh.symm
    exact ⟨q, by simp [hne'], by simp, hne'⟩
  · have h : player = q := by simpa using h
    subst h
    exact ⟨p, by simp [hne], by simp, hne⟩

/-- C7: checkWin(board, player, config) returns true exactly when the
vault threshold is active and reached, or the secured-tower count reaches
the safety-zone count, or it is not the player's turn and either side has
no tower on the board; it sets the winner flag exactly when it returns
true and mutates nothing when it returns false, with the turn-asymmetric
wipeout condition exactly as in the source. -/
theorem checkWin_spec (b : BoardState) (player : Player) (s : Settings)
    (hwf : WFPlayers b.playerState) (hmem : player ∈ b.playerState.twoPlayer) :
    ∃ opp w p',
      b.playerState.twoPlayer.find? (fun q => q.id != player.id) = some opp ∧
      opp.id ≠ player.id ∧
      checkWin b player s = .ok (w, p') ∧
      (w = true ↔
        (((s.winningRules.materialOpponent > 0 ∧
            player.vault.opponent ≥ s.winningRules.materialOpponent) ∨
          player.safetyTower ≥ s.winningRules.safetyZone) ∨
        (player.turn = false ∧
          ((∀ c ∈ b.cells, ¬ c.svgLayout.getLast? = some opp.id) ∨
           (∀ c ∈ b.cells, ¬ c.svgLayout.getLast? = some player.id))))) ∧
      p' = (if w then { player with winner := true } else player) := by
  obtain ⟨opp, hfind, hoppmem, hoppne⟩ := find?_opponent b.playerState player hwf hmem
  by_cases h1 : (s.winningRules.materialOpponent > 0 ∧
      player.vault.opponent ≥ s.winningRules.materialOpponent) ∨
      player.safetyTower ≥ s.winningRules.safetyZone
  · refine ⟨opp, true, { player with winner := true }, hfind, hoppne, ?_, ?_, by simp⟩
    · unfold checkWin
      rw [if_pos h1]
    · simp [h1]
  · by_cases h2 : player.turn = false ∧
        (b.cells.find? (fun cell => cell.svgLayout.getLast? == some opp.id) = none ∨
         b.cells.find? (fun cell => cell.svgLayout.getLast? == some player.id) = none)
    · refine ⟨opp, true, { player with winner := true }, hfind, hoppne, ?_, ?_, by simp⟩
      · unfold checkWin
        rw [if_neg h1, hfind]
        dsimp only
        rw [if_pos h2]
      · simp only [true_iff]
        refine Or.inr ⟨h2.1, ?_⟩
        rcases h2.2 with h | h
        · exact Or.inl (by simpa using List.find?_eq_none.mp h)
        · exact Or.inr (by simpa using List.find?_eq_none.mp h)
    · refine ⟨opp, false, player, hfind, hoppne, ?_, ?_, by simp⟩
      · unfold checkWin
        rw [if_neg h1, hfind]
        dsimp only
        rw [if_neg h2]
      · refine iff_of_false (by simp) ?_
        intro hcontra
        rcases hcontra with h | ⟨hturn, h⟩
        · exact h1 h
        · refine h2 ⟨hturn, ?_⟩
          rcases h with h | h
          · exact Or.inl (List.find?_eq_none.mpr (by simpa using h))
          · exact Or.inr (List.find?_eq_none.mpr (by simpa using h))

/-- Witness for C7: the win check evaluated for the bot on the initial
board under factory settings. -/
theorem checkWin_spec_witness :
    WFPlayers initBoard.playerState ∧ botP ∈ initBoard.playerState.twoPlayer ∧
    (∃ opp w p',
      initBoard.playerState.twoPlayer.find? (fun q => q.id != botP.id) = some opp ∧
      opp.id ≠ botP.id ∧
      checkWin initBoard botP factorySettings = .ok (w, p') ∧
      (w = true ↔
        (((factorySettings.winningRules.materialOpponent > 0 ∧
            botP.vault.opponent ≥ factorySettings.winningRules.materialOpponent) ∨
          botP.safetyTower ≥ factorySettings.winningRules.safetyZone) ∨
        (botP.turn = false ∧
          ((∀ c ∈ initBoard.cells, ¬ c.svgLayout.getLast? = some opp.id) ∨
           (∀ c ∈ initBoard.cells, ¬ c.svgLayout.getLast? = some botP.id))))) ∧
      p' = (if w then { botP with winner := true } else botP)) :=
  ⟨by decide, by decide,
    checkWin_spec initBoard botP factorySettings (by decide) (by decide)⟩

lemma min6_add_min6 (x b : Nat) : min 6 (min 6 x + b) = min 6 (x + b) := by omega

lemma countP_add_countP_not {α : Type} (l : List α) (p : α → Bool) :
    l.countP p + l.countP (fun a => !(p a)) = l.length := by
  induction l with
  | nil => rfl
  | cons x xs ih => by_cases h : p x <;> simp [List.countP_cons, h] <;> omega

lemma tail_append_of_ne_nil {α : Type} (a b : List α) (ha : a ≠ []) :
    (a ++ b).tail = a.tail ++ b := by
  cases a with
  | nil => exact absurd rfl ha
  | cons x xs => simp

lemma drop_tail_eq {α : Type} (l : List α) (n : Nat) : l.tail.drop n = l.drop (n + 1) := by
  cases l <;> simp

lemma take_succ_of_ne_nil {α : Type} (l : List α) (n : Nat) (x : α) (h : l.head? = some x) :
    l.take (n + 1) = x :: l.tail.take n := by
  cases l with
  | nil => simp at h
  | cons y ys => simp at h; simp [h]

/-- Closed form of the stacking loop of stackTowers: the final layout is
the concatenation with the bottom overflow removed, and the vault got one
capped credit per removed stone, keyed by whether the removed stone was
the mover's own. -/
lemma foldl_stackStep_spec (mss : Nat) :
    ∀ (stones layout : List PlayerId) (player : Player),
      player.vault.self ≤ 6 → player.vault.opponent ≤ 6 →
      List.foldl (stackStep mss) (player, layout) stones =
        (player.setVault
          ⟨player.vault.self +
            ((layout ++ stones).take (layout.length + stones.length - max mss layout.length)).countP
              (fun st => st == player.id),
           player.vault.opponent +
            ((layout ++ stones).take (layout.length + stones.length - max mss layout.length)).countP
              (fun st => !(st == player.id))⟩,
         (layout ++ stones).drop (layout.length + stones.length - max mss layout.length)) := by
  intro stones
  induction stones with
  | nil =>
    intro layout player hself hopp
    simp only [List.foldl_nil, List.append_nil, List.length_nil, Nat.add_zero]
    have hk : layout.length - max mss layout.length = 0 := by
      simp [Nat.sub_eq_zero_iff_le]
    rw [hk]
    simp only [List.take_zero, List.drop_zero, List.countP_nil, Nat.add_zero]
    have hpl : player.setVault ⟨player.vault.self, player.vault.opponent⟩ = player := by
      simp [Player.setVault, Nat.min_eq_right hself, Nat.min_eq_right hopp]
    rw [hpl]
  | cons st rest ih =>
    intro layout player hself hopp
    rw [List.foldl_cons]
    by_cases hover : (layout ++ [st]).length > mss
    · have hmle : mss ≤ layout.length := by
        have := hover; simp at this; omega
      have hmaxL : max mss layout.length = layout.length := Nat.max_eq_right hmle
      have hmaxL' : max mss (layout ++ [st]).tail.length = (layout ++ [st]).tail.length := by
        apply Nat.max_eq_right
        simpa using Nat.le_trans hmle (by simp)
      have hXeq : (layout ++ [st]) ++ rest = layout ++ st :: rest := by simp
      have hheadX : ∃ hd, (layout ++ st :: rest).head? = some hd ∧
          (layout ++ [st]).head? = some hd := by
        cases layout with
        | nil => exact ⟨st, rfl, rfl⟩
        | cons y ys => exact ⟨y, rfl, rfl⟩
      obtain ⟨hd, hXhd, hLhd⟩ := hheadX
      have htail : (layout ++ [st]).tail ++ rest = (layout ++ st :: rest).tail := by
        rw [← hXeq, tail_append_of_ne_nil (layout ++ [st]) rest (by simp)]
      have hlen : (layout ++ [st]).tail.length = layout.length := by simp
      have hkgoal : layout.length + (st :: rest).length - max mss layout.length
          = rest.length + 1 := by
        simp only [List.length_cons, hmaxL]; omega
      have hk' : (layout ++ [st]).tail.length + rest.length - max mss (layout ++ [st]).tail.length
          = rest.length := by rw [hmaxL']; omega
      have htakeX : (layout ++ st :: rest).take (rest.length + 1) =
          hd :: (layout ++ st :: rest).tail.take rest.length :=
        take_succ_of_ne_nil _ rest.length hd hXhd
      by_cases hcred : (layout ++ [st]).head? = some player.id
      · have hstep : stackStep mss (player, layout) st =
            (player.setVault ⟨player.vault.self + 1, player.vault.opponent⟩,
              (layout ++ [st]).tail) := by
          unfold stackStep
          dsimp only
          rw [if_pos hover, if_pos hcred]
        rw [hstep, ih _ _ (Nat.min_le_left _ _) (Nat.min_le_left _ _)]
        have hhd : hd = player.id := by rw [hLhd] at hcred; simpa using hcred
        have hpid : (player.setVault ⟨player.vault.self + 1, player.vault.opponent⟩).id
            = player.id := rfl
        rw [hkgoal, htakeX, htail, hk', drop_tail_eq]
        refine congrArg₂ Prod.mk ?_ rfl
        simp [Player.setVault, hpid, List.countP_cons, hhd, Player.mk.injEq, Vault.mk.injEq]
        constructor <;> omega
      · have hstep : stackStep mss (player, layout) st =
            (player.setVault ⟨player.vault.self, player.vault.opponent + 1⟩,
              (layout ++ [st]).tail) := by
          unfold stackStep
          dsimp only
          rw [if_pos hover, if_neg hcred]
        rw [hstep, ih _ _ (Nat.min_le_left _ _) (Nat.min_le_left _ _)]
        have hhd : ¬ hd = player.id := by
          rw [hLhd] at hcred
          intro hcon
          exact hcred (by rw [hcon])
        have hpid : (player.setVault ⟨player.vault.self, player.vault.opponent + 1⟩).id
            = player.id := rfl
        rw [hkgoal, htakeX, htail, hk', drop_tail_eq]
        refine congrArg₂ Prod.mk ?_ rfl
        simp [Player.setVault, hpid, List.countP_cons, hhd, Player.mk.injEq, Vault.mk.injEq]
        constructor <;> omega
    · have hmlt : layout.length + 1 ≤ mss := by
        have := hover; simp at this; omega
      have hstep : stackStep mss (player, layout) st = (player, layout ++ [st]) := by
        unfold stackStep
        dsimp only
        rw [if_neg hover]
      rw [hstep, ih (layout ++ [st]) player hself hopp]
      have h1 : (layout ++ [st]) ++ rest = layout ++ st :: rest := by simp
      have h2 : (layout ++ [st]).length + rest.length - max mss (layout ++ [st]).length
          = layout.length + (st :: rest).length - max mss layout.length := by
        have hm1 : max mss (layout ++ [st]).length = mss := by
          apply Nat.max_eq_left; simpa using hmlt
        have hm2 : max mss layout.length = mss := Nat.max_eq_left (by omega)
        rw [hm1, hm2]
        simp only [List.length_append, List.length_cons, List.length_nil]
        omega
      rw [h1, h2]

/-- C5: when a move stacks a non-empty source onto a non-empty
opponent-topped target, every source stone is pushed in source
bottom-to-top order; the stones removed from the bottom are exactly the
overflow beyond maxStackSize, and for each removed stone exactly one of
the mover's vault counters is credited (own for the mover's stones,
opponent otherwise), each counter capped at 6. -/
theorem stackTowers_overflow_spec (src tgt : GridCell) (player : Player) (mss : Nat)
    (hsrc : src.svgLayout ≠ []) (htgt : tgt.svgLayout ≠ [])
    (htop : src.svgLayout.getLast? ≠ tgt.svgLayout.getLast?)
    (hself : player.vault.self ≤ 6) (hopp : player.vault.opponent ≤ 6) :
    ∃ tgt' player', stackTowers src tgt player mss = .ok (tgt', player') ∧
      tgt'.svgLayout =
        (tgt.svgLayout ++ src.svgLayout).drop
          (tgt.svgLayout.length + src.svgLayout.length - max mss tgt.svgLayout.length) ∧
      ((tgt.svgLayout ++ src.svgLayout).take
          (tgt.svgLayout.length + src.svgLayout.length - max mss tgt.svgLayout.length)).length =
        tgt.svgLayout.length + src.svgLayout.length - max mss tgt.svgLayout.length ∧
      player'.vault.self = min 6 (player.vault.self +
        ((tgt.svgLayout ++ src.svgLayout).take
          (tgt.svgLayout.length + src.svgLayout.length - max mss tgt.svgLayout.length)).countP
            (fun st => st == player.id)) ∧
      player'.vault.opponent = min 6 (player.vault.opponent +
        ((tgt.svgLayout ++ src.svgLayout).take
          (tgt.svgLayout.length + src.svgLayout.length - max mss tgt.svgLayout.length)).countP
            (fun st => !(st == player.id))) ∧
      ((tgt.svgLayout ++ src.svgLayout).take
          (tgt.svgLayout.length + src.svgLayout.length - max mss tgt.svgLayout.length)).countP
          (fun st => st == player.id) +
        ((tgt.svgLayout ++ src.svgLayout).take
          (tgt.svgLayout.length + src.svgLayout.length - max mss tgt.svgLayout.length)).countP
          (fun st => !(st == player.id)) =
        ((tgt.svgLayout ++ src.svgLayout).take
          (tgt.svgLayout.length + src.svgLayout.length - max mss tgt.svgLayout.length)).length ∧
      player'.id = player.id ∧ player'.turn = player.turn ∧
      player'.lastHorizontal = player.lastHorizontal ∧
      player'.safetyTower = player.safetyTower ∧ player'.winner = player.winner ∧
      tgt'.row = tgt.row ∧ tgt'.column = tgt.column ∧
      tgt'.direction = tgt.direction ∧ tgt'.dot = tgt.dot := by
  unfold stackTowers
  rw [if_neg hsrc, if_neg htgt, if_pos htop]
  rw [foldl_stackStep_spec mss src.svgLayout tgt.svgLayout player hself hopp]
  refine ⟨_, _, rfl, rfl, ?_, by simp [Player.setVault], by simp [Player.setVault],
    countP_add_countP_not _ _, by simp [Player.setVault], by simp [Player.setVault],
    by simp [Player.setVault], by simp [Player.setVault], by simp [Player.setVault],
    rfl, rfl, rfl, rfl⟩
  rw [List.length_take]
  have : tgt.svgLayout.length + src.svgLayout.length - max mss tgt.svgLayout.length ≤
      (tgt.svgLayout ++ src.svgLayout).length := by
    simp only [List.length_append]; omega
  omega

/-- Witness for C5: stacking a single user stone as the fourth element
onto a three-stone bot-topped target with maximum stack size 3 removes the
bottom stone and credits the mover's opponent counter. -/
theorem stackTowers_overflow_spec_witness :
    (⟨2, 0, [PlayerId.user], 1, false⟩ : GridCell).svgLayout ≠ [] ∧
    (∃ tgt' player',
      stackTowers ⟨2, 0, [PlayerId.user], 1, false⟩
        ⟨3, 0, [PlayerId.user, PlayerId.bot, PlayerId.bot], (-1), false⟩ userP 3 =
        .ok (tgt', player') ∧
      tgt'.svgLayout =
        (([PlayerId.user, PlayerId.bot, PlayerId.bot] ++ [PlayerId.user]).drop
          (3 + 1 - max 3 3)) ∧
      (([PlayerId.user, PlayerId.bot, PlayerId.bot] ++ [PlayerId.user]).take
          (3 + 1 - max 3 3)).length = 3 + 1 - max 3 3 ∧
      player'.vault.self = min 6 (userP.vault.self +
        (([PlayerId.user, PlayerId.bot, PlayerId.bot] ++ [PlayerId.user]).take
          (3 + 1 - max 3 3)).countP (fun st => st == userP.id)) ∧
      player'.vault.opponent = min 6 (userP.vault.opponent +
        (([PlayerId.user, PlayerId.bot, PlayerId.bot] ++ [PlayerId.user]).take
          (3 + 1 - max 3 3)).countP (fun st => !(st == userP.id)))) := by
  have h := stackTowers_overflow_spec ⟨2, 0, [PlayerId.user], 1, false⟩
    ⟨3, 0, [PlayerId.user, PlayerId.bot, PlayerId.bot], (-1), false⟩ userP 3
    (by decide) (by decide) (by decide) (by decide) (by decide)
  obtain ⟨tgt', player', h1, h2, h3, h4, h5, -⟩ := h
  exact ⟨by decide, tgt', player', h1, h2, h3, h4, h5⟩

/-- Successful stacking: with a non-empty source and an empty or
differently-topped target, stackTowers returns a non-empty target layout
and changes nothing but the target layout and the mover's vault. -/
lemma stackTowers_ok (src tgt : GridCell) (player : Player) (mss : Nat)
    (hsrc : src.svgLayout ≠ [])
    (hok : tgt.svgLayout = [] ∨ src.svgLayout.getLast? ≠ tgt.svgLayout.getLast?)
    (hself : player.vault.self ≤ 6) (hopp : player.vault.opponent ≤ 6) :
    ∃ tgt0 player0, stackTowers src tgt player mss = .ok (tgt0, player0) ∧
      tgt0.svgLayout ≠ [] ∧ tgt0.row = tgt.row ∧ tgt0.column = tgt.column ∧
      tgt0.direction = tgt.direction ∧ tgt0.dot = tgt.dot ∧
      player0.id = player.id ∧ player0.safetyTower = player.safetyTower ∧
      player0.turn = player.turn ∧ player0.lastHorizontal = player.lastHorizontal ∧
      player0.winner = player.winner := by
  by_cases htgt : tgt.svgLayout = []
  · refine ⟨{ tgt with svgLayout := src.svgLayout }, player, ?_, by simpa using hsrc,
      rfl, rfl, rfl, rfl, rfl, rfl, rfl, rfl, rfl⟩
    unfold stackTowers
    rw [if_neg hsrc, if_pos htgt]
  · have htop : src.svgLayout.getLast? ≠ tgt.svgLayout.getLast? := hok.resolve_left htgt
    obtain ⟨tgt', player', h1, h2, -, -, -, -, hid, hturn', hlat', hsafe', hwin', hrow, hcol,
      hdir, hdot⟩ := stackTowers_overflow_spec src tgt player mss hsrc htgt htop hself hopp
    refine ⟨tgt', player', h1, ?_, hrow, hcol, hdir, hdot, hid, hsafe', hturn', hlat', hwin'⟩
    rw [h2]
    intro hcon
    have hlen := congrArg List.length hcon
    rw [List.length_drop, List.length_append, List.length_nil] at hlen
    have h1p : 1 ≤ tgt.svgLayout.length := List.length_pos.mpr htgt
    omega

lemma playChain_row (srcInst t : GridCell) (player0 : Player) :
    (captureBot srcInst (captureUser srcInst (reverseBot srcInst (reverseUser srcInst t),
      player0))).1.row = t.row := by
  unfold captureBot captureUser reverseBot reverseUser
  split_ifs <;> rfl

lemma playChain_col (srcInst t : GridCell) (player0 : Player) :
    (captureBot srcInst (captureUser srcInst (reverseBot srcInst (reverseUser srcInst t),
      player0))).1.column = t.column := by
  unfold captureBot captureUser reverseBot reverseUser
  split_ifs <;> rfl

lemma playChain_player (srcInst t : GridCell) (player0 : Player) :
    (captureBot srcInst (captureUser srcInst (reverseBot srcInst (reverseUser srcInst t),
      player0))).2.id = player0.id ∧
    (captureBot srcInst (captureUser srcInst (reverseBot srcInst (reverseUser srcInst t),
      player0))).2.isMaximizing = player0.isMaximizing ∧
    (captureBot srcInst (captureUser srcInst (reverseBot srcInst (reverseUser srcInst t),
      player0))).2.turn = player0.turn ∧
    (captureBot srcInst (captureUser srcInst (reverseBot srcInst (reverseUser srcInst t),
      player0))).2.winner = player0.winner ∧
    (captureBot srcInst (captureUser srcInst (reverseBot srcInst (reverseUser srcInst t),
      player0))).2.vault = player0.vault ∧
    (PlayerCapped player0 →
      PlayerCapped (captureBot srcInst (captureUser srcInst (reverseBot srcInst
        (reverseUser srcInst t), player0))).2) := by
  unfold captureBot captureUser reverseBot reverseUser
  split_ifs <;>
    refine ⟨rfl, rfl, rfl, rfl, rfl, fun hcap => ?_⟩ <;>
    · unfold PlayerCapped at hcap ⊢
      simp only [Player.setSafetyTower]
      omega

/-- C6: inherited direction and reversal flag, the two far-edge reversal
rules and the two origin-edge safety captures of playMove, with capture
firing exactly at the mover's origin row — for the user far row 5 and
origin row 0, for the bot far row 0 and origin row 5. -/
theorem playMove_reversal_capture_spec (src tgt : GridCell) (player : Player) (mss : Nat)
    (hsrc : src.svgLayout ≠ [])
    (hok : tgt.svgLayout = [] ∨ src.svgLayout.getLast? ≠ tgt.svgLayout.getLast?)
    (hself : player.vault.self ≤ 6) (hopp : player.vault.opponent ≤ 6) :
    ∃ src' tgt' player', playMoveCells src tgt player mss = .ok (src', tgt', player') ∧
      (src.svgLayout.getLast? = some PlayerId.user → tgt.row = 5 → src.dot = false →
        tgt'.direction = src.direction * (-1) ∧ tgt'.dot = true ∧ tgt'.svgLayout ≠ [] ∧
        player'.safetyTower = player.safetyTower) ∧
      (src.svgLayout.getLast? = some PlayerId.bot → tgt.row = 0 → src.dot = false →
        tgt'.direction = src.direction * (-1) ∧ tgt'.dot = true ∧ tgt'.svgLayout ≠ [] ∧
        player'.safetyTower = player.safetyTower) ∧
      (src.svgLayout.getLast? = some PlayerId.user → tgt.row = 0 → src.dot = true →
        tgt'.svgLayout = [] ∧ tgt'.direction = 0 ∧ tgt'.dot = false ∧
        player'.safetyTower = min 6 (player.safetyTower + 1)) ∧
      (src.svgLayout.getLast? = some PlayerId.bot → tgt.row = 5 → src.dot = true →
        tgt'.svgLayout = [] ∧ tgt'.direction = 0 ∧ tgt'.dot = false ∧
        player'.safetyTower = min 6 (player.safetyTower + 1)) ∧
      (src.svgLayout.getLast? = some PlayerId.user → src.dot = true → ¬ tgt.row = 0 →
        tgt'.dot = true ∧ tgt'.svgLayout ≠ [] ∧
        player'.safetyTower = player.safetyTower) ∧
      (src.svgLayout.getLast? = some PlayerId.bot → src.dot = true → ¬ tgt.row = 5 →
        tgt'.dot = true ∧ tgt'.svgLayout ≠ [] ∧
        player'.safetyTower = player.safetyTower) := by
  obtain ⟨tgt0, player0, hst, hne0, hrow0, hcol0, hdir0, hdot0, hid0, hsafe0, hturn0,
    hlat0, hwin0⟩ := stackTowers_ok src tgt player mss hsrc hok hself hopp
  unfold playMoveCells
  rw [hst]
  dsimp only
  refine ⟨_, _, _, rfl, ?_, ?_, ?_, ?_, ?_, ?_⟩
  · intro h1 h2 h3
    simp [h1, h2, h3, hrow0, hne0, hsafe0, Player.setSafetyTower,
      reverseUser, reverseBot, captureUser, captureBot]
  · intro h1 h2 h3
    simp [h1, h2, h3, hrow0, hne0, hsafe0, Player.setSafetyTower,
      reverseUser, reverseBot, captureUser, captureBot]
  · intro h1 h2 h3
    simp [h1, h2, h3, hrow0, hne0, hsafe0, Player.setSafetyTower,
      reverseUser, reverseBot, captureUser, captureBot]
  · intro h1 h2 h3
    simp [h1, h2, h3, hrow0, hne0, hsafe0, Player.setSafetyTower,
      reverseUser, reverseBot, captureUser, captureBot]
  · intro h1 h2 h3
    simp [h1, h2, h3, hrow0, hne0, hsafe0, Player.setSafetyTower,
      reverseUser, reverseBot, captureUser, captureBot]
  · intro h1 h2 h3
    simp [h1, h2, h3, hrow0, hne0, hsafe0, Player.setSafetyTower,
      reverseUser, reverseBot, captureUser, captureBot]

/-- Witness for C6: a reversed user tower at row 1 capturing at row 0, and
the hypotheses of the rule theorem at that concrete input. -/
theorem playMove_reversal_capture_spec_witness :
    (⟨1, 0, [PlayerId.user], (-1), true⟩ : GridCell).svgLayout ≠ [] ∧
    (∃ src' tgt' player',
      playMoveCells ⟨1, 0, [PlayerId.user], (-1), true⟩ ⟨0, 0, [], 0, false⟩ userP 3 =
        .ok (src', tgt', player') ∧
      tgt'.svgLayout = [] ∧ tgt'.direction = 0 ∧ tgt'.dot = false ∧
      player'.safetyTower = min 6 (userP.safetyTower + 1)) := by
  have h := playMove_reversal_capture_spec ⟨1, 0, [PlayerId.user], (-1), true⟩
    ⟨0, 0, [], 0, false⟩ userP 3 (by decide) (Or.inl rfl) (by decide) (by decide)
  obtain ⟨src', tgt', player', hok, -, -, hcap, -, -, -⟩ := h
  exact ⟨by decide, src', tgt', player', hok, hcap rfl rfl rfl⟩

lemma find?_first_index {α : Type} (l : List α) (p : α → Bool) (j : Nat) (hj : j < l.length)
    (hpj : p (l.get ⟨j, hj⟩)) (hbefore : ∀ i, i < j → ∀ h : i < l.length, ¬ p (l.get ⟨i, h⟩)) :
    l.find? p = some (l.get ⟨j, hj⟩) := by
  induction l generalizing j with
  | nil => simp at hj
  | cons x xs ih =>
    cases j with
    | zero => exact List.find?_cons_of_pos _ hpj
    | succ j' =>
      have hx : ¬ p x := by
        have := hbefore 0 (Nat.succ_pos _) (by simp)
        simpa using this
      rw [List.find?_cons_of_neg _ hx]
      exact ih j' (by simpa using hj) hpj
        (fun i hi h => by
          have := hbefore (i + 1) (by omega) (by simpa using h)
          simpa using this)

/-- On a well-formed board, the coordinate search of getLocalMoves agrees
with the specification lookup cellAt. -/
lemma find?_coords (b : BoardState) (hwf : WFCells b.cells) (r c : Int) :
    b.cells.find? (fun inst => inst.row == r && inst.column == c) = cellAt b r c := by
  obtain ⟨hlen, hcoords⟩ := hwf
  have hget : ∀ i, ∀ h : i < 36, (b.cells.get ⟨i, by omega⟩).row = (i : Int) / 6 ∧
      (b.cells.get ⟨i, by omega⟩).column = (i : Int) % 6 := by
    intro i hi
    have := hcoords i hi
    have hgetem : b.cells[i]? = some (b.cells.get ⟨i, by omega⟩) := by
      rw [List.getElem?_eq_some_iff]
      exact ⟨by omega, by simp⟩
    rw [hgetem] at this
    simpa using this
  by_cases hrange : 0 ≤ r ∧ r < 6 ∧ 0 ≤ c ∧ c < 6
  · obtain ⟨hr0, hr6, hc0, hc6⟩ := hrange
    have hj : (r * 6 + c).toNat < 36 := by omega
    have hj' : (r * 6 + c).toNat < b.cells.length := by omega
    have hjint : ((r * 6 + c).toNat : Int) = r * 6 + c := by omega
    have hpj : (fun inst : GridCell => inst.row == r && inst.column == c)
        (b.cells.get ⟨(r * 6 + c).toNat, hj'⟩) = true := by
      obtain ⟨h1, h2⟩ := hget (r * 6 + c).toNat hj
      simp only [Bool.and_eq_true, beq_iff_eq]
      constructor
      · rw [h1, hjint]; omega
      · rw [h2, hjint]; omega
    rw [find?_first_index _ _ (r * 6 + c).toNat hj' hpj ?_]
    · unfold cellAt
      rw [if_pos ⟨hr0, hr6, hc0, hc6⟩]
      symm
      rw [List.getElem?_eq_some_iff]
      exact ⟨hj', by simp⟩
    · intro i hi h
      obtain ⟨h1, h2⟩ := hget i (by omega)
      simp only [Bool.and_eq_true, beq_iff_eq, not_and]
      intro hr hc
      rw [h1] at hr
      rw [h2] at hc
      omega
  · have hnone : b.cells.find? (fun inst => inst.row == r && inst.column == c) = none := by
      rw [List.find?_eq_none]
      intro x hx
      obtain ⟨i, hilen, hxi⟩ := List.mem_iff_getElem.mp hx
      have hi36 : i < 36 := by omega
      obtain ⟨h1, h2⟩ := hget i hi36
      have hx1 : x.row = (i : Int) / 6 := by rw [← hxi]; exact h1
      have hx2 : x.column = (i : Int) % 6 := by rw [← hxi]; exact h2
      simp only [Bool.and_eq_true, beq_iff_eq, not_and]
      intro hr hc
      rw [hx1] at hr
      rw [hx2] at hc
      omega
    rw [hnone]
    unfold cellAt
    rw [if_neg hrange]

lemma filterMap_cons_toList {α β : Type} (f : α → Option β) (x : α) (l : List α) :
    (x :: l).filterMap f = (f x).toList ++ l.filterMap f := by
  cases h : f x <;> simp [List.filterMap_cons, h]

lemma tmod_cols (x : Int) (h0 : 0 ≤ x) (h6 : x < 6) :
    (x + 5).tmod 6 = (x - 1).emod 6 ∧ (x + 4).tmod 6 = (x - 2).emod 6 ∧
    (x + 7).tmod 6 = (x + 1).emod 6 ∧ (x + 8).tmod 6 = (x + 2).emod 6 := by
  interval_cases x <;> exact ⟨by decide, by decide, by decide, by decide⟩

/-- C4: on a well-formed board, getLocalMoves returns exactly the
specification's candidates — forward one and two rows along the direction,
plus, only without the lateral lock, the same row at the four wrapped
lateral columns — each kept exactly when the cell exists and its top owner
differs from the source top owner, in the order forward-1, forward-2,
left-1, left-2, right-1, right-2. -/
theorem getLocalMoves_eq_spec (cell : GridCell) (player : Player) (b : BoardState)
    (hwf : WFCells b.cells) (hsrc : cell.svgLayout ≠ [])
    (hcol0 : 0 ≤ cell.column) (hcol6 : cell.column < 6) :
    getLocalMoves cell player b = specLegalMoves cell player b := by
  have hcheck : ∀ r c : Int, checkCell cell b r c =
      ((cellAt b r c).bind (fun n =>
        if n.svgLayout.getLast? ≠ cell.svgLayout.getLast? then some n else none)).toList := by
    intro r c
    unfold checkCell
    rw [find?_coords b hwf r c]
    cases cellAt b r c with
    | none => rfl
    | some n =>
      by_cases h : n.svgLayout.getLast? ≠ cell.svgLayout.getLast?
      · simp [h]
      · push_neg at h
        simp [h]
  obtain ⟨e1, e2, e3, e4⟩ := tmod_cols cell.column hcol0 hcol6
  unfold getLocalMoves specLegalMoves specCandidates
  dsimp only
  by_cases hlat : player.lastHorizontal = false
  · rw [if_pos hlat, if_pos hlat]
    simp only [List.cons_append, List.nil_append, filterMap_cons_toList, List.filterMap_nil,
      List.append_nil, List.append_assoc]
    rw [hcheck, hcheck, hcheck, hcheck, hcheck, hcheck, e1, e2, e3, e4]
  · rw [if_neg hlat, if_neg hlat]
    simp only [List.cons_append, List.nil_append, filterMap_cons_toList, List.filterMap_nil,
      List.append_nil, List.append_assoc]
    rw [hcheck, hcheck]

/-- Witness for C4: the expanded legal moves of the user tower at row 2,
column 2 on a board with one extra user tower, matching the specification
list. -/
theorem getLocalMoves_eq_spec_witness :
    WFCells (⟨initCells.set 14 (mkCell 14 [PlayerId.user] 1 false), ⟨[botP, userP]⟩⟩
        : BoardState).cells ∧
    getLocalMoves (mkCell 14 [PlayerId.user] 1 false) userP
        ⟨initCells.set 14 (mkCell 14 [PlayerId.user] 1 false), ⟨[botP, userP]⟩⟩ =
      specLegalMoves (mkCell 14 [PlayerId.user] 1 false) userP
        ⟨initCells.set 14 (mkCell 14 [PlayerId.user] 1 false), ⟨[botP, userP]⟩⟩ :=
  ⟨by decide,
    getLocalMoves_eq_spec (mkCell 14 [PlayerId.user] 1 false) userP
      ⟨initCells.set 14 (mkCell 14 [PlayerId.user] 1 false), ⟨[botP, userP]⟩⟩
      (by decide) (by decide) (by decide) (by decide)⟩

lemma stackTowers_row (src tgt : GridCell) (player : Player) (mss : Nat)
    (tgt0 : GridCell) (player0 : Player)
    (h : stackTowers src tgt player mss = .ok (tgt0, player0)) : tgt0.row = tgt.row := by
  unfold stackTowers at h
  by_cases h1 : src.svgLayout = []
  · rw [if_pos h1] at h; cases h
  · rw [if_neg h1] at h
    by_cases h2 : tgt.svgLayout = []
    · rw [if_pos h2] at h
      simp only [Except.ok.injEq, Prod.mk.injEq] at h
      rw [← h.1]
    · rw [if_neg h2] at h
      by_cases h3 : src.svgLayout.getLast? ≠ tgt.svgLayout.getLast?
      · rw [if_pos h3] at h
        simp only [Except.ok.injEq, Prod.mk.injEq] at h
        rw [← h.1]
      · rw [if_neg h3] at h; cases h

/-- C10: a move sets the mover's lateral lock exactly when target and
source rows agree; a locked player's getLocalMoves returns the forward
candidates only; an unlocked player's getLocalMoves appends the lateral
candidates after them; and every forward candidate sits on a different
row, so the locked player's next move is never lateral. -/
theorem lateral_lock_spec :
    (∀ (src tgt : GridCell) (player : Player) (mss : Nat)
        (src' tgt' : GridCell) (player' : Player),
      playMoveCells src tgt player mss = .ok (src', tgt', player') →
      (player'.lastHorizontal = true ↔ tgt.row = src.row)) ∧
    (∀ (cell : GridCell) (player : Player) (b : BoardState), player.lastHorizontal = true →
      getLocalMoves cell player b = forwardMoves cell b) ∧
    (∀ (cell : GridCell) (player : Player) (b : BoardState), player.lastHorizontal = false →
      getLocalMoves cell player b = forwardMoves cell b ++ lateralMoves cell b) ∧
    (∀ (cell : GridCell) (b : BoardState), WFCells b.cells → cell ∈ b.cells →
      ∀ c' ∈ forwardMoves cell b, ¬ c'.row = cell.row) := by
  refine ⟨?_, ?_, ?_, ?_⟩
  · intro src tgt player mss src' tgt' player' h
    unfold playMoveCells at h
    cases hst : stackTowers src tgt player mss with
    | error e => rw [hst] at h; cases h
    | ok v =>
      rw [hst] at h
      obtain ⟨tgt0, player0⟩ := v
      have hrow0 : tgt0.row = tgt.row := stackTowers_row src tgt player mss tgt0 player0 hst
      dsimp only at h
      simp only [Except.ok.injEq, Prod.mk.injEq] at h
      obtain ⟨-, -, hpl⟩ := h
      rw [← hpl]
      have hchain := playChain_row src
        { tgt0 with direction := src.direction, dot := src.dot } player0
      simp only [hrow0] at hchain
      simp [hrow0, hchain, decide_eq_true_eq]
  · intro cell player b hlock
    unfold getLocalMoves forwardMoves
    dsimp only
    rw [if_neg (by simp [hlock])]
    rw [List.append_nil]
  · intro cell player b hlock
    unfold getLocalMoves forwardMoves lateralMoves
    dsimp only
    rw [if_pos hlock]
  · intro cell b hwf hmem c' hc'
    unfold forwardMoves at hc'
    have hfind : ∀ r c : Int, c' ∈ checkCell cell b r c →
        c'.row = r ∧ c'.column = c ∧ c'.svgLayout.getLast? ≠ cell.svgLayout.getLast? := by
      intro r c hmem'
      unfold checkCell at hmem'
      cases hf : b.cells.find? (fun inst => inst.row == r && inst.column == c) with
      | none => rw [hf] at hmem'; exact absurd hmem' (List.not_mem_nil c')
      | some n =>
        rw [hf] at hmem'
        dsimp only at hmem'
        have hpred := List.find?_some hf
        simp only [Bool.and_eq_true, beq_iff_eq] at hpred
        by_cases htop : n.svgLayout.getLast? ≠ cell.svgLayout.getLast?
        · rw [if_pos htop] at hmem'
          have : c' = n := by simpa using hmem'
          subst this
          exact ⟨hpred.1, hpred.2, htop⟩
        · rw [if_neg htop] at hmem'
          exact absurd hmem' (List.not_mem_nil c')
    by_cases hdir : cell.direction = 0
    · exfalso
      have hselffind : b.cells.find?
          (fun inst => inst.row == cell.row && inst.column == cell.column) = some cell := by
        have hcellat : cellAt b cell.row cell.column = some cell := by
          obtain ⟨i, hilen, hxi⟩ := List.mem_iff_getElem.mp hmem
          have hi36 : i < 36 := by
            have := hwf.1
            omega
          obtain ⟨h1, h2⟩ := hwf.2 i hi36
          have hgetem : b.cells[i]? = some (b.cells[i]) :=
            List.getElem?_eq_some_iff.mpr ⟨hilen, rfl⟩
          rw [hgetem] at h1 h2
          simp at h1 h2
          rw [hxi] at h1 h2
          have hr0 : 0 ≤ cell.row ∧ cell.row < 6 ∧ 0 ≤ cell.column ∧ cell.column < 6 := by
            rw [h1, h2]
            omega
          unfold cellAt
          rw [if_pos hr0]
          have hidx : (cell.row * 6 + cell.column).toNat = i := by
            rw [h1, h2]
            omega
          rw [hidx, hgetem, hxi]
        rw [find?_coords b hwf cell.row cell.column, hcellat]
      have hcmem : c' ∈ checkCell cell b cell.row cell.column := by
        rcases List.mem_append.mp hc' with h | h
        · rw [hdir, add_zero] at h
          exact h
        · rw [hdir, mul_zero, add_zero] at h
          exact h
      unfold checkCell at hcmem
      rw [hselffind] at hcmem
      dsimp only at hcmem
      rw [if_neg (by simp)] at hcmem
      exact absurd hcmem (List.not_mem_nil c')
    · rcases List.mem_append.mp hc' with h | h
      · obtain ⟨hr, -, -⟩ := hfind _ _ h
        rw [hr]
        intro hcon
        omega
      · obtain ⟨hr, -, -⟩ := hfind _ _ h
        rw [hr]
        intro hcon
        omega

lemma foldl_stackStep_fields (mss : Nat) (stones : List PlayerId) :
    ∀ (layout : List PlayerId) (player : Player),
      (List.foldl (stackStep mss) (player, layout) stones).1.id = player.id ∧
      (List.foldl (stackStep mss) (player, layout) stones).1.isMaximizing
        = player.isMaximizing ∧
      (List.foldl (stackStep mss) (player, layout) stones).1.turn = player.turn ∧
      (List.foldl (stackStep mss) (player, layout) stones).1.lastHorizontal
        = player.lastHorizontal ∧
      (List.foldl (stackStep mss) (player, layout) stones).1.safetyTower
        = player.safetyTower ∧
      (List.foldl (stackStep mss) (player, layout) stones).1.winner = player.winner ∧
      (PlayerCapped player →
        PlayerCapped (List.foldl (stackStep mss) (player, layout) stones).1) := by
  induction stones with
  | nil => intro layout player; refine ⟨rfl, rfl, rfl, rfl, rfl, rfl, fun h => h⟩
  | cons st rest ih =>
    intro layout player
    rw [List.foldl_cons]
    have hcases : (stackStep mss (player, layout) st).1 = player ∨
        (stackStep mss (player, layout) st).1 =
          player.setVault ⟨player.vault.self + 1, player.vault.opponent⟩ ∨
        (stackStep mss (player, layout) st).1 =
          player.setVault ⟨player.vault.self, player.vault.opponent + 1⟩ := by
      unfold stackStep
      dsimp only
      split_ifs <;> simp
    obtain ⟨q, hq⟩ : ∃ q, stackStep mss (player, layout) st = q := ⟨_, rfl⟩
    rw [hq]
    rw [hq] at hcases
    obtain ⟨q1, q2⟩ := q
    have hval : q1 = player ∨
        q1 = player.setVault ⟨player.vault.self + 1, player.vault.opponent⟩ ∨
        q1 = player.setVault ⟨player.vault.self, player.vault.opponent + 1⟩ := hcases
    obtain ⟨hf1, hf2, hf3, hf4, hf5, hf6, hf7⟩ := ih q2 q1
    rcases hval with hc | hc | hc <;> subst hc <;>
      exact ⟨hf1, hf2, hf3, hf4, hf5, hf6, fun hcap => hf7 (by
        unfold PlayerCapped at hcap ⊢
        try simp only [Player.setVault]
        omega)⟩

lemma stackTowers_ok_inv (src tgt : GridCell) (player : Player) (mss : Nat)
    (tgt0 : GridCell) (player0 : Player)
    (h : stackTowers src tgt player mss = .ok (tgt0, player0)) :
    tgt0.row = tgt.row ∧ tgt0.column = tgt.column ∧
    player0.id = player.id ∧ player0.isMaximizing = player.isMaximizing ∧
    player0.turn = player.turn ∧ player0.lastHorizontal = player.lastHorizontal ∧
    player0.safetyTower = player.safetyTower ∧ player0.winner = player.winner ∧
    (PlayerCapped player → PlayerCapped player0) := by
  unfold stackTowers at h
  by_cases h1 : src.svgLayout = []
  · rw [if_pos h1] at h; cases h
  · rw [if_neg h1] at h
    by_cases h2 : tgt.svgLayout = []
    · rw [if_pos h2] at h
      simp only [Except.ok.injEq, Prod.mk.injEq] at h
      obtain ⟨ht, hp⟩ := h
      rw [← ht, ← hp]
      exact ⟨rfl, rfl, rfl, rfl, rfl, rfl, rfl, rfl, fun hc => hc⟩
    · rw [if_neg h2] at h
      by_cases h3 : src.svgLayout.getLast? ≠ tgt.svgLayout.getLast?
      · rw [if_pos h3] at h
        simp only [Except.ok.injEq, Prod.mk.injEq] at h
        obtain ⟨ht, hp⟩ := h
        have hfields := foldl_stackStep_fields mss src.svgLayout tgt.svgLayout player
        rw [hp] at hfields
        rw [← ht]
        exact ⟨rfl, rfl, hfields.1, hfields.2.1, hfields.2.2.1, hfields.2.2.2.1,
          hfields.2.2.2.2.1, hfields.2.2.2.2.2.1, hfields.2.2.2.2.2.2⟩
      · rw [if_neg h3] at h; cases h

/-- Shape of a successful cell-level move, conditioned only on success:
the source cell is fully cleared, target coordinates are unchanged, the
mover's identity fields are unchanged and the caps are preserved. -/
lemma playMoveCells_ok_inv (src tgt : GridCell) (player : Player) (mss : Nat)
    (src' tgt' : GridCell) (player' : Player)
    (h : playMoveCells src tgt player mss = .ok (src', tgt', player')) :
    src' = { src with svgLayout := [], direction := 0, dot := false } ∧
    tgt'.row = tgt.row ∧ tgt'.column = tgt.column ∧
    player'.id = player.id ∧ player'.isMaximizing = player.isMaximizing ∧
    player'.turn = player.turn ∧ player'.winner = player.winner ∧
    (PlayerCapped player → PlayerCapped player') := by
  unfold playMoveCells at h
  cases hst : stackTowers src tgt player mss with
  | error e => rw [hst] at h; cases h
  | ok v =>
    rw [hst] at h
    obtain ⟨tgt0, player0⟩ := v
    obtain ⟨hrow0, hcol0, hid0, hmax0, hturn0, hlat0, hsafe0, hwin0, hcap0⟩ :=
      stackTowers_ok_inv src tgt player mss tgt0 player0 hst
    dsimp only at h
    simp only [Except.ok.injEq, Prod.mk.injEq] at h
    obtain ⟨hs, ht, hp⟩ := h
    have hchr := playChain_row src
      { tgt0 with direction := src.direction, dot := src.dot } player0
    have hchc := playChain_col src
      { tgt0 with direction := src.direction, dot := src.dot } player0
    obtain ⟨hpid, hpmax, hpturn, hpwin, hpvault, hpcap⟩ := playChain_player src
      { tgt0 with direction := src.direction, dot := src.dot } player0
    refine ⟨hs.symm, ?_, ?_, ?_, ?_, ?_, ?_, ?_⟩
    · rw [← ht, hchr]; exact hrow0
    · rw [← ht, hchc]; exact hcol0
    · rw [← hp]; dsimp only; rw [hpid, hid0]
    · rw [← hp]; dsimp only; rw [hpmax, hmax0]
    · rw [← hp]; dsimp only; rw [hpturn, hturn0]
    · rw [← hp]; dsimp only; rw [hpwin, hwin0]
    · intro hcap
      have hc0 := hpcap (hcap0 hcap)
      rw [← hp]
      unfold PlayerCapped at hc0 ⊢
      dsimp only
      exact hc0

lemma Player.extOfFields (a b : Player) (h1 : a.id = b.id) (h2 : a.isMaximizing = b.isMaximizing)
    (h3 : a.turn = b.turn) (h4 : a.lastHorizontal = b.lastHorizontal)
    (h5 : a.safetyTower = b.safetyTower) (h6 : a.vault = b.vault)
    (h7 : a.winner = b.winner) : a = b := by
  cases a
  cases b
  simp_all

lemma eraseWinner_fields (x z : Player) (h : x.eraseWinner = z.eraseWinner) :
    x.id = z.id ∧ x.isMaximizing = z.isMaximizing ∧ x.turn = z.turn ∧
    x.lastHorizontal = z.lastHorizontal ∧ x.safetyTower = z.safetyTower ∧
    x.vault = z.vault := by
  have h1 := congrArg Player.id h
  have h2 := congrArg Player.isMaximizing h
  have h3 := congrArg Player.turn h
  have h4 := congrArg Player.lastHorizontal h
  have h5 := congrArg Player.safetyTower h
  have h6 := congrArg Player.vault h
  exact ⟨h1, h2, h3, h4, h5, h6⟩

lemma players_eq_of_maps (l1 l2 : List Player)
    (h1 : l1.map Player.eraseWinner = l2.map Player.eraseWinner)
    (h2 : l1.map Player.winner = l2.map Player.winner) : l1 = l2 := by
  induction l1 generalizing l2 with
  | nil => cases l2 <;> simp_all
  | cons a as ih =>
    cases l2 with
    | nil => simp_all
    | cons b bs =>
      simp only [List.map_cons, List.cons.injEq] at h1 h2
      obtain ⟨hid, hmax, hturn, hlat, hsafe, hvault⟩ := eraseWinner_fields a b h1.1
      exact List.cons.injEq a as b bs ▸
        ⟨Player.extOfFields a b hid hmax hturn hlat hsafe hvault h2.1, ih bs h1.2 h2.2⟩

lemma checkCell_mem (cell : GridCell) (b : BoardState) (r c : Int) (c' : GridCell)
    (h : c' ∈ checkCell cell b r c) :
    c' ∈ b.cells ∧ c'.row = r ∧ c'.column = c ∧
    c'.svgLayout.getLast? ≠ cell.svgLayout.getLast? := by
  unfold checkCell at h
  cases hf : b.cells.find? (fun inst => inst.row == r && inst.column == c) with
  | none => rw [hf] at h; exact absurd h (List.not_mem_nil c')
  | some n =>
    rw [hf] at h
    dsimp only at h
    have hpred := List.find?_some hf
    simp only [Bool.and_eq_true, beq_iff_eq] at hpred
    by_cases htop : n.svgLayout.getLast? ≠ cell.svgLayout.getLast?
    · rw [if_pos htop] at h
      have hcn : c' = n := by simpa using h
      subst hcn
      exact ⟨List.mem_of_find?_eq_some hf, hpred.1, hpred.2, htop⟩
    · rw [if_neg htop] at h
      exact absurd h (List.not_mem_nil c')

lemma getLocalMoves_mem (cell : GridCell) (player : Player) (b : BoardState) (c' : GridCell)
    (h : c' ∈ getLocalMoves cell player b) :
    c' ∈ b.cells ∧ c'.svgLayout.getLast? ≠ cell.svgLayout.getLast? := by
  unfold getLocalMoves at h
  dsimp only at h
  rcases List.mem_append.mp h with h1 | h1
  · rcases List.mem_append.mp h1 with h2 | h2
    · obtain ⟨hm, -, -, ht⟩ := checkCell_mem cell b _ _ c' h2
      exact ⟨hm, ht⟩
    · obtain ⟨hm, -, -, ht⟩ := checkCell_mem cell b _ _ c' h2
      exact ⟨hm, ht⟩
  · by_cases hlat : player.lastHorizontal = false
    · rw [if_pos hlat] at h1
      rcases List.mem_append.mp h1 with h2 | h2
      · rcases List.mem_append.mp h2 with h3 | h3
        · rcases List.mem_append.mp h3 with h4 | h4
          · obtain ⟨hm, -, -, ht⟩ := checkCell_mem cell b _ _ c' h4
            exact ⟨hm, ht⟩
          · obtain ⟨hm, -, -, ht⟩ := checkCell_mem cell b _ _ c' h4
            exact ⟨hm, ht⟩
        · obtain ⟨hm, -, -, ht⟩ := checkCell_mem cell b _ _ c' h3
          exact ⟨hm, ht⟩
      · obtain ⟨hm, -, -, ht⟩ := checkCell_mem cell b _ _ c' h2
        exact ⟨hm, ht⟩
    · rw [if_neg hlat] at h1
      exact absurd h1 (List.not_mem_nil c')

lemma mem_cells_index (cells : List GridCell) (hwf : WFCells cells) (c : GridCell)
    (hmem : c ∈ cells) :
    c.id.toNat < 36 ∧ cells[c.id.toNat]? = some c ∧
    0 ≤ c.row ∧ c.row < 6 ∧ 0 ≤ c.column ∧ c.column < 6 := by
  obtain ⟨i, hilen, hxi⟩ := List.mem_iff_getElem.mp hmem
  have hi36 : i < 36 := by
    have := hwf.1
    omega
  obtain ⟨h1, h2⟩ := hwf.2 i hi36
  have hgetem : cells[i]? = some cells[i] := List.getElem?_eq_some_iff.mpr ⟨hilen, rfl⟩
  rw [hgetem] at h1 h2
  simp only [Option.map_some', Option.some.injEq] at h1 h2
  rw [hxi] at h1 h2
  have hrange : 0 ≤ c.row ∧ c.row < 6 ∧ 0 ≤ c.column ∧ c.column < 6 := by
    rw [h1, h2]
    omega
  have hid : c.id.toNat = i := by
    unfold GridCell.id
    rw [h1, h2]
    omega
  rw [hid]
  exact ⟨hi36, by rw [hgetem, hxi], hrange⟩

lemma getAllPossibleMoves_mem (b : BoardState) (player : Player) (src tgt : GridCell)
    (h : (src, tgt) ∈ getAllPossibleMoves b player) :
    src ∈ b.cells ∧ src.svgLayout ≠ [] ∧ src.svgLayout.getLast? = some player.id ∧
    tgt ∈ b.cells ∧ tgt.svgLayout.getLast? ≠ src.svgLayout.getLast? := by
  unfold getAllPossibleMoves at h
  rw [List.mem_flatMap] at h
  obtain ⟨a, ha, hpair⟩ := h
  rw [List.mem_map] at hpair
  obtain ⟨t, ht, heq⟩ := hpair
  rw [Prod.mk.injEq] at heq
  obtain ⟨heq1, heq2⟩ := heq
  subst heq1
  subst heq2
  rw [List.mem_filter] at ha
  obtain ⟨hmem, hflt⟩ := ha
  simp only [Bool.and_eq_true, decide_eq_true_eq, beq_iff_eq] at hflt
  obtain ⟨hm, htop⟩ := getLocalMoves_mem a player b t ht
  refine ⟨hmem, ?_, ?_, hm, htop⟩
  · intro hcon
    rw [hcon] at hflt
    simp at hflt
  · exact hflt.2

lemma playMove_ok_elim (b : BoardState) (si ti mss : Nat) (b1 : BoardState)
    (h : b.playMove si ti mss = .ok b1) :
    ∃ player src0 tgt0 src' tgt' player',
      b.playerState.twoPlayer.find? (fun p => p.turn) = some player ∧
      b.cells[si]? = some src0 ∧ b.cells[ti]? = some tgt0 ∧
      playMoveCells src0 tgt0 player mss = .ok (src', tgt', player') ∧
      b1 = { cells := (b.cells.set si src').set ti tgt',
             playerState := ⟨replaceFirst (fun p => p.turn) player' b.playerState.twoPlayer⟩ } := by
  unfold BoardState.playMove at h
  cases hfp : b.playerState.twoPlayer.find? (fun p => p.turn) with
  | none => rw [hfp] at h; cases h
  | some player =>
    rw [hfp] at h
    dsimp only at h
    cases hsrc : b.cells[si]? with
    | none => rw [hsrc] at h; cases h
    | some src0 =>
      cases htgt : b.cells[ti]? with
      | none => rw [hsrc, htgt] at h; cases h
      | some tgt0 =>
        rw [hsrc, htgt] at h
        dsimp only at h
        cases hpmc : playMoveCells src0 tgt0 player mss with
        | error e => rw [hpmc] at h; cases h
        | ok v =>
          obtain ⟨src', tgt', player'⟩ := v
          rw [hpmc] at h
          dsimp only at h
          simp only [Except.ok.injEq] at h
          exact ⟨player, src0, tgt0, src', tgt', player', rfl, rfl, rfl, hpmc, h.symm⟩

lemma applyMoveAndTurn_ok_elim (b : BoardState) (si ti mss : Nat) (b1 : BoardState)
    (h : b.applyMoveAndTurn si ti mss = .ok b1) :
    ∃ player src0 tgt0 src' tgt' player',
      b.playerState.twoPlayer.find? (fun p => p.turn) = some player ∧
      b.cells[si]? = some src0 ∧ b.cells[ti]? = some tgt0 ∧
      playMoveCells src0 tgt0 player mss = .ok (src', tgt', player') ∧
      b1 = { cells := (b.cells.set si src').set ti tgt',
             playerState := switchPlayer
               ⟨replaceFirst (fun p => p.turn) player' b.playerState.twoPlayer⟩ } := by
  unfold BoardState.applyMoveAndTurn at h
  cases hpm : b.playMove si ti mss with
  | error e => rw [hpm] at h; cases h
  | ok b0 =>
    rw [hpm] at h
    have h2 : Except.ok (ε := GErr)
        { b0 with playerState := switchPlayer b0.playerState } = .ok b1 := h
    simp only [Except.ok.injEq] at h2
    obtain ⟨player, src0, tgt0, src', tgt', player', hh1, hh2, hh3, hh4, hh5⟩ :=
      playMove_ok_elim b si ti mss b0 hpm
    refine ⟨player, src0, tgt0, src', tgt', player', hh1, hh2, hh3, hh4, ?_⟩
    rw [← h2, hh5]

lemma restoreCell_eq (cells : List GridCell) (i : Nat) (saved c : GridCell)
    (h : cells[i]? = some c) :
    restoreCell cells i saved = cells.set i { c with svgLayout := saved.svgLayout, direction := saved.direction, dot := saved.dot } := by
  unfold restoreCell
  rw [h]

/-- The central restoration lemma: after an applied move, undoMove with
the pre-move snapshot restores the cells exactly and both players up to
the winner flag, from any state that agrees with the post-move state up to
winner flags. -/
lemma undo_restores (b : BoardState) (mss : Nat) (src tgt : GridCell) (b1 b2 : BoardState)
    (hinv : BoardInv b)
    (hsrcmem : b.cells[src.id.toNat]? = some src)
    (htgtmem : b.cells[tgt.id.toNat]? = some tgt)
    (hne : src.id.toNat ≠ tgt.id.toNat)
    (happly : b.applyMoveAndTurn src.id.toNat tgt.id.toNat mss = .ok b1)
    (hcells : b2.cells = b1.cells)
    (hpl : b2.playerState.twoPlayer.map Player.eraseWinner
         = b1.playerState.twoPlayer.map Player.eraseWinner) :
    (b2.undoMove ⟨src, tgt, b.playerState⟩).cells = b.cells ∧
    (b2.undoMove ⟨src, tgt, b.playerState⟩).playerState.twoPlayer.map Player.eraseWinner
      = b.playerState.twoPlayer.map Player.eraseWinner ∧
    (b2.undoMove ⟨src, tgt, b.playerState⟩).playerState.twoPlayer.map Player.winner
      = b2.playerState.twoPlayer.map Player.winner := by
  obtain ⟨player, src0, tgt0, src', tgt', player', hfp, hsrc0, htgt0, hpmc, hb1⟩ :=
    applyMoveAndTurn_ok_elim b src.id.toNat tgt.id.toNat mss b1 happly
  have hsrc00 : src = src0 := by
    rw [hsrcmem] at hsrc0
    exact Option.some.inj hsrc0
  have htgt00 : tgt = tgt0 := by
    rw [htgtmem] at htgt0
    exact Option.some.inj htgt0
  subst hsrc00
  subst htgt00
  obtain ⟨hsrc', htrow, htcol, hpid, hpmax, hpturn, hpwin, hpcap⟩ :=
    playMoveCells_ok_inv src tgt player mss src' tgt' player' hpmc
  have hlen : b.cells.length = 36 := hinv.1.1
  have hsi : src.id.toNat < b.cells.length := by
    by_contra hcon
    rw [List.getElem?_eq_none (by omega)] at hsrcmem
    cases hsrcmem
  have hti : tgt.id.toNat < b.cells.length := by
    by_contra hcon
    rw [List.getElem?_eq_none (by omega)] at htgtmem
    cases htgtmem
  have hsrcval : b.cells[src.id.toNat] = src := by
    have h0 := List.getElem?_eq_getElem hsi
    rw [hsrcmem] at h0
    exact (Option.some.inj h0).symm
  have htgtval : b.cells[tgt.id.toNat] = tgt := by
    have h0 := List.getElem?_eq_getElem hti
    rw [htgtmem] at h0
    exact (Option.some.inj h0).symm
  constructor
  · show restoreCell (restoreCell b2.cells src.id.toNat src) tgt.id.toNat tgt = b.cells
    have hc2 : b2.cells = (b.cells.set src.id.toNat src').set tgt.id.toNat tgt' := by
      rw [hcells, hb1]
    have hget1 : b2.cells[src.id.toNat]? = some src' := by
      rw [hc2, List.getElem?_set_ne (fun hcon => hne hcon.symm),
        List.getElem?_set_self hsi]
    have hsrcrestore : ({ src' with svgLayout := src.svgLayout, direction := src.direction, dot := src.dot } : GridCell) = src := by
      rw [hsrc']
    rw [restoreCell_eq b2.cells src.id.toNat src src' hget1, hsrcrestore]
    have hget2 : (b2.cells.set src.id.toNat src)[tgt.id.toNat]? = some tgt' := by
      rw [hc2, List.getElem?_set_ne hne,
        List.getElem?_set_self (by simpa using hti)]
    have htgtrestore : ({ tgt' with svgLayout := tgt.svgLayout, direction := tgt.direction, dot := tgt.dot } : GridCell) = tgt := by
      cases tgt' with
      | mk r c l d o =>
        cases tgt with
        | mk r2 c2 l2 d2 o2 =>
          simp only [GridCell.mk.injEq] at htrow htcol ⊢
          exact ⟨htrow, htcol, trivial, trivial, trivial⟩
    rw [restoreCell_eq _ tgt.id.toNat tgt tgt' hget2, htgtrestore]
    apply List.ext_getElem
    · simp [hc2]
    · intro n h1 h2
      by_cases hn1 : n = src.id.toNat
      · subst hn1
        rw [List.getElem_set_ne hne.symm, List.getElem_set_self]
        exact hsrcval.symm
      · by_cases hn2 : n = tgt.id.toNat
        · subst hn2
          rw [List.getElem_set_self]
          exact htgtval.symm
        · rw [List.getElem_set_ne (fun hcon => hn2 hcon.symm),
            List.getElem_set_ne (fun hcon => hn1 hcon.symm)]
          have h2n : n < b2.cells.length := by simpa using h1
          have e1 : b2.cells[n]? = b.cells[n]? := by
            rw [hc2, List.getElem?_set_ne (fun hcon => hn2 hcon.symm),
              List.getElem?_set_ne (fun hcon => hn1 hcon.symm)]
          rw [List.getElem?_eq_getElem h2n, List.getElem?_eq_getElem h2] at e1
          exact Option.some.inj e1
  · obtain ⟨hlen2, hnodup, hcmax, hcturn, hcaps⟩ := hinv.2
    obtain ⟨P, Q, hPQ⟩ := List.length_eq_two.mp hlen2
    have hidPQ : P.id ≠ Q.id := by
      rw [hPQ] at hnodup
      simpa using hnodup
    have hcapP : PlayerCapped P := hcaps P (by rw [hPQ]; simp)
    have hcapQ : PlayerCapped Q := hcaps Q (by rw [hPQ]; simp)
    have hb1pl : b1.playerState.twoPlayer =
        (replaceFirst (fun p => p.turn) player' b.playerState.twoPlayer).map
          (fun p => { p with turn := !p.turn }) := by
      rw [hb1]
      rfl
    rw [hPQ] at hfp hb1pl
    have hrp : restorePlayer b.playerState = restorePlayer (⟨[P, Q]⟩ : PlayerState) := by
      rw [show b.playerState = (⟨[P, Q]⟩ : PlayerState) from by rw [← hPQ]]
    by_cases hPturn : P.turn
    · have hplayer : P = player := by
        rw [List.find?_cons_of_pos _ (by simpa using hPturn)] at hfp
        simpa using hfp
      subst hplayer
      have hrep : replaceFirst (fun p => p.turn) player' [P, Q] = [player', Q] := by
        unfold replaceFirst
        rw [if_pos (by simpa using hPturn)]
      rw [hrep] at hb1pl
      simp only [List.map_cons, List.map_nil] at hb1pl
      have hb2shape : ∃ x y, b2.playerState.twoPlayer = [x, y] ∧
          x.eraseWinner = ({ player' with turn := !player'.turn } : Player).eraseWinner ∧
          y.eraseWinner = ({ Q with turn := !Q.turn } : Player).eraseWinner := by
        rw [hb1pl] at hpl
        simp only [List.map_cons, List.map_nil] at hpl
        have hlenb2 : b2.playerState.twoPlayer.length = 2 := by
          have := congrArg List.length hpl
          simpa using this
        obtain ⟨x, y, hxy⟩ := List.length_eq_two.mp hlenb2
        rw [hxy] at hpl
        simp only [List.map_cons, List.map_nil, List.cons.injEq, and_true] at hpl
        exact ⟨x, y, hxy, hpl.1, hpl.2⟩
      obtain ⟨x, y, hxy, hxe, hye⟩ := hb2shape
      obtain ⟨hxid, hxmax, hxturn, hxlat, hxsafe, hxvault⟩ := eraseWinner_fields _ _ hxe
      obtain ⟨hyid, hymax, hyturn, hylat, hysafe, hyvault⟩ := eraseWinner_fields _ _ hye
      show ((b2.playerState.twoPlayer.map
          (restorePlayer b.playerState)).map Player.eraseWinner = _) ∧ _
      rw [hrp, hxy]
      have hxid' : x.id = P.id := by
        rw [hxid]
        show player'.id = P.id
        rw [hpid]
      have hyid' : y.id = Q.id := by
        rw [hyid]
      have hrx : restorePlayer ⟨[P, Q]⟩ x = { P with winner := x.winner } := by
        unfold restorePlayer
        rw [show List.find? (fun q => q.id == x.id) [P, Q] = some P from by
          rw [List.find?_cons_of_pos]
          simp [hxid']]
        apply Player.extOfFields <;>
          simp [Player.setSafetyTower, Player.setVault, hxid', hxmax, hpmax,
            Nat.min_eq_right hcapP.1, Nat.min_eq_right hcapP.2.1,
            Nat.min_eq_right hcapP.2.2]
      have hry : restorePlayer ⟨[P, Q]⟩ y = { Q with winner := y.winner } := by
        unfold restorePlayer
        rw [show List.find? (fun q => q.id == y.id) [P, Q] = some Q from by
          rw [List.find?_cons_of_neg]
          · rw [List.find?_cons_of_pos]
            simp [hyid']
          · simp [hyid']
            exact hidPQ
          ]
        apply Player.extOfFields <;>
          simp [Player.setSafetyTower, Player.setVault, hyid', hymax,
            Nat.min_eq_right hcapQ.1, Nat.min_eq_right hcapQ.2.1,
            Nat.min_eq_right hcapQ.2.2]
      constructor
      · rw [hPQ]
        simp only [List.map_cons, List.map_nil, hrx, hry]
        unfold Player.eraseWinner
        simp
      · show ((b2.playerState.twoPlayer.map
            (restorePlayer b.playerState)).map Player.winner = _)
        rw [hrp, hxy]
        simp [hrx, hry]
    · have hQturn : Q.turn := by
        rw [hPQ] at hcturn
        simp only [List.countP_cons, List.countP_nil] at hcturn
        by_cases hq : Q.turn
        · exact hq
        · simp [hPturn, hq] at hcturn
      have hplayer : Q = player := by
        rw [List.find?_cons_of_neg _ (by simpa using hPturn),
          List.find?_cons_of_pos _ (by simpa using hQturn)] at hfp
        simpa using hfp
      subst hplayer
      have hrep : replaceFirst (fun p => p.turn) player' [P, Q] = [P, player'] := by
        unfold replaceFirst
        rw [if_neg (by simpa using hPturn)]
        unfold replaceFirst
        rw [if_pos (by simpa using hQturn)]
      rw [hrep] at hb1pl
      simp only [List.map_cons, List.map_nil] at hb1pl
      have hb2shape : ∃ x y, b2.playerState.twoPlayer = [x, y] ∧
          x.eraseWinner = ({ P with turn := !P.turn } : Player).eraseWinner ∧
          y.eraseWinner = ({ player' with turn := !player'.turn } : Player).eraseWinner := by
        rw [hb1pl] at hpl
        simp only [List.map_cons, List.map_nil] at hpl
        have hlenb2 : b2.playerState.twoPlayer.length = 2 := by
          have := congrArg List.length hpl
          simpa using this
        obtain ⟨x, y, hxy⟩ := List.length_eq_two.mp hlenb2
        rw [hxy] at hpl
        simp only [List.map_cons, List.map_nil, List.cons.injEq, and_true] at hpl
        exact ⟨x, y, hxy, hpl.1, hpl.2⟩
      obtain ⟨x, y, hxy, hxe, hye⟩ := hb2shape
      obtain ⟨hxid, hxmax, hxturn, hxlat, hxsafe, hxvault⟩ := eraseWinner_fields _ _ hxe
      obtain ⟨hyid, hymax, hyturn, hylat, hysafe, hyvault⟩ := eraseWinner_fields _ _ hye
      show ((b2.playerState.twoPlayer.map
          (restorePlayer b.playerState)).map Player.eraseWinner = _) ∧ _
      rw [hrp, hxy]
      have hxid' : x.id = P.id := by
        rw [hxid]
      have hyid' : y.id = Q.id := by
        rw [hyid]
        show player'.id = Q.id
        rw [hpid]
      have hrx : restorePlayer ⟨[P, Q]⟩ x = { P with winner := x.winner } := by
        unfold restorePlayer
        rw [show List.find? (fun q => q.id == x.id) [P, Q] = some P from by
          rw [List.find?_cons_of_pos]
          simp [hxid']]
        apply Player.extOfFields <;>
          simp [Player.setSafetyTower, Player.setVault, hxid', hxmax,
            Nat.min_eq_right hcapP.1, Nat.min_eq_right hcapP.2.1,
            Nat.min_eq_right hcapP.2.2]
      have hry : restorePlayer ⟨[P, Q]⟩ y = { Q with winner := y.winner } := by
        unfold restorePlayer
        rw [show List.find? (fun q => q.id == y.id) [P, Q] = some Q from by
          rw [List.find?_cons_of_neg]
          · rw [List.find?_cons_of_pos]
            simp [hyid']
          · simp [hyid']
            exact hidPQ
          ]
        apply Player.extOfFields <;>
          simp [Player.setSafetyTower, Player.setVault, hyid', hymax, hpmax,
            Nat.min_eq_right hcapQ.1, Nat.min_eq_right hcapQ.2.1,
            Nat.min_eq_right hcapQ.2.2]
      constructor
      · rw [hPQ]
        simp only [List.map_cons, List.map_nil, hrx, hry]
        unfold Player.eraseWinner
        simp
      · show ((b2.playerState.twoPlayer.map
            (restorePlayer b.playerState)).map Player.winner = _)
        rw [hrp, hxy]
        simp [hrx, hry]

lemma BoardState.extOfParts (a b : BoardState) (h1 : a.cells = b.cells)
    (h2 : a.playerState.twoPlayer = b.playerState.twoPlayer) : a = b := by
  cases a with
  | mk c p =>
    cases b with
    | mk c2 p2 =>
      cases p
      cases p2
      simp_all

lemma replaceFirst_winner_map (l : List Player) (player player2 : Player)
    (hfp : l.find? (fun p => p.turn) = some player)
    (hw : player2.winner = player.winner) :
    (replaceFirst (fun p => p.turn) player2 l).map Player.winner
      = l.map Player.winner := by
  induction l with
  | nil => cases hfp
  | cons a t ih =>
    by_cases ha : a.turn
    · rw [List.find?_cons_of_pos _ (by simpa using ha)] at hfp
      have hap : a = player := Option.some.inj hfp
      unfold replaceFirst
      rw [if_pos (by simpa using ha)]
      simp only [List.map_cons]
      rw [hw, hap]
    · rw [List.find?_cons_of_neg _ (by simpa using ha)] at hfp
      unfold replaceFirst
      rw [if_neg (by simpa using ha)]
      simp only [List.map_cons]
      rw [ih hfp]

lemma applyMoveAndTurn_winner_map (b : BoardState) (si ti mss : Nat) (b1 : BoardState)
    (h : b.applyMoveAndTurn si ti mss = .ok b1) :
    b1.playerState.twoPlayer.map Player.winner
      = b.playerState.twoPlayer.map Player.winner := by
  obtain ⟨player, src0, tgt0, src2, tgt2, player2, hfp, -, -, hpmc, hb1⟩ :=
    applyMoveAndTurn_ok_elim b si ti mss b1 h
  obtain ⟨-, -, -, -, -, -, hpwin, -⟩ :=
    playMoveCells_ok_inv src0 tgt0 player mss src2 tgt2 player2 hpmc
  rw [hb1]
  show ((replaceFirst (fun p => p.turn) player2 b.playerState.twoPlayer).map
      (fun p => { p with turn := !p.turn })).map Player.winner = _
  rw [List.map_map]
  have hcomp : (Player.winner ∘ fun p => ({ p with turn := !p.turn } : Player))
      = Player.winner := rfl
  rw [hcomp]
  exact replaceFirst_winner_map _ player player2 hfp hpwin

lemma playMoveCells_ok_of_legal (src tgt : GridCell) (player : Player) (mss : Nat)
    (hsrc : src.svgLayout ≠ [])
    (hok : tgt.svgLayout = [] ∨ src.svgLayout.getLast? ≠ tgt.svgLayout.getLast?)
    (hself : player.vault.self ≤ 6) (hopp : player.vault.opponent ≤ 6) :
    ∃ v, playMoveCells src tgt player mss = .ok v := by
  obtain ⟨tgt0, player0, hst, -⟩ := stackTowers_ok src tgt player mss hsrc hok hself hopp
  cases hpmc : playMoveCells src tgt player mss with
  | error e =>
    exfalso
    unfold playMoveCells at hpmc
    rw [hst] at hpmc
    exact Except.noConfusion hpmc
  | ok v => exact ⟨v, rfl⟩

lemma applyMoveAndTurn_ok_of_legal (b : BoardState) (mss : Nat) (player : Player)
    (src tgt : GridCell)
    (hinv : BoardInv b)
    (hfp : b.playerState.twoPlayer.find? (fun p => p.turn) = some player)
    (hmem : (src, tgt) ∈ getAllPossibleMoves b player) :
    ∃ b1, b.applyMoveAndTurn src.id.toNat tgt.id.toNat mss = .ok b1 := by
  obtain ⟨hsrcmem0, hsrcne, hsrctop, htgtmem0, htop⟩ :=
    getAllPossibleMoves_mem b player src tgt hmem
  obtain ⟨-, hsrcmem, -⟩ := mem_cells_index b.cells hinv.1 src hsrcmem0
  obtain ⟨-, htgtmem, -⟩ := mem_cells_index b.cells hinv.1 tgt htgtmem0
  obtain ⟨-, -, -, -, hcaps⟩ := hinv.2
  have hcap := hcaps player (List.mem_of_find?_eq_some hfp)
  obtain ⟨v, hpmc⟩ := playMoveCells_ok_of_legal src tgt player mss
    hsrcne (Or.inr (fun hcon => htop hcon.symm)) hcap.2.1 hcap.2.2
  obtain ⟨src2, tgt2, player2⟩ := v
  cases happ : b.applyMoveAndTurn src.id.toNat tgt.id.toNat mss with
  | ok b1 => exact ⟨b1, rfl⟩
  | error e =>
    exfalso
    unfold BoardState.applyMoveAndTurn BoardState.playMove at happ
    rw [hfp] at happ
    dsimp only at happ
    rw [hsrcmem, htgtmem] at happ
    dsimp only at happ
    rw [hpmc] at happ
    exact Except.noConfusion happ

/-- C1: for every well-formed board and every legal move (src, tgt) of the
turn player, applying the move with applyMoveAndTurn and then calling
undoMove with the pre-move snapshot of the source cell, the target cell
and both players restores the board exactly: all 36 cells (stack,
direction, dot) and every field of both players come back to their
pre-move values. -/
theorem apply_undo_round_trip (b : BoardState) (mss : Nat) (player : Player)
    (src tgt : GridCell)
    (hinv : BoardInv b)
    (hfp : b.playerState.twoPlayer.find? (fun p => p.turn) = some player)
    (hmem : (src, tgt) ∈ getAllPossibleMoves b player) :
    ∃ b1, b.applyMoveAndTurn src.id.toNat tgt.id.toNat mss = .ok b1 ∧
      b1.undoMove ⟨src, tgt, b.playerState⟩ = b := by
  obtain ⟨b1, happly⟩ := applyMoveAndTurn_ok_of_legal b mss player src tgt hinv hfp hmem
  refine ⟨b1, happly, ?_⟩
  obtain ⟨hsrcmem0, -, -, htgtmem0, htop⟩ := getAllPossibleMoves_mem b player src tgt hmem
  obtain ⟨-, hsrcmem, -⟩ := mem_cells_index b.cells hinv.1 src hsrcmem0
  obtain ⟨-, htgtmem, -⟩ := mem_cells_index b.cells hinv.1 tgt htgtmem0
  have hne : src.id.toNat ≠ tgt.id.toNat := by
    intro hcon
    rw [hcon, htgtmem] at hsrcmem
    have h := Option.some.inj hsrcmem
    rw [h] at htop
    exact htop rfl
  obtain ⟨hc, hpe, hpw⟩ :=
    undo_restores b mss src tgt b1 b1 hinv hsrcmem htgtmem hne happly rfl rfl
  have hwmap : b1.playerState.twoPlayer.map Player.winner
      = b.playerState.twoPlayer.map Player.winner :=
    applyMoveAndTurn_winner_map b src.id.toNat tgt.id.toNat mss b1 happly
  have hpl := players_eq_of_maps _ _ hpe (hpw.trans hwmap)
  exact BoardState.extOfParts _ _ hc hpl

/-- Witness for C1: the opening user move from cell 6 (row 1, column 0)
to the empty cell 12 (row 2, column 0) on the initial board, with the
factory maximum stack size 3. -/
theorem apply_undo_round_trip_witness :
    ∃ b1, initBoard.applyMoveAndTurn (mkCell 6 [PlayerId.user] 1 false).id.toNat
        (mkCell 12 [] 0 false).id.toNat 3 = .ok b1 ∧
      b1.undoMove ⟨mkCell 6 [PlayerId.user] 1 false, mkCell 12 [] 0 false,
        initBoard.playerState⟩ = initBoard :=
  apply_undo_round_trip initBoard 3 userP (mkCell 6 [PlayerId.user] 1 false)
    (mkCell 12 [] 0 false) (by decide) (by decide) (by decide)


/-! C2: frame property of the search.  BoardLike is equality of the board
up to the two winner flags, which checkWin may set and undoMove never
restores. -/

/-- Boards equal in the cells and in every player field except winner. -/
def BoardLike (a b : BoardState) : Prop :=
  a.cells = b.cells ∧
  a.playerState.twoPlayer.map Player.eraseWinner
    = b.playerState.twoPlayer.map Player.eraseWinner

lemma BoardLike.trans {a b c : BoardState} (h1 : BoardLike a b) (h2 : BoardLike b c) :
    BoardLike a c := ⟨h1.1.trans h2.1, h1.2.trans h2.2⟩

lemma lt_of_getElem?_some {α : Type} (l : List α) (i : Nat) (a : α) (h : l[i]? = some a) :
    i < l.length := by
  by_contra hcon
  rw [List.getElem?_eq_none (by omega)] at h
  cases h

lemma getD_of_getElem? {α : Type} (l : List α) (i : Nat) (a d : α) (h : l[i]? = some a) :
    l.getD i d = a := by
  rw [List.getD_eq_getElem?_getD, h]
  rfl

lemma replaceFirst_map_eq {γ : Type} (g : Player → γ) (pred : Player → Bool)
    (l : List Player) (a b : Player) (hfp : l.find? pred = some a) (hg : g b = g a) :
    (replaceFirst pred b l).map g = l.map g := by
  induction l with
  | nil => cases hfp
  | cons x t ih =>
    by_cases hx : pred x = true
    · rw [List.find?_cons_of_pos _ hx] at hfp
      have hxa : x = a := Option.some.inj hfp
      unfold replaceFirst
      rw [if_pos hx]
      simp only [List.map_cons]
      rw [hg, hxa]
    · rw [List.find?_cons_of_neg _ (by simpa using hx)] at hfp
      unfold replaceFirst
      rw [if_neg hx]
      simp only [List.map_cons]
      rw [ih hfp]

lemma replaceFirst_length {α : Type} (pred : α → Bool) (b : α) (l : List α) :
    (replaceFirst pred b l).length = l.length := by
  induction l with
  | nil => rfl
  | cons x t ih =>
    unfold replaceFirst
    by_cases hx : pred x = true
    · rw [if_pos hx]
      simp
    · rw [if_neg hx]
      simp [ih]

lemma replaceFirst_countP (q pred : Player → Bool) (l : List Player) (a b : Player)
    (hfp : l.find? pred = some a) (hq : q b = q a) :
    (replaceFirst pred b l).countP q = l.countP q := by
  induction l with
  | nil => cases hfp
  | cons x t ih =>
    by_cases hx : pred x = true
    · rw [List.find?_cons_of_pos _ hx] at hfp
      have hxa : x = a := Option.some.inj hfp
      unfold replaceFirst
      rw [if_pos hx]
      simp [List.countP_cons, hq, hxa]
    · rw [List.find?_cons_of_neg _ (by simpa using hx)] at hfp
      unfold replaceFirst
      rw [if_neg hx]
      simp [List.countP_cons, ih hfp]

lemma replaceFirst_mem {α : Type} (pred : α → Bool) (b x : α) (l : List α)
    (h : x ∈ replaceFirst pred b l) : x = b ∨ x ∈ l := by
  induction l with
  | nil =>
    unfold replaceFirst at h
    exact absurd h (List.not_mem_nil x)
  | cons y t ih =>
    unfold replaceFirst at h
    by_cases hy : pred y = true
    · rw [if_pos hy] at h
      rcases List.mem_cons.mp h with rfl | h2
      · exact Or.inl rfl
      · exact Or.inr (List.mem_cons_of_mem _ h2)
    · rw [if_neg hy] at h
      rcases List.mem_cons.mp h with rfl | h2
      · exact Or.inr (List.mem_cons_self _ _)
      · rcases ih h2 with h3 | h3
        · exact Or.inl h3
        · exact Or.inr (List.mem_cons_of_mem _ h3)

lemma checkWin_eraseWinner (b : BoardState) (p : Player) (s : Settings) (w : Bool)
    (p2 : Player) (h : checkWin b p s = .ok (w, p2)) :
    p2.eraseWinner = p.eraseWinner := by
  unfold checkWin at h
  split at h
  · simp only [Except.ok.injEq, Prod.mk.injEq] at h
    rw [← h.2]
    rfl
  · split at h
    · cases h
    · dsimp only at h
      split at h
      · simp only [Except.ok.injEq, Prod.mk.injEq] at h
        rw [← h.2]
        rfl
      · simp only [Except.ok.injEq, Prod.mk.injEq] at h
        rw [← h.2]

lemma getTerminalNodeState_like (b : BoardState) (depth : Nat) (s : Settings)
    (o : Option Score) (b1 : BoardState)
    (h : getTerminalNodeState b depth s = .ok (o, b1)) : BoardLike b1 b := by
  unfold getTerminalNodeState at h
  cases hbot : b.playerState.twoPlayer.find? (fun p => p.isMaximizing) with
  | none =>
    rw [hbot] at h
    cases hu : b.playerState.twoPlayer.find? (fun p => !p.isMaximizing) with
    | none => rw [hu] at h; cases h
    | some pu => rw [hu] at h; cases h
  | some pb =>
    rw [hbot] at h
    cases hu : b.playerState.twoPlayer.find? (fun p => !p.isMaximizing) with
    | none => rw [hu] at h; cases h
    | some pu =>
      rw [hu] at h
      dsimp only at h
      cases hcw : checkWin b pb s with
      | error e => rw [hcw] at h; cases h
      | ok v =>
        obtain ⟨w1, pb2⟩ := v
        rw [hcw] at h
        cases w1 with
        | true =>
          dsimp only at h
          simp only [Except.ok.injEq, Prod.mk.injEq] at h
          refine ⟨?_, ?_⟩
          · rw [← h.2]
            rfl
          · rw [← h.2]
            show (replaceFirst (fun p => p.isMaximizing) pb2
              b.playerState.twoPlayer).map Player.eraseWinner = _
            exact replaceFirst_map_eq Player.eraseWinner _ _ pb pb2 hbot
              (checkWin_eraseWinner b pb s true pb2 hcw)
        | false =>
          dsimp only at h
          cases hcw2 : checkWin b pu s with
          | error e => rw [hcw2] at h; cases h
          | ok v2 =>
            obtain ⟨w2, pu2⟩ := v2
            rw [hcw2] at h
            cases w2 with
            | true =>
              dsimp only at h
              simp only [Except.ok.injEq, Prod.mk.injEq] at h
              refine ⟨?_, ?_⟩
              · rw [← h.2]
                rfl
              · rw [← h.2]
                show (replaceFirst (fun p => !p.isMaximizing) pu2
                  b.playerState.twoPlayer).map Player.eraseWinner = _
                exact replaceFirst_map_eq Player.eraseWinner _ _ pu pu2 hu
                  (checkWin_eraseWinner b pu s true pu2 hcw2)
            | false =>
              dsimp only at h
              by_cases hd : depth = s.searchRules.depth
              · rw [if_pos hd] at h
                cases hf : b.cells.foldlM (evalCell s pb.id pu.id) initEvalAcc with
                | error e => rw [hf] at h; cases h
                | ok acc =>
                  rw [hf] at h
                  simp only [Except.ok.injEq, Prod.mk.injEq] at h
                  rw [← h.2]
                  exact ⟨rfl, rfl⟩
              · rw [if_neg hd] at h
                simp only [Except.ok.injEq, Prod.mk.injEq] at h
                rw [← h.2]
                exact ⟨rfl, rfl⟩

lemma eraseWinner_map_fields (l l2 : List Player)
    (h : l2.map Player.eraseWinner = l.map Player.eraseWinner) :
    l2.map Player.id = l.map Player.id ∧
    l2.countP (fun p => p.isMaximizing) = l.countP (fun p => p.isMaximizing) ∧
    l2.countP (fun p => p.turn) = l.countP (fun p => p.turn) ∧
    ((∀ p ∈ l, PlayerCapped p) → ∀ p ∈ l2, PlayerCapped p) := by
  induction l2 generalizing l with
  | nil => cases l <;> simp_all
  | cons a as ih =>
    cases l with
    | nil => simp_all
    | cons b bs =>
      simp only [List.map_cons, List.cons.injEq] at h
      obtain ⟨hid, hmax, hturn, hlat, hsafe, hvault⟩ := eraseWinner_fields a b h.1
      obtain ⟨i1, i2, i3, i4⟩ := ih bs h.2
      refine ⟨?_, ?_, ?_, ?_⟩
      · simp [hid, i1]
      · simp [List.countP_cons, hmax, i2]
      · simp [List.countP_cons, hturn, i3]
      · intro hc p hp
        rcases List.mem_cons.mp hp with rfl | hp2
        · obtain ⟨c1, c2, c3⟩ := hc b (List.mem_cons_self b bs)
          exact ⟨by rw [hsafe]; exact c1, by rw [hvault]; exact c2,
            by rw [hvault]; exact c3⟩
        · exact i4 (fun q hq => hc q (List.mem_cons_of_mem _ hq)) p hp2

lemma boardInv_of_like (b b2 : BoardState) (hinv : BoardInv b) (hl : BoardLike b2 b) :
    BoardInv b2 := by
  obtain ⟨hc, hp⟩ := hl
  obtain ⟨hcw, hplen, hnodup, hcmax, hcturn, hcaps⟩ := hinv
  obtain ⟨hid, hmax, hturn, hcap⟩ :=
    eraseWinner_map_fields b.playerState.twoPlayer b2.playerState.twoPlayer hp
  refine ⟨by rw [hc]; exact hcw, ?_, ?_, ?_, ?_, ?_⟩
  · have hlen := congrArg List.length hp
    simp only [List.length_map] at hlen
    rw [hlen]
    exact hplen
  · rw [hid]
    exact hnodup
  · rw [hmax]
    exact hcmax
  · rw [hturn]
    exact hcturn
  · exact hcap hcaps

lemma checkCell_cells_congr (cell : GridCell) (b b2 : BoardState) (r c : Int)
    (hc : b.cells = b2.cells) : checkCell cell b r c = checkCell cell b2 r c := by
  unfold checkCell
  rw [hc]

lemma getAllPossibleMoves_cells_congr (b b2 : BoardState) (p : Player)
    (hc : b.cells = b2.cells) : getAllPossibleMoves b p = getAllPossibleMoves b2 p := by
  have hlm : ∀ cell, getLocalMoves cell p b = getLocalMoves cell p b2 := by
    intro cell
    unfold getLocalMoves
    simp only [checkCell_cells_congr cell b b2 _ _ hc]
  unfold getAllPossibleMoves
  rw [hc]
  simp only [hlm]

lemma applyMoveAndTurn_inv (b : BoardState) (si ti mss : Nat) (b1 : BoardState)
    (hinv : BoardInv b) (h : b.applyMoveAndTurn si ti mss = .ok b1) : BoardInv b1 := by
  obtain ⟨player, src0, tgt0, src2, tgt2, player2, hfp, hsrc0, htgt0, hpmc, hb1⟩ :=
    applyMoveAndTurn_ok_elim b si ti mss b1 h
  obtain ⟨hsrc2, htrow, htcol, hpid, hpmax, hpturn, hpwin, hpcap⟩ :=
    playMoveCells_ok_inv src0 tgt0 player mss src2 tgt2 player2 hpmc
  obtain ⟨⟨hclen, hcwf⟩, hplen, hnodup, hcmax, hcturn, hcaps⟩ := hinv
  have hsi : si < b.cells.length := lt_of_getElem?_some _ _ _ hsrc0
  have hti : ti < b.cells.length := lt_of_getElem?_some _ _ _ htgt0
  constructor
  · rw [hb1]
    refine ⟨by simp [hclen], ?_⟩
    intro i hi36
    show ((b.cells.set si src2).set ti tgt2)[i]?.map GridCell.row = _ ∧
      ((b.cells.set si src2).set ti tgt2)[i]?.map GridCell.column = _
    obtain ⟨hr0, hc0⟩ := hcwf i hi36
    by_cases hit : i = ti
    · subst hit
      rw [List.getElem?_set_self (by simpa using hti)]
      rw [htgt0] at hr0 hc0
      simp only [Option.map_some'] at hr0 hc0 ⊢
      exact ⟨by rw [htrow]; exact hr0, by rw [htcol]; exact hc0⟩
    · by_cases his : i = si
      · subst his
        rw [List.getElem?_set_ne (fun hcon => hit hcon.symm), List.getElem?_set_self hsi]
        rw [hsrc0] at hr0 hc0
        simp only [Option.map_some'] at hr0 hc0 ⊢
        have hsrow : src2.row = src0.row := by rw [hsrc2]
        have hscol : src2.column = src0.column := by rw [hsrc2]
        exact ⟨by rw [hsrow]; exact hr0, by rw [hscol]; exact hc0⟩
      · rw [List.getElem?_set_ne (fun hcon => hit hcon.symm),
          List.getElem?_set_ne (fun hcon => his hcon.symm)]
        exact ⟨hr0, hc0⟩
  · rw [hb1]
    show WFPlayers (switchPlayer ⟨replaceFirst (fun p => p.turn) player2
      b.playerState.twoPlayer⟩)
    have hcapplayer : PlayerCapped player := hcaps player (List.mem_of_find?_eq_some hfp)
    have hcap2 : PlayerCapped player2 := hpcap hcapplayer
    refine ⟨?_, ?_, ?_, ?_, ?_⟩
    · show ((replaceFirst (fun p => p.turn) player2 b.playerState.twoPlayer).map
        (fun p => ({ p with turn := !p.turn } : Player))).length = 2
      rw [List.length_map, replaceFirst_length]
      exact hplen
    · show (((replaceFirst (fun p => p.turn) player2 b.playerState.twoPlayer).map
        (fun p => ({ p with turn := !p.turn } : Player))).map Player.id).Nodup
      rw [List.map_map]
      have hco : (Player.id ∘ fun p => ({ p with turn := !p.turn } : Player))
          = Player.id := rfl
      rw [hco, replaceFirst_map_eq Player.id _ _ player player2 hfp hpid]
      exact hnodup
    · show List.countP (fun p => p.isMaximizing)
        ((replaceFirst (fun p => p.turn) player2 b.playerState.twoPlayer).map
          (fun p => ({ p with turn := !p.turn } : Player))) = 1
      rw [List.countP_map]
      have hco : ((fun (p : Player) => p.isMaximizing) ∘
            fun p => ({ p with turn := !p.turn } : Player))
          = fun (p : Player) => p.isMaximizing := rfl
      rw [hco, replaceFirst_countP _ _ _ player player2 hfp hpmax]
      exact hcmax
    · show List.countP (fun p => p.turn)
        ((replaceFirst (fun p => p.turn) player2 b.playerState.twoPlayer).map
          (fun p => ({ p with turn := !p.turn } : Player))) = 1
      rw [List.countP_map]
      have hco : ((fun (p : Player) => p.turn) ∘
            fun p => ({ p with turn := !p.turn } : Player))
          = fun (p : Player) => !p.turn := rfl
      rw [hco]
      have h1 : (replaceFirst (fun p => p.turn) player2
          b.playerState.twoPlayer).countP (fun p => p.turn) = 1 := by
        rw [replaceFirst_countP _ _ _ player player2 hfp hpturn]
        exact hcturn
      have h2 : (replaceFirst (fun p => p.turn) player2
            b.playerState.twoPlayer).countP (fun p => p.turn) +
          (replaceFirst (fun p => p.turn) player2
            b.playerState.twoPlayer).countP (fun p => !p.turn) =
          (replaceFirst (fun p => p.turn) player2 b.playerState.twoPlayer).length :=
        countP_add_countP_not _ _
      have h3 : (replaceFirst (fun p => p.turn) player2
          b.playerState.twoPlayer).length = 2 := by
        rw [replaceFirst_length]
        exact hplen
      omega
    · intro p hp
      have hp2 : p ∈ (replaceFirst (fun p => p.turn) player2 b.playerState.twoPlayer).map
          (fun q => ({ q with turn := !q.turn } : Player)) := hp
      rw [List.mem_map] at hp2
      obtain ⟨q, hq, rfl⟩ := hp2
      rcases replaceFirst_mem _ _ _ _ hq with rfl | hq2
      · exact hcap2
      · exact hcaps q hq2

lemma loops_like (s : Settings)
    (recurse : BoardState → Score → Score → Except GErr (Score × BoardState))
    (hrec : ∀ bb aa bb2 r, BoardInv bb → recurse bb aa bb2 = .ok r → BoardLike r.2 bb) :
    ∀ (moves : List (GridCell × GridCell)) (bc : BoardState) (alpha beta acc : Score)
      (r : Score × BoardState) (player : Player),
      BoardInv bc →
      (∀ m ∈ moves, m ∈ getAllPossibleMoves bc player) →
      (maxLoop s recurse moves bc alpha beta acc = .ok r ∨
       minLoop s recurse moves bc alpha beta acc = .ok r) →
      BoardLike r.2 bc := by
  intro moves
  induction moves with
  | nil =>
    intro bc alpha beta acc r player hinv hmv h
    rcases h with h | h
    · simp only [maxLoop, Except.ok.injEq] at h
      rw [← h]
      exact ⟨rfl, rfl⟩
    · simp only [minLoop, Except.ok.injEq] at h
      rw [← h]
      exact ⟨rfl, rfl⟩
  | cons move rest ih =>
    intro bc alpha beta acc r player hinv hmv h
    have hmem : move ∈ getAllPossibleMoves bc player := hmv move (List.mem_cons_self _ _)
    obtain ⟨hsrcmem0, hsne, hstop, htgtmem0, htop⟩ :=
      getAllPossibleMoves_mem bc player move.1 move.2 hmem
    obtain ⟨-, hsrcmem, -⟩ := mem_cells_index bc.cells hinv.1 move.1 hsrcmem0
    obtain ⟨-, htgtmem, -⟩ := mem_cells_index bc.cells hinv.1 move.2 htgtmem0
    have hne : move.1.id.toNat ≠ move.2.id.toNat := by
      intro hcon
      rw [hcon, htgtmem] at hsrcmem
      have hx := Option.some.inj hsrcmem
      rw [hx] at htop
      exact htop rfl
    have hgd1 : bc.cells.getD move.1.id.toNat phantomCell = move.1 :=
      getD_of_getElem? _ _ _ _ hsrcmem
    have hgd2 : bc.cells.getD move.2.id.toNat phantomCell = move.2 :=
      getD_of_getElem? _ _ _ _ htgtmem
    rcases h with h | h
    · simp only [maxLoop] at h
      rw [hgd1, hgd2] at h
      cases happ : bc.applyMoveAndTurn move.1.id.toNat move.2.id.toNat
          s.winningRules.maxStackSize with
      | error e => rw [happ] at h; cases h
      | ok b1 =>
        rw [happ] at h
        dsimp only at h
        cases hrec0 : recurse b1 alpha beta with
        | error e => rw [hrec0] at h; cases h
        | ok rr =>
          obtain ⟨evaluate, b2⟩ := rr
          rw [hrec0] at h
          dsimp only at h
          have hinv1 : BoardInv b1 := applyMoveAndTurn_inv bc _ _ _ b1 hinv happ
          have hlike2 : BoardLike b2 b1 := hrec b1 alpha beta (evaluate, b2) hinv1 hrec0
          have hundo := undo_restores bc s.winningRules.maxStackSize move.1 move.2 b1 b2
            hinv hsrcmem htgtmem hne happ hlike2.1 hlike2.2
          have hlike3 : BoardLike (b2.undoMove ⟨move.1, move.2, bc.playerState⟩) bc :=
            ⟨hundo.1, hundo.2.1⟩
          by_cases hcut : beta ≤ max alpha (max acc evaluate)
          · rw [if_pos hcut] at h
            simp only [Except.ok.injEq] at h
            rw [← h]
            exact hlike3
          · rw [if_neg hcut] at h
            have hinv3 : BoardInv (b2.undoMove ⟨move.1, move.2, bc.playerState⟩) :=
              boardInv_of_like bc _ hinv hlike3
            have hmv3 : ∀ m ∈ rest,
                m ∈ getAllPossibleMoves (b2.undoMove ⟨move.1, move.2, bc.playerState⟩)
                  player := by
              intro m hm
              rw [getAllPossibleMoves_cells_congr _ bc player hlike3.1]
              exact hmv m (List.mem_cons_of_mem _ hm)
            have hrest := ih (b2.undoMove ⟨move.1, move.2, bc.playerState⟩)
              (max alpha (max acc evaluate)) beta (max acc evaluate) r player hinv3 hmv3
              (Or.inl h)
            exact hrest.trans hlike3
    · simp only [minLoop] at h
      rw [hgd1, hgd2] at h
      cases happ : bc.applyMoveAndTurn move.1.id.toNat move.2.id.toNat
          s.winningRules.maxStackSize with
      | error e => rw [happ] at h; cases h
      | ok b1 =>
        rw [happ] at h
        dsimp only at h
        cases hrec0 : recurse b1 alpha beta with
        | error e => rw [hrec0] at h; cases h
        | ok rr =>
          obtain ⟨evaluate, b2⟩ := rr
          rw [hrec0] at h
          dsimp only at h
          have hinv1 : BoardInv b1 := applyMoveAndTurn_inv bc _ _ _ b1 hinv happ
          have hlike2 : BoardLike b2 b1 := hrec b1 alpha beta (evaluate, b2) hinv1 hrec0
          have hundo := undo_restores bc s.winningRules.maxStackSize move.1 move.2 b1 b2
            hinv hsrcmem htgtmem hne happ hlike2.1 hlike2.2
          have hlike3 : BoardLike (b2.undoMove ⟨move.1, move.2, bc.playerState⟩) bc :=
            ⟨hundo.1, hundo.2.1⟩
          by_cases hcut : min beta (min acc evaluate) ≤ alpha
          · rw [if_pos hcut] at h
            simp only [Except.ok.injEq] at h
            rw [← h]
            exact hlike3
          · rw [if_neg hcut] at h
            have hinv3 : BoardInv (b2.undoMove ⟨move.1, move.2, bc.playerState⟩) :=
              boardInv_of_like bc _ hinv hlike3
            have hmv3 : ∀ m ∈ rest,
                m ∈ getAllPossibleMoves (b2.undoMove ⟨move.1, move.2, bc.playerState⟩)
                  player := by
              intro m hm
              rw [getAllPossibleMoves_cells_congr _ bc player hlike3.1]
              exact hmv m (List.mem_cons_of_mem _ hm)
            have hrest := ih (b2.undoMove ⟨move.1, move.2, bc.playerState⟩)
              alpha (min beta (min acc evaluate)) (min acc evaluate) r player hinv3 hmv3
              (Or.inr h)
            exact hrest.trans hlike3

lemma minimaxAux_like (s : Settings) :
    ∀ (fuel : Nat) (b : BoardState) (depth : Nat) (alpha beta : Score)
      (r : Score × BoardState), BoardInv b →
      minimaxAux s fuel b depth alpha beta = .ok r → BoardLike r.2 b := by
  intro fuel
  induction fuel with
  | zero =>
    intro b depth alpha beta r hinv h
    simp only [minimaxAux] at h
    cases h
  | succ n ih =>
    intro b depth alpha beta r hinv h
    simp only [minimaxAux] at h
    cases hts : getTerminalNodeState b depth s with
    | error e => rw [hts] at h; cases h
    | ok v =>
      obtain ⟨o, b1⟩ := v
      have hlike1 : BoardLike b1 b := getTerminalNodeState_like b depth s o b1 hts
      rw [hts] at h
      cases o with
      | some evaluation =>
        dsimp only at h
        simp only [Except.ok.injEq] at h
        rw [← h]
        exact hlike1
      | none =>
        dsimp only at h
        cases hfp : b.playerState.twoPlayer.find? (fun p => p.turn) with
        | none => rw [hfp] at h; cases h
        | some currentPlayer =>
          rw [hfp] at h
          dsimp only at h
          have hinv1 : BoardInv b1 := boardInv_of_like b b1 hinv hlike1
          by_cases hm : currentPlayer.isMaximizing = true
          · rw [if_pos hm] at h
            have hrest := loops_like s
              (fun bb aa bb2 => minimaxAux s n bb (depth + 1) aa bb2)
              (fun bb aa bb2 rr hbb hrr => ih bb (depth + 1) aa bb2 rr hbb hrr)
              (getAllPossibleMoves b1 currentPlayer) b1 alpha beta negInf r
              currentPlayer hinv1 (fun m hm2 => hm2) (Or.inl h)
            exact hrest.trans hlike1
          · rw [if_neg hm] at h
            have hrest := loops_like s
              (fun bb aa bb2 => minimaxAux s n bb (depth + 1) aa bb2)
              (fun bb aa bb2 rr hbb hrr => ih bb (depth + 1) aa bb2 rr hbb hrr)
              (getAllPossibleMoves b1 currentPlayer) b1 alpha beta posInf r
              currentPlayer hinv1 (fun m hm2 => hm2) (Or.inr h)
            exact hrest.trans hlike1

/-- C2: corrected.  When the recursive search call minimax(board, depth,
alpha, beta) returns, every applied move has been undone: the 36 cells are
restored bit-for-bit and both players are restored in every field except
the winner flag.  The bit-for-bit reading of the claim is false, because
checkWin inside the terminal-node evaluation sets a winning player's
winner flag and undoMove never restores it: see minimax_restores_cex. -/
theorem minimax_restores_up_to_winner (s : Settings) (b : BoardState) (depth : Nat)
    (alpha beta : Score) (r : Score × BoardState) (hinv : BoardInv b)
    (h : minimax s b depth alpha beta = .ok r) :
    r.2.cells = b.cells ∧
    r.2.playerState.twoPlayer.map Player.eraseWinner
      = b.playerState.twoPlayer.map Player.eraseWinner := by
  unfold minimax at h
  exact minimaxAux_like s _ b depth alpha beta r hinv h

set_option maxRecDepth 100000 in
/-- Witness for the amended C2 theorem: the whole depth-1 search from the
initial board returns the initial board. -/
theorem minimax_restores_up_to_winner_witness :
    initBoard.cells = initBoard.cells ∧
    initBoard.playerState.twoPlayer.map Player.eraseWinner
      = initBoard.playerState.twoPlayer.map Player.eraseWinner :=
  minimax_restores_up_to_winner settingsDepth1 initBoard 0 negInf posInf
    (finScore (-80), initBoard) (by decide) (by with_unfolding_all rfl)

/-- Counterexample to the bit-for-bit reading of C2: on a board where the
bot has already secured a tower but its winner flag is still false,
minimax returns a board whose bot winner flag has been mutated to true by
the win check, so the returned state is not identical to the entry
state. -/
theorem minimax_restores_cex :
    minimax factorySettings cexBoardC2 0 negInf posInf = .ok (posInf, cexBoardC2x) ∧
    cexBoardC2x ≠ cexBoardC2 :=
  ⟨by with_unfolding_all rfl, by decide⟩


/-! C3: the alpha-beta search against the full-width reference.  First the
frame lemmas for the reference loops, then the congruence of the whole
engine under BoardLike, then the fail-soft correspondence. -/

lemma BoardLike.symm {a b : BoardState} (h : BoardLike a b) : BoardLike b a :=
  ⟨h.1.symm, h.2.symm⟩

lemma fullLoops_like (s : Settings)
    (recurse : BoardState → Except GErr (Score × BoardState))
    (hrec : ∀ bb r, BoardInv bb → recurse bb = .ok r → BoardLike r.2 bb) :
    ∀ (moves : List (GridCell × GridCell)) (bc : BoardState) (acc : Score)
      (r : Score × BoardState) (player : Player),
      BoardInv bc →
      (∀ m ∈ moves, m ∈ getAllPossibleMoves bc player) →
      (fullMaxLoop s recurse moves bc acc = .ok r ∨
       fullMinLoop s recurse moves bc acc = .ok r) →
      BoardLike r.2 bc := by
  intro moves
  induction moves with
  | nil =>
    intro bc acc r player hinv hmv h
    rcases h with h | h
    · simp only [fullMaxLoop, Except.ok.injEq] at h
      rw [← h]
      exact ⟨rfl, rfl⟩
    · simp only [fullMinLoop, Except.ok.injEq] at h
      rw [← h]
      exact ⟨rfl, rfl⟩
  | cons move rest ih =>
    intro bc acc r player hinv hmv h
    have hmem : move ∈ getAllPossibleMoves bc player := hmv move (List.mem_cons_self _ _)
    obtain ⟨hsrcmem0, hsne, hstop, htgtmem0, htop⟩ :=
      getAllPossibleMoves_mem bc player move.1 move.2 hmem
    obtain ⟨-, hsrcmem, -⟩ := mem_cells_index bc.cells hinv.1 move.1 hsrcmem0
    obtain ⟨-, htgtmem, -⟩ := mem_cells_index bc.cells hinv.1 move.2 htgtmem0
    have hne : move.1.id.toNat ≠ move.2.id.toNat := by
      intro hcon
      rw [hcon, htgtmem] at hsrcmem
      have hx := Option.some.inj hsrcmem
      rw [hx] at htop
      exact htop rfl
    have hgd1 : bc.cells.getD move.1.id.toNat phantomCell = move.1 :=
      getD_of_getElem? _ _ _ _ hsrcmem
    have hgd2 : bc.cells.getD move.2.id.toNat phantomCell = move.2 :=
      getD_of_getElem? _ _ _ _ htgtmem
    have hstep : ∀ (b1 : BoardState) (evaluate : Score) (b2 : BoardState),
        bc.applyMoveAndTurn move.1.id.toNat move.2.id.toNat s.winningRules.maxStackSize
          = .ok b1 →
        recurse b1 = .ok (evaluate, b2) →
        BoardLike (b2.undoMove ⟨move.1, move.2, bc.playerState⟩) bc := by
      intro b1 evaluate b2 happ hrec0
      have hinv1 : BoardInv b1 := applyMoveAndTurn_inv bc _ _ _ b1 hinv happ
      have hlike2 : BoardLike b2 b1 := hrec b1 (evaluate, b2) hinv1 hrec0
      have hundo := undo_restores bc s.winningRules.maxStackSize move.1 move.2 b1 b2
        hinv hsrcmem htgtmem hne happ hlike2.1 hlike2.2
      exact ⟨hundo.1, hundo.2.1⟩
    rcases h with h | h
    · simp only [fullMaxLoop] at h
      rw [hgd1, hgd2] at h
      cases happ : bc.applyMoveAndTurn move.1.id.toNat move.2.id.toNat
          s.winningRules.maxStackSize with
      | error e => rw [happ] at h; cases h
      | ok b1 =>
        rw [happ] at h
        dsimp only at h
        cases hrec0 : recurse b1 with
        | error e => rw [hrec0] at h; cases h
        | ok rr =>
          obtain ⟨evaluate, b2⟩ := rr
          rw [hrec0] at h
          dsimp only at h
          have hlike3 := hstep b1 evaluate b2 happ hrec0
          have hinv3 : BoardInv (b2.undoMove ⟨move.1, move.2, bc.playerState⟩) :=
            boardInv_of_like bc _ hinv hlike3
          have hmv3 : ∀ m ∈ rest,
              m ∈ getAllPossibleMoves (b2.undoMove ⟨move.1, move.2, bc.playerState⟩)
                player := by
            intro m hm
            rw [getAllPossibleMoves_cells_congr _ bc player hlike3.1]
            exact hmv m (List.mem_cons_of_mem _ hm)
          have hrest := ih (b2.undoMove ⟨move.1, move.2, bc.playerState⟩)
            (max acc evaluate) r player hinv3 hmv3 (Or.inl h)
          exact hrest.trans hlike3
    · simp only [fullMinLoop] at h
      rw [hgd1, hgd2] at h
      cases happ : bc.applyMoveAndTurn move.1.id.toNat move.2.id.toNat
          s.winningRules.maxStackSize with
      | error e => rw [happ] at h; cases h
      | ok b1 =>
        rw [happ] at h
        dsimp only at h
        cases hrec0 : recurse b1 with
        | error e => rw [hrec0] at h; cases h
        | ok rr =>
          obtain ⟨evaluate, b2⟩ := rr
          rw [hrec0] at h
          dsimp only at h
          have hlike3 := hstep b1 evaluate b2 happ hrec0
          have hinv3 : BoardInv (b2.undoMove ⟨move.1, move.2, bc.playerState⟩) :=
            boardInv_of_like bc _ hinv hlike3
          have hmv3 : ∀ m ∈ rest,
              m ∈ getAllPossibleMoves (b2.undoMove ⟨move.1, move.2, bc.playerState⟩)
                player := by
            intro m hm
            rw [getAllPossibleMoves_cells_congr _ bc player hlike3.1]
            exact hmv m (List.mem_cons_of_mem _ hm)
          have hrest := ih (b2.undoMove ⟨move.1, move.2, bc.playerState⟩)
            (min acc evaluate) r player hinv3 hmv3 (Or.inr h)
          exact hrest.trans hlike3

lemma minimaxFullAux_like (s : Settings) :
    ∀ (fuel : Nat) (b : BoardState) (depth : Nat) (r : Score × BoardState),
      BoardInv b → minimaxFullAux s fuel b depth = .ok r → BoardLike r.2 b := by
  intro fuel
  induction fuel with
  | zero =>
    intro b depth r hinv h
    simp only [minimaxFullAux] at h
    cases h
  | succ n ih =>
    intro b depth r hinv h
    simp only [minimaxFullAux] at h
    cases hts : getTerminalNodeState b depth s with
    | error e => rw [hts] at h; cases h
    | ok v =>
      obtain ⟨o, b1⟩ := v
      have hlike1 : BoardLike b1 b := getTerminalNodeState_like b depth s o b1 hts
      rw [hts] at h
      cases o with
      | some evaluation =>
        dsimp only at h
        simp only [Except.ok.injEq] at h
        rw [← h]
        exact hlike1
      | none =>
        dsimp only at h
        cases hfp : b.playerState.twoPlayer.find? (fun p => p.turn) with
        | none => rw [hfp] at h; cases h
        | some currentPlayer =>
          rw [hfp] at h
          dsimp only at h
          have hinv1 : BoardInv b1 := boardInv_of_like b b1 hinv hlike1
          by_cases hm : currentPlayer.isMaximizing = true
          · rw [if_pos hm] at h
            have hrest := fullLoops_like s
              (fun bb => minimaxFullAux s n bb (depth + 1))
              (fun bb rr hbb hrr => ih bb (depth + 1) rr hbb hrr)
              (getAllPossibleMoves b1 currentPlayer) b1 negInf r
              currentPlayer hinv1 (fun m hm2 => hm2) (Or.inl h)
            exact hrest.trans hlike1
          · rw [if_neg hm] at h
            have hrest := fullLoops_like s
              (fun bb => minimaxFullAux s n bb (depth + 1))
              (fun bb rr hbb hrr => ih bb (depth + 1) rr hbb hrr)
              (getAllPossibleMoves b1 currentPlayer) b1 posInf r
              currentPlayer hinv1 (fun m hm2 => hm2) (Or.inr h)
            exact hrest.trans hlike1

lemma fullMaxLoop_ge (s : Settings)
    (recurse : BoardState → Except GErr (Score × BoardState)) :
    ∀ (moves : List (GridCell × GridCell)) (bc : BoardState) (acc : Score)
      (r : Score × BoardState),
      fullMaxLoop s recurse moves bc acc = .ok r → acc ≤ r.1 := by
  intro moves
  induction moves with
  | nil =>
    intro bc acc r h
    simp only [fullMaxLoop, Except.ok.injEq] at h
    rw [← h]
  | cons move rest ih =>
    intro bc acc r h
    simp only [fullMaxLoop] at h
    cases happ : bc.applyMoveAndTurn move.1.id.toNat move.2.id.toNat
        s.winningRules.maxStackSize with
    | error e => rw [happ] at h; cases h
    | ok b1 =>
      rw [happ] at h
      dsimp only at h
      cases hrec0 : recurse b1 with
      | error e => rw [hrec0] at h; cases h
      | ok rr =>
        obtain ⟨evaluate, b2⟩ := rr
        rw [hrec0] at h
        dsimp only at h
        exact le_trans (le_max_left acc evaluate) (ih _ _ _ h)

lemma fullMinLoop_le (s : Settings)
    (recurse : BoardState → Except GErr (Score × BoardState)) :
    ∀ (moves : List (GridCell × GridCell)) (bc : BoardState) (acc : Score)
      (r : Score × BoardState),
      fullMinLoop s recurse moves bc acc = .ok r → r.1 ≤ acc := by
  intro moves
  induction moves with
  | nil =>
    intro bc acc r h
    simp only [fullMinLoop, Except.ok.injEq] at h
    rw [← h]
  | cons move rest ih =>
    intro bc acc r h
    simp only [fullMinLoop] at h
    cases happ : bc.applyMoveAndTurn move.1.id.toNat move.2.id.toNat
        s.winningRules.maxStackSize with
    | error e => rw [happ] at h; cases h
    | ok b1 =>
      rw [happ] at h
      dsimp only at h
      cases hrec0 : recurse b1 with
      | error e => rw [hrec0] at h; cases h
      | ok rr =>
        obtain ⟨evaluate, b2⟩ := rr
        rw [hrec0] at h
        dsimp only at h
        exact le_trans (ih _ _ _ h) (min_le_left acc evaluate)


lemma find?_like (q : Player → Bool)
    (hq : ∀ a b : Player, a.eraseWinner = b.eraseWinner → q a = q b) :
    ∀ (lA lF : List Player),
      lA.map Player.eraseWinner = lF.map Player.eraseWinner →
      (lA.find? q = none ∧ lF.find? q = none) ∨
      (∃ pA pF, lA.find? q = some pA ∧ lF.find? q = some pF ∧
        pA.eraseWinner = pF.eraseWinner) := by
  intro lA
  induction lA with
  | nil =>
    intro lF h
    cases lF with
    | nil => exact Or.inl ⟨rfl, rfl⟩
    | cons b bs => cases h
  | cons a as ih =>
    intro lF h
    cases lF with
    | nil => cases h
    | cons b bs =>
      simp only [List.map_cons, List.cons.injEq] at h
      have hab : q a = q b := hq a b h.1
      by_cases hqa : q a = true
      · rw [List.find?_cons_of_pos _ hqa, List.find?_cons_of_pos _ (by rw [← hab]; exact hqa)]
        exact Or.inr ⟨a, b, rfl, rfl, h.1⟩
      · rw [List.find?_cons_of_neg _ (by simpa using hqa),
          List.find?_cons_of_neg _ (by rw [← hab]; simpa using hqa)]
        exact ih bs h.2

lemma replaceFirst_like (q : Player → Bool)
    (hq : ∀ a b : Player, a.eraseWinner = b.eraseWinner → q a = q b)
    (pA2 pF2 : Player) (hp2 : pA2.eraseWinner = pF2.eraseWinner) :
    ∀ (lA lF : List Player),
      lA.map Player.eraseWinner = lF.map Player.eraseWinner →
      (replaceFirst q pA2 lA).map Player.eraseWinner
        = (replaceFirst q pF2 lF).map Player.eraseWinner := by
  intro lA
  induction lA with
  | nil =>
    intro lF h
    cases lF with
    | nil => rfl
    | cons b bs => cases h
  | cons a as ih =>
    intro lF h
    cases lF with
    | nil => cases h
    | cons b bs =>
      simp only [List.map_cons, List.cons.injEq] at h
      have hab : q a = q b := hq a b h.1
      unfold replaceFirst
      by_cases hqa : q a = true
      · rw [if_pos hqa, if_pos (by rw [← hab]; exact hqa)]
        simp only [List.map_cons]
        rw [hp2, h.2]
      · rw [if_neg hqa, if_neg (by rw [← hab]; exact hqa)]
        simp only [List.map_cons]
        rw [h.1, ih bs h.2]

lemma setVault_eraseWinner (pA pF : Player) (v : Vault)
    (h : pA.eraseWinner = pF.eraseWinner) :
    (pA.setVault v).eraseWinner = (pF.setVault v).eraseWinner := by
  obtain ⟨h1, h2, h3, h4, h5, h6⟩ := eraseWinner_fields pA pF h
  unfold Player.setVault Player.eraseWinner
  simp only [h1, h2, h3, h4, h5]

lemma setSafetyTower_eraseWinner (pA pF : Player) (n : Nat)
    (h : pA.eraseWinner = pF.eraseWinner) :
    (pA.setSafetyTower n).eraseWinner = (pF.setSafetyTower n).eraseWinner := by
  obtain ⟨h1, h2, h3, h4, h5, h6⟩ := eraseWinner_fields pA pF h
  unfold Player.setSafetyTower Player.eraseWinner
  simp only [h1, h2, h3, h4, h6]

lemma stackStep_like (mss : Nat) (st : PlayerId) (pA pF : Player) (l : List PlayerId)
    (hpe : pA.eraseWinner = pF.eraseWinner) :
    (stackStep mss (pA, l) st).2 = (stackStep mss (pF, l) st).2 ∧
    (stackStep mss (pA, l) st).1.eraseWinner = (stackStep mss (pF, l) st).1.eraseWinner := by
  obtain ⟨hid, hmax, hturn, hlat, hsafe, hvault⟩ := eraseWinner_fields pA pF hpe
  unfold stackStep
  dsimp only
  by_cases hlen : (l ++ [st]).length > mss
  · rw [if_pos hlen, if_pos hlen]
    by_cases hhd : (l ++ [st]).head? = some pA.id
    · rw [if_pos hhd, if_pos (by rw [← hid]; exact hhd)]
      refine ⟨rfl, ?_⟩
      dsimp only
      rw [hvault]
      exact setVault_eraseWinner pA pF _ hpe
    · rw [if_neg hhd, if_neg (by rw [← hid]; exact hhd)]
      refine ⟨rfl, ?_⟩
      dsimp only
      rw [hvault]
      exact setVault_eraseWinner pA pF _ hpe
  · rw [if_neg hlen, if_neg hlen]
    exact ⟨rfl, hpe⟩

lemma foldl_stackStep_like (mss : Nat) :
    ∀ (stones : List PlayerId) (pA pF : Player) (l : List PlayerId),
      pA.eraseWinner = pF.eraseWinner →
      (stones.foldl (stackStep mss) (pA, l)).2
        = (stones.foldl (stackStep mss) (pF, l)).2 ∧
      (stones.foldl (stackStep mss) (pA, l)).1.eraseWinner
        = (stones.foldl (stackStep mss) (pF, l)).1.eraseWinner := by
  intro stones
  induction stones with
  | nil =>
    intro pA pF l hpe
    exact ⟨rfl, hpe⟩
  | cons st rest ih =>
    intro pA pF l hpe
    simp only [List.foldl_cons]
    obtain ⟨hc, hp⟩ := stackStep_like mss st pA pF l hpe
    show (rest.foldl (stackStep mss)
        ((stackStep mss (pA, l) st).1, (stackStep mss (pA, l) st).2)).2
      = (rest.foldl (stackStep mss)
        ((stackStep mss (pF, l) st).1, (stackStep mss (pF, l) st).2)).2 ∧
      (rest.foldl (stackStep mss)
        ((stackStep mss (pA, l) st).1, (stackStep mss (pA, l) st).2)).1.eraseWinner
      = (rest.foldl (stackStep mss)
        ((stackStep mss (pF, l) st).1, (stackStep mss (pF, l) st).2)).1.eraseWinner
    rw [hc]
    exact ih (stackStep mss (pA, l) st).1 (stackStep mss (pF, l) st).1
      (stackStep mss (pF, l) st).2 hp

lemma stackTowers_like (src tgt : GridCell) (pA pF : Player) (mss : Nat)
    (hpe : pA.eraseWinner = pF.eraseWinner) (tgtF0 : GridCell) (pF0 : Player)
    (h : stackTowers src tgt pF mss = .ok (tgtF0, pF0)) :
    ∃ pA0, stackTowers src tgt pA mss = .ok (tgtF0, pA0) ∧
      pA0.eraseWinner = pF0.eraseWinner := by
  unfold stackTowers at h ⊢
  by_cases h1 : src.svgLayout = []
  · rw [if_pos h1] at h
    cases h
  · rw [if_neg h1] at h ⊢
    by_cases h2 : tgt.svgLayout = []
    · rw [if_pos h2] at h ⊢
      simp only [Except.ok.injEq, Prod.mk.injEq] at h
      refine ⟨pA, ?_, ?_⟩
      · rw [h.1]
      · rw [← h.2]
        exact hpe
    · rw [if_neg h2] at h ⊢
      by_cases h3 : src.svgLayout.getLast? ≠ tgt.svgLayout.getLast?
      · rw [if_pos h3] at h ⊢
        dsimp only at h ⊢
        obtain ⟨hc, hp⟩ := foldl_stackStep_like mss src.svgLayout pA pF tgt.svgLayout hpe
        simp only [Except.ok.injEq, Prod.mk.injEq] at h
        refine ⟨(src.svgLayout.foldl (stackStep mss) (pA, tgt.svgLayout)).1, ?_, ?_⟩
        · simp only [Except.ok.injEq, Prod.mk.injEq]
          refine ⟨?_, trivial⟩
          rw [hc]
          exact h.1
        · rw [hp, h.2]
      · rw [if_neg h3] at h
        cases h

lemma captureUser_like2 (srcInst : GridCell) (tpA tpF : GridCell × Player)
    (hc : tpA.1 = tpF.1) (hp : tpA.2.eraseWinner = tpF.2.eraseWinner) :
    (captureUser srcInst tpA).1 = (captureUser srcInst tpF).1 ∧
    (captureUser srcInst tpA).2.eraseWinner = (captureUser srcInst tpF).2.eraseWinner := by
  obtain ⟨tA, pA⟩ := tpA
  obtain ⟨tF, pF⟩ := tpF
  dsimp only at hc hp
  subst hc
  obtain ⟨hid, hmax, hturn, hlat, hsafe, hvault⟩ := eraseWinner_fields pA pF hp
  unfold captureUser
  dsimp only
  by_cases hcnd : srcInst.svgLayout.getLast? = some PlayerId.user ∧ tA.row = 0 ∧
      srcInst.dot = true
  · rw [if_pos hcnd, if_pos hcnd]
    refine ⟨rfl, ?_⟩
    dsimp only
    rw [hsafe]
    exact setSafetyTower_eraseWinner pA pF _ hp
  · rw [if_neg hcnd, if_neg hcnd]
    exact ⟨rfl, hp⟩

lemma captureBot_like2 (srcInst : GridCell) (tpA tpF : GridCell × Player)
    (hc : tpA.1 = tpF.1) (hp : tpA.2.eraseWinner = tpF.2.eraseWinner) :
    (captureBot srcInst tpA).1 = (captureBot srcInst tpF).1 ∧
    (captureBot srcInst tpA).2.eraseWinner = (captureBot srcInst tpF).2.eraseWinner := by
  obtain ⟨tA, pA⟩ := tpA
  obtain ⟨tF, pF⟩ := tpF
  dsimp only at hc hp
  subst hc
  obtain ⟨hid, hmax, hturn, hlat, hsafe, hvault⟩ := eraseWinner_fields pA pF hp
  unfold captureBot
  dsimp only
  by_cases hcnd : srcInst.svgLayout.getLast? = some PlayerId.bot ∧ tA.row = 5 ∧
      srcInst.dot = true
  · rw [if_pos hcnd, if_pos hcnd]
    refine ⟨rfl, ?_⟩
    dsimp only
    rw [hsafe]
    exact setSafetyTower_eraseWinner pA pF _ hp
  · rw [if_neg hcnd, if_neg hcnd]
    exact ⟨rfl, hp⟩

lemma playMoveCells_like (src tgt : GridCell) (pA pF : Player) (mss : Nat)
    (hpe : pA.eraseWinner = pF.eraseWinner) (srcF2 tgtF2 : GridCell) (pF2 : Player)
    (h : playMoveCells src tgt pF mss = .ok (srcF2, tgtF2, pF2)) :
    ∃ pA2, playMoveCells src tgt pA mss = .ok (srcF2, tgtF2, pA2) ∧
      pA2.eraseWinner = pF2.eraseWinner := by
  unfold playMoveCells at h ⊢
  cases hstF : stackTowers src tgt pF mss with
  | error e =>
    rw [hstF] at h
    cases h
  | ok vF =>
    obtain ⟨tgt0, pF0⟩ := vF
    rw [hstF] at h
    dsimp only at h
    obtain ⟨pA0, hstA, hp0⟩ := stackTowers_like src tgt pA pF mss hpe tgt0 pF0 hstF
    rw [hstA]
    dsimp only
    have hcu := captureUser_like2 src
      (reverseBot src (reverseUser src
        { tgt0 with direction := src.direction, dot := src.dot }), pA0)
      (reverseBot src (reverseUser src
        { tgt0 with direction := src.direction, dot := src.dot }), pF0) rfl hp0
    have hcb := captureBot_like2 src
      (captureUser src (reverseBot src (reverseUser src
        { tgt0 with direction := src.direction, dot := src.dot }), pA0))
      (captureUser src (reverseBot src (reverseUser src
        { tgt0 with direction := src.direction, dot := src.dot }), pF0)) hcu.1 hcu.2
    simp only [Except.ok.injEq, Prod.mk.injEq] at h
    obtain ⟨h1, h2, h3⟩ := h
    obtain ⟨e1, e2, e3, e4, e5, e6⟩ := eraseWinner_fields _ _ hcb.2
    refine ⟨{ (captureBot src (captureUser src (reverseBot src (reverseUser src
        { tgt0 with direction := src.direction, dot := src.dot }), pA0))).2 with
        lastHorizontal := decide ((captureBot src (captureUser src (reverseBot src
          (reverseUser src { tgt0 with direction := src.direction, dot := src.dot }),
          pA0))).1.row = src.row) }, ?_, ?_⟩
    · simp only [Except.ok.injEq, Prod.mk.injEq]
      refine ⟨h1, ?_, trivial⟩
      rw [hcb.1]
      exact h2
    · rw [← h3]
      unfold Player.eraseWinner
      simp only [e1, e2, e3, e5, e6, hcb.1]

lemma applyMoveAndTurn_eval (b : BoardState) (si ti mss : Nat) (player : Player)
    (src0 tgt0 src2 tgt2 : GridCell) (player2 : Player)
    (hfp : b.playerState.twoPlayer.find? (fun p => p.turn) = some player)
    (hsrc : b.cells[si]? = some src0) (htgt : b.cells[ti]? = some tgt0)
    (hpmc : playMoveCells src0 tgt0 player mss = .ok (src2, tgt2, player2)) :
    b.applyMoveAndTurn si ti mss = .ok
      { cells := (b.cells.set si src2).set ti tgt2,
        playerState := switchPlayer ⟨replaceFirst (fun p => p.turn) player2
          b.playerState.twoPlayer⟩ } := by
  unfold BoardState.applyMoveAndTurn BoardState.playMove
  rw [hfp]
  dsimp only
  rw [hsrc, htgt]
  dsimp only
  rw [hpmc]
  rfl

lemma applyMoveAndTurn_like (bA bF : BoardState) (si ti mss : Nat) (bF1 : BoardState)
    (hlike : BoardLike bA bF) (h : bF.applyMoveAndTurn si ti mss = .ok bF1) :
    ∃ bA1, bA.applyMoveAndTurn si ti mss = .ok bA1 ∧ BoardLike bA1 bF1 := by
  obtain ⟨playerF, src0, tgt0, src2, tgt2, playerF2, hfpF, hsrc0, htgt0, hpmcF, hbF1⟩ :=
    applyMoveAndTurn_ok_elim bF si ti mss bF1 h
  rcases find?_like (fun p => p.turn)
      (fun a b hab => (eraseWinner_fields a b hab).2.2.1)
      bA.playerState.twoPlayer bF.playerState.twoPlayer hlike.2
    with ⟨hA, hF⟩ | ⟨pA, pF, hA, hF, hpe⟩
  · rw [hfpF] at hF
    cases hF
  · rw [hfpF] at hF
    have hpF : playerF = pF := Option.some.inj hF
    subst hpF
    obtain ⟨pA2, hpmcA, hpe2⟩ :=
      playMoveCells_like src0 tgt0 pA playerF mss hpe src2 tgt2 playerF2 hpmcF
    have heval := applyMoveAndTurn_eval bA si ti mss pA src0 tgt0 src2 tgt2 pA2 hA
      (by rw [hlike.1]; exact hsrc0) (by rw [hlike.1]; exact htgt0) hpmcA
    refine ⟨_, heval, ?_⟩
    rw [hbF1]
    constructor
    · show (bA.cells.set si src2).set ti tgt2 = (bF.cells.set si src2).set ti tgt2
      rw [hlike.1]
    · show ((replaceFirst (fun p => p.turn) pA2 bA.playerState.twoPlayer).map
          (fun p => ({ p with turn := !p.turn } : Player))).map Player.eraseWinner
        = ((replaceFirst (fun p => p.turn) playerF2 bF.playerState.twoPlayer).map
          (fun p => ({ p with turn := !p.turn } : Player))).map Player.eraseWinner
      rw [List.map_map, List.map_map]
      have hco : (Player.eraseWinner ∘ fun p => ({ p with turn := !p.turn } : Player))
          = (fun p => ({ p with turn := !p.turn } : Player)) ∘ Player.eraseWinner := rfl
      rw [hco, ← List.map_map, ← List.map_map]
      exact congrArg (List.map (fun p => ({ p with turn := !p.turn } : Player)))
        (replaceFirst_like (fun p => p.turn)
          (fun a b hab => (eraseWinner_fields a b hab).2.2.1)
          pA2 playerF2 hpe2 _ _ hlike.2)

lemma checkWin_like (bA bF : BoardState) (pA pF : Player) (s : Settings)
    (hlike : BoardLike bA bF) (hpe : pA.eraseWinner = pF.eraseWinner)
    (w : Bool) (pF2 : Player) (h : checkWin bF pF s = .ok (w, pF2)) :
    ∃ pA2, checkWin bA pA s = .ok (w, pA2) ∧ pA2.eraseWinner = pF2.eraseWinner := by
  obtain ⟨hid, hmax, hturn, hlat, hsafe, hvault⟩ := eraseWinner_fields pA pF hpe
  unfold checkWin at h ⊢
  by_cases h1 : (s.winningRules.materialOpponent > 0 ∧
      pF.vault.opponent ≥ s.winningRules.materialOpponent) ∨
      pF.safetyTower ≥ s.winningRules.safetyZone
  · rw [if_pos h1] at h
    rw [if_pos (by rw [hvault, hsafe]; exact h1)]
    simp only [Except.ok.injEq, Prod.mk.injEq] at h
    refine ⟨{ pA with winner := true }, ?_, ?_⟩
    · rw [← h.1]
    · rw [← h.2]
      unfold Player.eraseWinner
      simp only [hid, hmax, hturn, hlat, hsafe, hvault]
  · rw [if_neg h1] at h
    rw [if_neg (by rw [hvault, hsafe]; exact h1)]
    rw [hid, hlike.1]
    cases hofF : bF.playerState.twoPlayer.find? (fun q => q.id != pF.id) with
    | none =>
      rw [hofF] at h
      cases h
    | some oppF =>
      rw [hofF] at h
      dsimp only at h
      rcases find?_like (fun q => q.id != pF.id) (fun a b hab => by
          have hi : a.id = b.id := (eraseWinner_fields a b hab).1
          show (a.id != pF.id) = (b.id != pF.id)
          rw [hi]) bA.playerState.twoPlayer
          bF.playerState.twoPlayer hlike.2 with ⟨hoA, hoF⟩ | ⟨oA, oF, hoA, hoF, hoe⟩
      · rw [hofF] at hoF
        cases hoF
      · rw [hofF] at hoF
        have hoFF : oppF = oF := Option.some.inj hoF
        subst hoFF
        rw [hoA]
        dsimp only
        have hoid : oA.id = oppF.id := (eraseWinner_fields oA oppF hoe).1
        rw [hoid, hturn]
        by_cases h2 : pF.turn = false ∧
            (bF.cells.find? (fun cell => cell.svgLayout.getLast? == some oppF.id) = none ∨
             bF.cells.find? (fun cell => cell.svgLayout.getLast? == some pF.id) = none)
        · rw [if_pos h2] at h
          rw [if_pos h2]
          simp only [Except.ok.injEq, Prod.mk.injEq] at h
          refine ⟨{ pA with winner := true }, ?_, ?_⟩
          · rw [← h.1]
            simp only [hid, hmax, hturn, hlat, hsafe, hvault]
          · rw [← h.2]
            unfold Player.eraseWinner
            simp only [hid, hmax, hturn, hlat, hsafe, hvault]
        · rw [if_neg h2] at h
          rw [if_neg h2]
          simp only [Except.ok.injEq, Prod.mk.injEq] at h
          refine ⟨pA, ?_, ?_⟩
          · rw [← h.1]
          · rw [← h.2]
            exact hpe

lemma heuristicScore_like (s : Settings) (pbA puA pbF puF : Player) (acc : EvalAcc)
    (hb : pbA.eraseWinner = pbF.eraseWinner) (hu : puA.eraseWinner = puF.eraseWinner) :
    heuristicScore s pbA puA acc = heuristicScore s pbF puF acc := by
  obtain ⟨-, -, -, -, -, hvb⟩ := eraseWinner_fields pbA pbF hb
  obtain ⟨-, -, -, -, -, hvu⟩ := eraseWinner_fields puA puF hu
  unfold heuristicScore
  rw [hvb, hvu]

lemma getAllPossibleMoves_congr2 (bA bF : BoardState) (pA pF : Player)
    (hc : bA.cells = bF.cells) (hid : pA.id = pF.id)
    (hlat : pA.lastHorizontal = pF.lastHorizontal) :
    getAllPossibleMoves bA pA = getAllPossibleMoves bF pF := by
  have hcc : ∀ cell r c, checkCell cell bA r c = checkCell cell bF r c := by
    intro cell r c
    unfold checkCell
    rw [hc]
  have hlm : ∀ cell, getLocalMoves cell pA bA = getLocalMoves cell pF bF := by
    intro cell
    unfold getLocalMoves
    rw [hlat]
    simp only [hcc]
  unfold getAllPossibleMoves
  rw [hc, hid]
  simp only [hlm]

lemma getTerminalNodeState_congr (bA bF : BoardState) (depth : Nat) (s : Settings)
    (hlike : BoardLike bA bF) (o : Option Score) (bF1 : BoardState)
    (h : getTerminalNodeState bF depth s = .ok (o, bF1)) :
    ∃ bA1, getTerminalNodeState bA depth s = .ok (o, bA1) ∧ BoardLike bA1 bF1 := by
  unfold getTerminalNodeState at h ⊢
  rcases find?_like (fun p => p.isMaximizing)
      (fun a b hab => (eraseWinner_fields a b hab).2.1)
      bA.playerState.twoPlayer bF.playerState.twoPlayer hlike.2
    with ⟨hbA, hbF⟩ | ⟨pbA, pbF, hbA, hbF, hbe⟩
  · rw [hbF] at h
    cases hu : bF.playerState.twoPlayer.find? (fun p => !p.isMaximizing) with
    | none => rw [hu] at h; cases h
    | some pu => rw [hu] at h; cases h
  · rw [hbF] at h
    rw [hbA]
    rcases find?_like (fun p => !p.isMaximizing)
        (fun a b hab => by
          have hi : a.isMaximizing = b.isMaximizing := (eraseWinner_fields a b hab).2.1
          show (!a.isMaximizing) = (!b.isMaximizing)
          rw [hi])
        bA.playerState.twoPlayer bF.playerState.twoPlayer hlike.2
      with ⟨huA, huF⟩ | ⟨puA, puF, huA, huF, hue⟩
    · rw [huF] at h
      cases h
    · rw [huF] at h
      rw [huA]
      dsimp only at h ⊢
      cases hcwF : checkWin bF pbF s with
      | error e =>
        rw [hcwF] at h
        cases h
      | ok vF =>
        obtain ⟨w1, pbF2⟩ := vF
        rw [hcwF] at h
        obtain ⟨pbA2, hcwA, hbe2⟩ :=
          checkWin_like bA bF pbA pbF s hlike hbe w1 pbF2 hcwF
        rw [hcwA]
        cases w1 with
        | true =>
          dsimp only at h ⊢
          simp only [Except.ok.injEq, Prod.mk.injEq] at h
          obtain ⟨ho, hb⟩ := h
          subst ho
          refine ⟨bA.setFirstPlayer (fun p => p.isMaximizing) pbA2, rfl, ?_⟩
          rw [← hb]
          constructor
          · show bA.cells = bF.cells
            exact hlike.1
          · show (replaceFirst (fun p => p.isMaximizing) pbA2
                bA.playerState.twoPlayer).map Player.eraseWinner
              = (replaceFirst (fun p => p.isMaximizing) pbF2
                bF.playerState.twoPlayer).map Player.eraseWinner
            exact replaceFirst_like (fun p => p.isMaximizing)
              (fun a b hab => (eraseWinner_fields a b hab).2.1) pbA2 pbF2 hbe2
              _ _ hlike.2
        | false =>
          dsimp only at h ⊢
          cases hcwF2 : checkWin bF puF s with
          | error e =>
            rw [hcwF2] at h
            cases h
          | ok vF2 =>
            obtain ⟨w2, puF2⟩ := vF2
            rw [hcwF2] at h
            obtain ⟨puA2, hcwA2, hue2⟩ :=
              checkWin_like bA bF puA puF s hlike hue w2 puF2 hcwF2
            rw [hcwA2]
            cases w2 with
            | true =>
              dsimp only at h ⊢
              simp only [Except.ok.injEq, Prod.mk.injEq] at h
              obtain ⟨ho, hb⟩ := h
              subst ho
              refine ⟨bA.setFirstPlayer (fun p => !p.isMaximizing) puA2, rfl, ?_⟩
              rw [← hb]
              constructor
              · show bA.cells = bF.cells
                exact hlike.1
              · show (replaceFirst (fun p => !p.isMaximizing) puA2
                    bA.playerState.twoPlayer).map Player.eraseWinner
                  = (replaceFirst (fun p => !p.isMaximizing) puF2
                    bF.playerState.twoPlayer).map Player.eraseWinner
                exact replaceFirst_like (fun p => !p.isMaximizing)
                  (fun a b hab => by
                    have hi : a.isMaximizing = b.isMaximizing :=
                      (eraseWinner_fields a b hab).2.1
                    show (!a.isMaximizing) = (!b.isMaximizing)
                    rw [hi]) puA2 puF2 hue2
                  _ _ hlike.2
            | false =>
              dsimp only at h ⊢
              by_cases hd : depth = s.searchRules.depth
              · rw [if_pos hd] at h ⊢
                have hbid : pbA.id = pbF.id := (eraseWinner_fields pbA pbF hbe).1
                have huid : puA.id = puF.id := (eraseWinner_fields puA puF hue).1
                rw [hlike.1, hbid, huid]
                cases hf : bF.cells.foldlM (evalCell s pbF.id puF.id) initEvalAcc with
                | error e =>
                  rw [hf] at h
                  cases h
                | ok acc =>
                  rw [hf] at h
                  simp only [Except.ok.injEq, Prod.mk.injEq] at h
                  dsimp only
                  rw [heuristicScore_like s pbA puA pbF puF acc hbe hue]
                  refine ⟨bA, ?_, ?_⟩
                  · rw [← h.1]
                  · rw [← h.2]
                    exact hlike
              · rw [if_neg hd] at h ⊢
                simp only [Except.ok.injEq, Prod.mk.injEq] at h
                refine ⟨bA, ?_, ?_⟩
                · rw [← h.1]
                · rw [← h.2]
                  exact hlike


lemma failSoft_refl (alpha beta w : Score) : FailSoft alpha beta w w :=
  ⟨fun _ => le_refl w, fun _ => le_refl w, fun _ _ => rfl⟩

lemma maxLoop_failsoft (s : Settings)
    (recF : BoardState → Except GErr (Score × BoardState))
    (recA : BoardState → Score → Score → Except GErr (Score × BoardState))
    (hrecFlike : ∀ bb r, BoardInv bb → recF bb = .ok r → BoardLike r.2 bb)
    (hrecAlike : ∀ bb aa bb2 r, BoardInv bb → recA bb aa bb2 = .ok r → BoardLike r.2 bb)
    (hrec : ∀ bF bA alpha beta w bf, BoardInv bF → BoardLike bA bF → alpha < beta →
        recF bF = .ok (w, bf) →
        ∃ v bfA, recA bA alpha beta = .ok (v, bfA) ∧ FailSoft alpha beta w v)
    (alpha0 beta : Score) (hab : alpha0 < beta) :
    ∀ (moves : List (GridCell × GridCell)) (bF bA : BoardState) (accF accA : Score)
      (w : Score) (bf : BoardState) (player : Player),
      BoardInv bF → BoardLike bA bF →
      (∀ m ∈ moves, m ∈ getAllPossibleMoves bF player) →
      accF ≤ accA → (alpha0 < accA → accA ≤ accF) →
      max alpha0 accA < beta →
      fullMaxLoop s recF moves bF accF = .ok (w, bf) →
      ∃ v bfA, maxLoop s recA moves bA (max alpha0 accA) beta accA = .ok (v, bfA) ∧
        FailSoft alpha0 beta w v := by
  intro moves
  induction moves with
  | nil =>
    intro bF bA accF accA w bf player hinvF hlike hmv h1 h2 hwin h
    simp only [fullMaxLoop, Except.ok.injEq, Prod.mk.injEq] at h
    obtain ⟨hw, -⟩ := h
    subst hw
    refine ⟨accA, bA, by simp [maxLoop], ?_, ?_, ?_⟩
    · intro hva
      exact h1
    · intro hba
      exact h2 (lt_of_lt_of_le hab hba)
    · intro h3 h4
      exact le_antisymm (h2 h3) h1
  | cons move rest ih =>
    intro bF bA accF accA w bf player hinvF hlike hmv h1 h2 hwin h
    have hmem : move ∈ getAllPossibleMoves bF player := hmv move (List.mem_cons_self _ _)
    obtain ⟨hsrcmem0, -, -, htgtmem0, htop⟩ :=
      getAllPossibleMoves_mem bF player move.1 move.2 hmem
    obtain ⟨-, hsrcmemF, -⟩ := mem_cells_index bF.cells hinvF.1 move.1 hsrcmem0
    obtain ⟨-, htgtmemF, -⟩ := mem_cells_index bF.cells hinvF.1 move.2 htgtmem0
    have hne : move.1.id.toNat ≠ move.2.id.toNat := by
      intro hcon
      rw [hcon, htgtmemF] at hsrcmemF
      have hx := Option.some.inj hsrcmemF
      rw [hx] at htop
      exact htop rfl
    have hgdF1 : bF.cells.getD move.1.id.toNat phantomCell = move.1 :=
      getD_of_getElem? _ _ _ _ hsrcmemF
    have hgdF2 : bF.cells.getD move.2.id.toNat phantomCell = move.2 :=
      getD_of_getElem? _ _ _ _ htgtmemF
    have hsrcmemA : bA.cells[move.1.id.toNat]? = some move.1 := by
      rw [hlike.1]
      exact hsrcmemF
    have htgtmemA : bA.cells[move.2.id.toNat]? = some move.2 := by
      rw [hlike.1]
      exact htgtmemF
    have hgdA1 : bA.cells.getD move.1.id.toNat phantomCell = move.1 :=
      getD_of_getElem? _ _ _ _ hsrcmemA
    have hgdA2 : bA.cells.getD move.2.id.toNat phantomCell = move.2 :=
      getD_of_getElem? _ _ _ _ htgtmemA
    simp only [fullMaxLoop] at h
    rw [hgdF1, hgdF2] at h
    cases happF : bF.applyMoveAndTurn move.1.id.toNat move.2.id.toNat
        s.winningRules.maxStackSize with
    | error e => rw [happF] at h; cases h
    | ok bF1 =>
      rw [happF] at h
      dsimp only at h
      cases hrecF0 : recF bF1 with
      | error e => rw [hrecF0] at h; cases h
      | ok rrF =>
        obtain ⟨wi, bF2⟩ := rrF
        rw [hrecF0] at h
        dsimp only at h
        have hinvF1 : BoardInv bF1 := applyMoveAndTurn_inv bF _ _ _ bF1 hinvF happF
        have hlikeF2 : BoardLike bF2 bF1 := hrecFlike bF1 (wi, bF2) hinvF1 hrecF0
        have hundoF := undo_restores bF s.winningRules.maxStackSize move.1 move.2 bF1 bF2
          hinvF hsrcmemF htgtmemF hne happF hlikeF2.1 hlikeF2.2
        have hlikeF3 : BoardLike (bF2.undoMove ⟨move.1, move.2, bF.playerState⟩) bF :=
          ⟨hundoF.1, hundoF.2.1⟩
        obtain ⟨bA1, happA, hlikeA1⟩ := applyMoveAndTurn_like bA bF _ _ _ bF1 hlike happF
        obtain ⟨vi, bA2, hrecA0, hfsi⟩ :=
          hrec bF1 bA1 (max alpha0 accA) beta wi bF2 hinvF1 hlikeA1 hwin hrecF0
        have hinvA : BoardInv bA := boardInv_of_like bF bA hinvF hlike
        have hinvA1 : BoardInv bA1 := applyMoveAndTurn_inv bA _ _ _ bA1 hinvA happA
        have hlikeA2 : BoardLike bA2 bA1 :=
          hrecAlike bA1 (max alpha0 accA) beta (vi, bA2) hinvA1 hrecA0
        have hundoA := undo_restores bA s.winningRules.maxStackSize move.1 move.2 bA1 bA2
          hinvA hsrcmemA htgtmemA hne happA hlikeA2.1 hlikeA2.2
        have hlikeA3 : BoardLike (bA2.undoMove ⟨move.1, move.2, bA.playerState⟩) bA :=
          ⟨hundoA.1, hundoA.2.1⟩
        have hlike3 : BoardLike (bA2.undoMove ⟨move.1, move.2, bA.playerState⟩)
            (bF2.undoMove ⟨move.1, move.2, bF.playerState⟩) :=
          (hlikeA3.trans hlike).trans hlikeF3.symm
        simp only [maxLoop]
        rw [hgdA1, hgdA2, happA]
        dsimp only
        rw [hrecA0]
        dsimp only
        by_cases hcut : beta ≤ max (max alpha0 accA) (max accA vi)
        · rw [if_pos hcut]
          have hge : beta ≤ max accA vi := by
            rcases le_max_iff.mp hcut with hc1 | hc2
            · rcases le_max_iff.mp hc1 with hc3 | hc4
              · exact absurd (lt_of_lt_of_le hab hc3) (lt_irrefl _)
              · exact le_trans hc4 (le_max_left _ _)
            · exact hc2
          have hwge := fullMaxLoop_ge s recF rest _ _ _ h
          have haccFw : accF ≤ w := le_trans (le_max_left accF wi) hwge
          have hwiw : wi ≤ w := le_trans (le_max_right accF wi) hwge
          have haccAw : accA ≤ w := by
            rcases lt_or_le alpha0 accA with hc | hc
            · exact le_trans (h2 hc) haccFw
            · rcases le_max_iff.mp hge with hd1 | hd2
              · exact absurd (lt_of_lt_of_le hab hd1) (not_lt.mpr hc)
              · have hviwi : vi ≤ wi := hfsi.2.1 hd2
                exact le_trans hc
                  (lt_of_lt_of_le hab (le_trans hd2 (le_trans hviwi hwiw))).le
          have hviw : vi ≤ w := by
            rcases le_or_lt beta vi with hd | hd
            · exact le_trans (hfsi.2.1 hd) hwiw
            · rcases le_or_lt vi (max alpha0 accA) with he | he
              · rcases le_max_iff.mp he with hf1 | hf2
                · rcases le_max_iff.mp hge with hg1 | hg2
                  · have haA : accA ≤ w :=
                      le_trans (h2 (lt_of_lt_of_le hab hg1)) haccFw
                    exact le_trans hf1
                      (le_trans (lt_of_lt_of_le hab hg1).le haA)
                  · exact absurd hg2 (not_le.mpr hd)
                · exact le_trans hf2 haccAw
              · have hexact : vi = wi := hfsi.2.2 he hd
                rw [hexact]
                exact hwiw
          refine ⟨max accA vi, _, rfl, ?_, ?_, ?_⟩
          · intro hva
            exact absurd (lt_of_lt_of_le hab (le_trans hge hva)) (lt_irrefl _)
          · intro _
            exact max_le haccAw hviw
          · intro h3 h4
            exact absurd (lt_of_lt_of_le h4 hge) (lt_irrefl _)
        · rw [if_neg hcut]
          have hnotcut := not_le.mp hcut
          have hvilt : vi < beta := by
            by_contra hcon
            push_neg at hcon
            exact hcut (le_trans hcon (le_trans (le_max_right accA vi) (le_max_right _ _)))
          have hwile : wi ≤ vi := by
            rcases le_or_lt vi (max alpha0 accA) with he | he
            · exact hfsi.1 he
            · exact le_of_eq (hfsi.2.2 he hvilt).symm
          have h1s : max accF wi ≤ max accA vi :=
            max_le (le_trans h1 (le_max_left _ _)) (le_trans hwile (le_max_right _ _))
          have h2s : alpha0 < max accA vi → max accA vi ≤ max accF wi := by
            intro hlt
            apply max_le
            · rcases lt_or_le alpha0 accA with hc | hc
              · exact le_trans (h2 hc) (le_max_left _ _)
              · have hvigt : alpha0 < vi := by
                  rcases lt_max_iff.mp hlt with hd | hd
                  · exact absurd hd (not_lt.mpr hc)
                  · exact hd
                have hexact : vi = wi :=
                  hfsi.2.2 (max_lt hvigt (lt_of_le_of_lt hc hvigt)) hvilt
                have hvile : vi ≤ max accF wi := by
                  rw [hexact]
                  exact le_max_right _ _
                exact le_trans hc (le_trans hvigt.le hvile)
            · rcases le_or_lt vi (max alpha0 accA) with he | he
              · rcases le_max_iff.mp he with hf1 | hf2
                · rcases lt_max_iff.mp hlt with hd | hd
                  · exact le_trans hf1
                      (le_trans hd.le (le_trans (h2 hd) (le_max_left _ _)))
                  · exact absurd hd (not_lt.mpr hf1)
                · have hac : alpha0 < accA := by
                    rcases lt_max_iff.mp hlt with hd | hd
                    · exact hd
                    · exact lt_of_lt_of_le hd hf2
                  exact le_trans hf2 (le_trans (h2 hac) (le_max_left _ _))
              · have hexact : vi = wi := hfsi.2.2 he hvilt
                rw [hexact]
                exact le_max_right _ _
          have hwins : max alpha0 (max accA vi) < beta := by
            refine lt_of_le_of_lt ?_ hnotcut
            apply max_le
            · exact le_trans (le_max_left alpha0 accA) (le_max_left _ _)
            · exact le_max_right _ _
          have hinv3 : BoardInv (bF2.undoMove ⟨move.1, move.2, bF.playerState⟩) :=
            boardInv_of_like bF _ hinvF hlikeF3
          have hmv3 : ∀ m ∈ rest,
              m ∈ getAllPossibleMoves (bF2.undoMove ⟨move.1, move.2, bF.playerState⟩)
                player := by
            intro m hm
            rw [getAllPossibleMoves_cells_congr _ bF player hlikeF3.1]
            exact hmv m (List.mem_cons_of_mem _ hm)
          obtain ⟨v, bfA, hloop, hfs⟩ := ih (bF2.undoMove ⟨move.1, move.2, bF.playerState⟩)
            (bA2.undoMove ⟨move.1, move.2, bA.playerState⟩) (max accF wi) (max accA vi)
            w bf player hinv3 hlike3 hmv3 h1s h2s hwins h
          have halpha : max (max alpha0 accA) (max accA vi) = max alpha0 (max accA vi) := by
            rw [max_assoc]
            congr 1
            rw [← max_assoc, max_self]
          rw [halpha]
          exact ⟨v, bfA, hloop, hfs⟩


lemma minLoop_failsoft (s : Settings)
    (recF : BoardState → Except GErr (Score × BoardState))
    (recA : BoardState → Score → Score → Except GErr (Score × BoardState))
    (hrecFlike : ∀ bb r, BoardInv bb → recF bb = .ok r → BoardLike r.2 bb)
    (hrecAlike : ∀ bb aa bb2 r, BoardInv bb → recA bb aa bb2 = .ok r → BoardLike r.2 bb)
    (hrec : ∀ bF bA alpha beta w bf, BoardInv bF → BoardLike bA bF → alpha < beta →
        recF bF = .ok (w, bf) →
        ∃ v bfA, recA bA alpha beta = .ok (v, bfA) ∧ FailSoft alpha beta w v)
    (alpha beta0 : Score) (hab : alpha < beta0) :
    ∀ (moves : List (GridCell × GridCell)) (bF bA : BoardState) (accF accA : Score)
      (w : Score) (bf : BoardState) (player : Player),
      BoardInv bF → BoardLike bA bF →
      (∀ m ∈ moves, m ∈ getAllPossibleMoves bF player) →
      accA ≤ accF → (accA < beta0 → accF ≤ accA) →
      alpha < min beta0 accA →
      fullMinLoop s recF moves bF accF = .ok (w, bf) →
      ∃ v bfA, minLoop s recA moves bA alpha (min beta0 accA) accA = .ok (v, bfA) ∧
        FailSoft alpha beta0 w v := by
  intro moves
  induction moves with
  | nil =>
    intro bF bA accF accA w bf player hinvF hlike hmv h1 h2 hwin h
    simp only [fullMinLoop, Except.ok.injEq, Prod.mk.injEq] at h
    obtain ⟨hw, -⟩ := h
    subst hw
    refine ⟨accA, bA, by simp [minLoop], ?_, ?_, ?_⟩
    · intro hva
      exact h2 (lt_of_le_of_lt hva hab)
    · intro hba
      exact h1
    · intro h3 h4
      exact le_antisymm h1 (h2 h4)
  | cons move rest ih =>
    intro bF bA accF accA w bf player hinvF hlike hmv h1 h2 hwin h
    have hmem : move ∈ getAllPossibleMoves bF player := hmv move (List.mem_cons_self _ _)
    obtain ⟨hsrcmem0, -, -, htgtmem0, htop⟩ :=
      getAllPossibleMoves_mem bF player move.1 move.2 hmem
    obtain ⟨-, hsrcmemF, -⟩ := mem_cells_index bF.cells hinvF.1 move.1 hsrcmem0
    obtain ⟨-, htgtmemF, -⟩ := mem_cells_index bF.cells hinvF.1 move.2 htgtmem0
    have hne : move.1.id.toNat ≠ move.2.id.toNat := by
      intro hcon
      rw [hcon, htgtmemF] at hsrcmemF
      have hx := Option.some.inj hsrcmemF
      rw [hx] at htop
      exact htop rfl
    have hgdF1 : bF.cells.getD move.1.id.toNat phantomCell = move.1 :=
      getD_of_getElem? _ _ _ _ hsrcmemF
    have hgdF2 : bF.cells.getD move.2.id.toNat phantomCell = move.2 :=
      getD_of_getElem? _ _ _ _ htgtmemF
    have hsrcmemA : bA.cells[move.1.id.toNat]? = some move.1 := by
      rw [hlike.1]
      exact hsrcmemF
    have htgtmemA : bA.cells[move.2.id.toNat]? = some move.2 := by
      rw [hlike.1]
      exact htgtmemF
    have hgdA1 : bA.cells.getD move.1.id.toNat phantomCell = move.1 :=
      getD_of_getElem? _ _ _ _ hsrcmemA
    have hgdA2 : bA.cells.getD move.2.id.toNat phantomCell = move.2 :=
      getD_of_getElem? _ _ _ _ htgtmemA
    simp only [fullMinLoop] at h
    rw [hgdF1, hgdF2] at h
    cases happF : bF.applyMoveAndTurn move.1.id.toNat move.2.id.toNat
        s.winningRules.maxStackSize with
    | error e => rw [happF] at h; cases h
    | ok bF1 =>
      rw [happF] at h
      dsimp only at h
      cases hrecF0 : recF bF1 with
      | error e => rw [hrecF0] at h; cases h
      | ok rrF =>
        obtain ⟨wi, bF2⟩ := rrF
        rw [hrecF0] at h
        dsimp only at h
        have hinvF1 : BoardInv bF1 := applyMoveAndTurn_inv bF _ _ _ bF1 hinvF happF
        have hlikeF2 : BoardLike bF2 bF1 := hrecFlike bF1 (wi, bF2) hinvF1 hrecF0
        have hundoF := undo_restores bF s.winningRules.maxStackSize move.1 move.2 bF1 bF2
          hinvF hsrcmemF htgtmemF hne happF hlikeF2.1 hlikeF2.2
        have hlikeF3 : BoardLike (bF2.undoMove ⟨move.1, move.2, bF.playerState⟩) bF :=
          ⟨hundoF.1, hundoF.2.1⟩
        obtain ⟨bA1, happA, hlikeA1⟩ := applyMoveAndTurn_like bA bF _ _ _ bF1 hlike happF
        obtain ⟨vi, bA2, hrecA0, hfsi⟩ :=
          hrec bF1 bA1 alpha (min beta0 accA) wi bF2 hinvF1 hlikeA1 hwin hrecF0
        have hinvA : BoardInv bA := boardInv_of_like bF bA hinvF hlike
        have hinvA1 : BoardInv bA1 := applyMoveAndTurn_inv bA _ _ _ bA1 hinvA happA
        have hlikeA2 : BoardLike bA2 bA1 :=
          hrecAlike bA1 alpha (min beta0 accA) (vi, bA2) hinvA1 hrecA0
        have hundoA := undo_restores bA s.winningRules.maxStackSize move.1 move.2 bA1 bA2
          hinvA hsrcmemA htgtmemA hne happA hlikeA2.1 hlikeA2.2
        have hlikeA3 : BoardLike (bA2.undoMove ⟨move.1, move.2, bA.playerState⟩) bA :=
          ⟨hundoA.1, hundoA.2.1⟩
        have hlike3 : BoardLike (bA2.undoMove ⟨move.1, move.2, bA.playerState⟩)
            (bF2.undoMove ⟨move.1, move.2, bF.playerState⟩) :=
          (hlikeA3.trans hlike).trans hlikeF3.symm
        simp only [minLoop]
        rw [hgdA1, hgdA2, happA]
        dsimp only
        rw [hrecA0]
        dsimp only
        by_cases hcut : min (min beta0 accA) (min accA vi) ≤ alpha
        · rw [if_pos hcut]
          have hge : min accA vi ≤ alpha := by
            rcases min_le_iff.mp hcut with hc1 | hc2
            · rcases min_le_iff.mp hc1 with hc3 | hc4
              · exact absurd (lt_of_lt_of_le hab hc3) (lt_irrefl _)
              · exact le_trans (min_le_left _ _) hc4
            · exact hc2
          have hwle := fullMinLoop_le s recF rest _ _ _ h
          have hwaccF : w ≤ accF := le_trans hwle (min_le_left _ _)
          have hwwi : w ≤ wi := le_trans hwle (min_le_right _ _)
          have hwaccA : w ≤ accA := by
            rcases lt_or_le accA beta0 with hc | hc
            · exact le_trans hwaccF (h2 hc)
            · rcases min_le_iff.mp hge with hd1 | hd2
              · exact absurd (lt_of_lt_of_le hab (le_trans hc hd1)) (lt_irrefl _)
              · have hwivi : wi ≤ vi := hfsi.1 hd2
                exact le_trans hwwi (le_trans hwivi
                  (le_trans hd2 (lt_of_lt_of_le hab hc).le))
          have hwvi : w ≤ vi := by
            rcases le_or_lt vi alpha with hd | hd
            · exact le_trans hwwi (hfsi.1 hd)
            · rcases le_or_lt (min beta0 accA) vi with he | he
              · rcases min_le_iff.mp he with hf1 | hf2
                · rcases min_le_iff.mp hge with hg1 | hg2
                  · have haA : w ≤ accA :=
                      le_trans hwaccF (h2 (lt_of_le_of_lt hg1 hab))
                    exact le_trans haA (le_trans hg1 (le_trans hab.le hf1))
                  · exact absurd (lt_of_lt_of_le hab (le_trans hf1 hg2)) (lt_irrefl _)
                · exact le_trans hwaccA hf2
              · have hexact : vi = wi := hfsi.2.2 hd he
                rw [hexact]
                exact hwwi
          refine ⟨min accA vi, _, rfl, ?_, ?_, ?_⟩
          · intro _
            exact le_min hwaccA hwvi
          · intro hbv
            exact absurd (lt_of_lt_of_le hab (le_trans hbv hge)) (lt_irrefl _)
          · intro h3 h4
            exact absurd (lt_of_lt_of_le h3 hge) (lt_irrefl _)
        · rw [if_neg hcut]
          have hnotcut := not_le.mp hcut
          have hvigt : alpha < vi := by
            by_contra hcon
            push_neg at hcon
            exact hcut (le_trans (min_le_right _ _)
              (le_trans (min_le_right accA vi) hcon))
          have hwige : vi ≤ wi := by
            rcases le_or_lt (min beta0 accA) vi with he | he
            · exact hfsi.2.1 he
            · exact le_of_eq (hfsi.2.2 hvigt he)
          have h1s : min accA vi ≤ min accF wi :=
            le_min (le_trans (min_le_left _ _) h1) (le_trans (min_le_right _ _) hwige)
          have h2s : min accA vi < beta0 → min accF wi ≤ min accA vi := by
            intro hlt
            apply le_min
            · rcases lt_or_le accA beta0 with hc | hc
              · exact le_trans (min_le_left _ _) (h2 hc)
              · have hvilt : vi < beta0 := by
                  rcases min_lt_iff.mp hlt with hd | hd
                  · exact absurd hd (not_lt.mpr hc)
                  · exact hd
                have hexact : vi = wi :=
                  hfsi.2.2 hvigt (lt_min hvilt (lt_of_lt_of_le hvilt hc))
                have hmle : min accF wi ≤ vi := by
                  rw [hexact]
                  exact min_le_right _ _
                exact le_trans hmle (le_trans hvilt.le hc)
            · rcases le_or_lt (min beta0 accA) vi with he | he
              · rcases min_le_iff.mp he with hf1 | hf2
                · have hd : accA < beta0 := by
                    rcases min_lt_iff.mp hlt with hd | hd
                    · exact hd
                    · exact absurd hd (not_lt.mpr hf1)
                  exact le_trans (min_le_left _ _)
                    (le_trans (h2 hd) (le_trans hd.le hf1))
                · have hd : accA < beta0 := by
                    rcases min_lt_iff.mp hlt with hd | hd
                    · exact hd
                    · exact lt_of_le_of_lt hf2 hd
                  exact le_trans (min_le_left _ _) (le_trans (h2 hd) hf2)
              · have hexact : vi = wi := hfsi.2.2 hvigt he
                rw [hexact]
                exact min_le_right _ _
          have hwins : alpha < min beta0 (min accA vi) := by
            refine lt_of_lt_of_le hnotcut ?_
            apply le_min
            · exact le_trans (min_le_left _ _) (min_le_left _ _)
            · exact min_le_right _ _
          have hinv3 : BoardInv (bF2.undoMove ⟨move.1, move.2, bF.playerState⟩) :=
            boardInv_of_like bF _ hinvF hlikeF3
          have hmv3 : ∀ m ∈ rest,
              m ∈ getAllPossibleMoves (bF2.undoMove ⟨move.1, move.2, bF.playerState⟩)
                player := by
            intro m hm
            rw [getAllPossibleMoves_cells_congr _ bF player hlikeF3.1]
            exact hmv m (List.mem_cons_of_mem _ hm)
          obtain ⟨v, bfA, hloop, hfs⟩ := ih (bF2.undoMove ⟨move.1, move.2, bF.playerState⟩)
            (bA2.undoMove ⟨move.1, move.2, bA.playerState⟩) (min accF wi) (min accA vi)
            w bf player hinv3 hlike3 hmv3 h1s h2s hwins h
          have hbeta : min (min beta0 accA) (min accA vi) = min beta0 (min accA vi) := by
            rw [min_assoc]
            congr 1
            rw [← min_assoc, min_self]
          rw [hbeta]
          exact ⟨v, bfA, hloop, hfs⟩


lemma minimaxAux_failsoft (s : Settings) :
    ∀ (fuel : Nat) (bF bA : BoardState) (depth : Nat) (alpha beta : Score)
      (w : Score) (bf : BoardState),
      BoardInv bF → BoardLike bA bF → alpha < beta →
      minimaxFullAux s fuel bF depth = .ok (w, bf) →
      ∃ v bfA, minimaxAux s fuel bA depth alpha beta = .ok (v, bfA) ∧
        FailSoft alpha beta w v := by
  intro fuel
  induction fuel with
  | zero =>
    intro bF bA depth alpha beta w bf hinvF hlike hab h
    simp only [minimaxFullAux] at h
    cases h
  | succ n ih =>
    intro bF bA depth alpha beta w bf hinvF hlike hab h
    simp only [minimaxFullAux] at h
    simp only [minimaxAux]
    cases htsF : getTerminalNodeState bF depth s with
    | error e => rw [htsF] at h; cases h
    | ok vF =>
      obtain ⟨o, bF1⟩ := vF
      rw [htsF] at h
      obtain ⟨bA1, htsA, hlike1⟩ := getTerminalNodeState_congr bA bF depth s hlike o bF1 htsF
      rw [htsA]
      cases o with
      | some evaluation =>
        dsimp only at h ⊢
        simp only [Except.ok.injEq, Prod.mk.injEq] at h
        obtain ⟨hw, -⟩ := h
        subst hw
        exact ⟨evaluation, bA1, rfl, failSoft_refl alpha beta evaluation⟩
      | none =>
        dsimp only at h ⊢
        cases hfpF : bF.playerState.twoPlayer.find? (fun p => p.turn) with
        | none => rw [hfpF] at h; cases h
        | some cpF =>
          rw [hfpF] at h
          rcases find?_like (fun p => p.turn)
              (fun a b hab2 => (eraseWinner_fields a b hab2).2.2.1)
              bA.playerState.twoPlayer bF.playerState.twoPlayer hlike.2
            with ⟨hcA, hcF⟩ | ⟨cpA, cpF2, hcA, hcF, hce⟩
          · rw [hfpF] at hcF
            cases hcF
          · rw [hfpF] at hcF
            have hcc : cpF = cpF2 := Option.some.inj hcF
            subst hcc
            rw [hcA]
            dsimp only at h ⊢
            have hmax2 : cpA.isMaximizing = cpF.isMaximizing :=
              (eraseWinner_fields _ _ hce).2.1
            have hinvF1 : BoardInv bF1 := boardInv_of_like bF bF1 hinvF
              (getTerminalNodeState_like bF depth s none bF1 htsF)
            have hmoves : getAllPossibleMoves bA1 cpA = getAllPossibleMoves bF1 cpF :=
              getAllPossibleMoves_congr2 bA1 bF1 cpA cpF hlike1.1
                (eraseWinner_fields _ _ hce).1 (eraseWinner_fields _ _ hce).2.2.2.1
            rw [hmax2, hmoves]
            by_cases hm : cpF.isMaximizing = true
            · rw [if_pos hm] at h ⊢
              have hmb : max alpha (negInf : Score) = alpha := max_eq_left bot_le
              have hwin0 : max alpha (negInf : Score) < beta := by
                rw [hmb]
                exact hab
              obtain ⟨v, bfA, hloop, hfs⟩ := maxLoop_failsoft s
                (fun bb => minimaxFullAux s n bb (depth + 1))
                (fun bb aa bb2 => minimaxAux s n bb (depth + 1) aa bb2)
                (fun bb rr hbb hrr => minimaxFullAux_like s n bb (depth + 1) rr hbb hrr)
                (fun bb aa bb2 rr hbb hrr =>
                  minimaxAux_like s n bb (depth + 1) aa bb2 rr hbb hrr)
                (fun bF2 bA2 a2 b2 w2 bf2 hh1 hh2 hh3 hh4 =>
                  ih bF2 bA2 (depth + 1) a2 b2 w2 bf2 hh1 hh2 hh3 hh4)
                alpha beta hab (getAllPossibleMoves bF1 cpF) bF1 bA1 negInf negInf w bf
                cpF hinvF1 hlike1 (fun m hm2 => hm2) (le_refl _)
                (fun hcon => absurd hcon (not_lt_bot)) hwin0 h
              rw [hmb] at hloop
              exact ⟨v, bfA, hloop, hfs⟩
            · rw [if_neg hm] at h ⊢
              have hmt : min beta (posInf : Score) = beta := min_eq_left le_top
              have hwin0 : alpha < min beta (posInf : Score) := by
                rw [hmt]
                exact hab
              obtain ⟨v, bfA, hloop, hfs⟩ := minLoop_failsoft s
                (fun bb => minimaxFullAux s n bb (depth + 1))
                (fun bb aa bb2 => minimaxAux s n bb (depth + 1) aa bb2)
                (fun bb rr hbb hrr => minimaxFullAux_like s n bb (depth + 1) rr hbb hrr)
                (fun bb aa bb2 rr hbb hrr =>
                  minimaxAux_like s n bb (depth + 1) aa bb2 rr hbb hrr)
                (fun bF2 bA2 a2 b2 w2 bf2 hh1 hh2 hh3 hh4 =>
                  ih bF2 bA2 (depth + 1) a2 b2 w2 bf2 hh1 hh2 hh3 hh4)
                alpha beta hab (getAllPossibleMoves bF1 cpF) bF1 bA1 posInf posInf w bf
                cpF hinvF1 hlike1 (fun m hm2 => hm2) (le_refl _)
                (fun hcon => absurd hcon (not_top_lt)) hwin0 h
              rw [hmt] at hloop
              exact ⟨v, bfA, hloop, hfs⟩

/-- C3: on every well-formed board (exactly one player to move) and at
every fuel and depth, when the pruning-free full-width reference minimax
returns a score, the alpha-beta search on the same board with the full
window (-Infinity, +Infinity) returns the very same score. -/
theorem alphabeta_eq_full_minimax (s : Settings) (b : BoardState) (fuel depth : Nat)
    (w : Score) (bf : BoardState) (hinv : BoardInv b)
    (hfull : minimaxFullAux s fuel b depth = .ok (w, bf)) :
    ∃ bfA, minimaxAux s fuel b depth negInf posInf = .ok (w, bfA) := by
  have hbt : (negInf : Score) < posInf := bot_lt_top
  obtain ⟨v, bfA, habr, hfs⟩ := minimaxAux_failsoft s fuel b b depth negInf posInf w bf
    hinv ⟨rfl, rfl⟩ hbt hfull
  have hveq : v = w := by
    rcases lt_or_le negInf v with h1 | h1
    · rcases lt_or_le v posInf with h2 | h2
      · exact hfs.2.2 h1 h2
      · exact le_antisymm (hfs.2.1 h2) (le_trans le_top h2)
    · exact le_antisymm (le_trans h1 bot_le) (hfs.1 h1)
  rw [← hveq]
  exact ⟨bfA, habr⟩

set_option maxRecDepth 400000 in
/-- Witness for C3: the depth-1 full-width reference and the depth-1
alpha-beta search agree on the initial board, both scoring it -80. -/
theorem alphabeta_eq_full_minimax_witness :
    ∃ bfA, minimaxAux settingsDepth1 2 initBoard 0 negInf posInf
      = .ok (finScore (-80), bfA) :=
  alphabeta_eq_full_minimax settingsDepth1 initBoard 2 0 (finScore (-80)) initBoard
    (by decide) (by with_unfolding_all rfl)


/-! C8: characterization of the leaf evaluation.  The bucket-logic side
conditions and the closed forms below are modelled from the spec text of
the evaluator, to be compared against the embedded source. -/

/-- Modelled from the spec: the distances the five weight buckets accept. -/
def distOk (d : Int) : Bool := d == 1 || d == 2 || d == 3 || d == 4 || d == 5

/-- Modelled from the spec: the per-distance bucket weight as a total
function (0 outside the buckets). -/
def specWeight (s : Settings) (d : Int) : ℚ :=
  if d = 1 then s.safetyZoneProximity.weightRowDistance1
  else if d = 2 then s.safetyZoneProximity.weightRowDistance2
  else if d = 3 then s.safetyZoneProximity.weightRowDistance3
  else if d = 4 then s.safetyZoneProximity.weightRowDistance4
  else if d = 5 then s.safetyZoneProximity.weightRowDistance5
  else 0

/-- Modelled from the spec: a bot-topped reversed tower whose remaining
distance falls outside the five buckets, which makes the evaluation
throw when the safety zone rule is active. -/
def evalBadBot (s : Settings) (botId : PlayerId) (c : GridCell) : Bool :=
  decide (s.winningRules.safetyZone > 0) && (c.svgLayout.getLast? == some botId) &&
    c.dot && !(distOk (5 - c.row))

/-- Modelled from the spec: the user-side bad reversed tower. -/
def evalBadUser (s : Settings) (userId : PlayerId) (c : GridCell) : Bool :=
  decide (s.winningRules.safetyZone > 0) && (c.svgLayout.getLast? == some userId) &&
    c.dot && !(distOk c.row)

/-- Modelled from the spec: the whole accumulator of the cell pass in
closed form — tower counts, summed bucket weights and summed distances of
the reversed towers of each side. -/
def accFormula (s : Settings) (botId userId : PlayerId) (cells : List GridCell) :
    EvalAcc :=
  { botTowers := cells.countP (fun c => c.svgLayout.getLast? == some botId),
    userTowers := cells.countP (fun c => c.svgLayout.getLast? == some userId),
    botTowerSafetyWeight := ((cells.filter (fun c =>
        decide (s.winningRules.safetyZone > 0) &&
        (c.svgLayout.getLast? == some botId) && c.dot)).map
      (fun c => specWeight s (5 - c.row))).sum,
    userTowerSafetyWeight := ((cells.filter (fun c =>
        decide (s.winningRules.safetyZone > 0) &&
        (c.svgLayout.getLast? == some userId) && c.dot)).map
      (fun c => specWeight s c.row)).sum,
    botTowerTotalSafetyDistance := ((cells.filter (fun c =>
        decide (s.winningRules.safetyZone > 0) &&
        (c.svgLayout.getLast? == some botId) && c.dot)).map
      (fun c => 5 - c.row)).sum,
    userTowerTotalSafetyDistance := ((cells.filter (fun c =>
        decide (s.winningRules.safetyZone > 0) &&
        (c.svgLayout.getLast? == some userId) && c.dot)).map
      (fun c => c.row)).sum }

/-- Modelled from the spec: the leaf heuristic as a sum of the
material-conquered term, the conditional safety-proximity terms and the
conditional accounted-material term. -/
def heuristicFormula (s : Settings) (playerBot playerUser : Player) (acc : EvalAcc) :
    ℚ :=
  ((acc.botTowers : ℚ) -
      s.materialAdvantageConquered.opponentWeight * (acc.userTowers : ℚ)) *
    s.materialAdvantageConquered.totalWeight
  + (if s.winningRules.safetyZone > 0 then
      ((jsRound ((acc.botTowerSafetyWeight -
          s.safetyZoneProximity.opponentWeight * acc.userTowerSafetyWeight) *
        s.safetyZoneProximity.totalWeight) : ℤ) : ℚ)
      + ((if acc.botTowerTotalSafetyDistance > 4 then (0 : ℚ) else 1)
          - (if acc.userTowerTotalSafetyDistance > 4 then (0 : ℚ) else 1) *
            s.safetyZoneProximity.opponentWeight) *
        s.safetyZoneProximity.safetyZoneTotalDistance * s.safetyZoneProximity.totalWeight
    else 0)
  + (if s.winningRules.materialOpponent > 0 then
      ((playerBot.vault.opponent : ℚ) - (playerUser.vault.opponent : ℚ)) *
        s.materialAdvantageAccounted.totalWeight
    else 0)

/-- Componentwise sum of two evaluation accumulators. -/
def addAcc (a b : EvalAcc) : EvalAcc :=
  { botTowers := a.botTowers + b.botTowers,
    userTowers := a.userTowers + b.userTowers,
    botTowerSafetyWeight := a.botTowerSafetyWeight + b.botTowerSafetyWeight,
    userTowerSafetyWeight := a.userTowerSafetyWeight + b.userTowerSafetyWeight,
    botTowerTotalSafetyDistance :=
      a.botTowerTotalSafetyDistance + b.botTowerTotalSafetyDistance,
    userTowerTotalSafetyDistance :=
      a.userTowerTotalSafetyDistance + b.userTowerTotalSafetyDistance }

lemma heuristicScore_eq_formula (s : Settings) (pb pu : Player) (acc : EvalAcc) :
    heuristicScore s pb pu acc = heuristicFormula s pb pu acc := by
  unfold heuristicScore heuristicFormula
  dsimp only
  split_ifs <;> ring

lemma distanceWeight_ok (s : Settings) (d : Int) (h : distOk d = true) :
    distanceWeight s d = .ok (specWeight s d) := by
  unfold distOk at h
  simp only [Bool.or_eq_true, beq_iff_eq] at h
  unfold distanceWeight specWeight
  rcases h with (((h | h) | h) | h) | h <;> subst h <;> rfl

lemma distanceWeight_err (s : Settings) (d : Int) (h : distOk d = false) :
    distanceWeight s d = .error .invalidEval := by
  unfold distOk at h
  simp only [Bool.or_eq_false_iff, beq_eq_false_iff_ne, ne_eq] at h
  unfold distanceWeight
  rw [if_neg h.1.1.1.1, if_neg h.1.1.1.2, if_neg h.1.1.2, if_neg h.1.2, if_neg h.2]

lemma evalCellBot_eq (s : Settings) (botId : PlayerId) (acc : EvalAcc) (c : GridCell) :
    evalCellBot s botId acc c =
      (if evalBadBot s botId c = true then .error .invalidEval
       else .ok { acc with
        botTowers := acc.botTowers +
          (if c.svgLayout.getLast? == some botId then 1 else 0),
        botTowerSafetyWeight := acc.botTowerSafetyWeight +
          (if decide (s.winningRules.safetyZone > 0) &&
              (c.svgLayout.getLast? == some botId) && c.dot
           then specWeight s (5 - c.row) else 0),
        botTowerTotalSafetyDistance := acc.botTowerTotalSafetyDistance +
          (if decide (s.winningRules.safetyZone > 0) &&
              (c.svgLayout.getLast? == some botId) && c.dot
           then 5 - c.row else 0) }) := by
  unfold evalCellBot evalBadBot
  by_cases h1 : (c.svgLayout.getLast? == some botId) = true
  · rw [if_pos h1]
    by_cases h2 : s.winningRules.safetyZone > 0 ∧ c.dot = true
    · rw [if_pos h2]
      dsimp only
      by_cases h3 : distOk (5 - c.row) = true
      · rw [distanceWeight_ok s _ h3]
        rw [if_neg (by simp [h1, h2.1, h2.2, h3])]
        have hcond : (decide (s.winningRules.safetyZone > 0) &&
            (c.svgLayout.getLast? == some botId) && c.dot) = true := by
          simp [h1, h2.1, h2.2]
        rw [if_pos h1, if_pos hcond, if_pos hcond]
      · rw [distanceWeight_err s _ (by simpa using h3)]
        rw [if_pos (by simp [h1, h2.1, h2.2, h3])]
    · rw [if_neg h2]
      have hcond : (decide (s.winningRules.safetyZone > 0) &&
          (c.svgLayout.getLast? == some botId) && c.dot) = false := by
        rcases Decidable.not_and_iff_or_not.mp h2 with h4 | h4
        · simp [h4]
        · simp [h4]
      rw [if_neg (by simp [hcond]), if_pos h1, if_neg (by simp [hcond]),
        if_neg (by simp [hcond])]
      simp
  · rw [if_neg h1]
    rw [if_neg (by simp [h1]), if_neg (by simp [h1]),
      if_neg (by simp [h1]), if_neg (by simp [h1])]
    simp

lemma evalCellUser_eq (s : Settings) (userId : PlayerId) (acc : EvalAcc) (c : GridCell) :
    evalCellUser s userId acc c =
      (if evalBadUser s userId c = true then .error .invalidEval
       else .ok { acc with
        userTowers := acc.userTowers +
          (if c.svgLayout.getLast? == some userId then 1 else 0),
        userTowerSafetyWeight := acc.userTowerSafetyWeight +
          (if decide (s.winningRules.safetyZone > 0) &&
              (c.svgLayout.getLast? == some userId) && c.dot
           then specWeight s c.row else 0),
        userTowerTotalSafetyDistance := acc.userTowerTotalSafetyDistance +
          (if decide (s.winningRules.safetyZone > 0) &&
              (c.svgLayout.getLast? == some userId) && c.dot
           then c.row else 0) }) := by
  unfold evalCellUser evalBadUser
  by_cases h1 : (c.svgLayout.getLast? == some userId) = true
  · rw [if_pos h1]
    by_cases h2 : s.winningRules.safetyZone > 0 ∧ c.dot = true
    · rw [if_pos h2]
      dsimp only
      by_cases h3 : distOk c.row = true
      · rw [distanceWeight_ok s _ h3]
        rw [if_neg (by simp [h1, h2.1, h2.2, h3])]
        have hcond : (decide (s.winningRules.safetyZone > 0) &&
            (c.svgLayout.getLast? == some userId) && c.dot) = true := by
          simp [h1, h2.1, h2.2]
        rw [if_pos h1, if_pos hcond, if_pos hcond]
      · rw [distanceWeight_err s _ (by simpa using h3)]
        rw [if_pos (by simp [h1, h2.1, h2.2, h3])]
    · rw [if_neg h2]
      have hcond : (decide (s.winningRules.safetyZone > 0) &&
          (c.svgLayout.getLast? == some userId) && c.dot) = false := by
        rcases Decidable.not_and_iff_or_not.mp h2 with h4 | h4
        · simp [h4]
        · simp [h4]
      rw [if_neg (by simp [hcond]), if_pos h1, if_neg (by simp [hcond]),
        if_neg (by simp [hcond])]
      simp
  · rw [if_neg h1]
    rw [if_neg (by simp [h1]), if_neg (by simp [h1]),
      if_neg (by simp [h1]), if_neg (by simp [h1])]
    simp


/-- The per-cell accumulator contribution in closed form. -/
def cellAcc (s : Settings) (botId userId : PlayerId) (c : GridCell) : EvalAcc :=
  { botTowers := if c.svgLayout.getLast? == some botId then 1 else 0,
    userTowers := if c.svgLayout.getLast? == some userId then 1 else 0,
    botTowerSafetyWeight := if decide (s.winningRules.safetyZone > 0) &&
        (c.svgLayout.getLast? == some botId) && c.dot
      then specWeight s (5 - c.row) else 0,
    userTowerSafetyWeight := if decide (s.winningRules.safetyZone > 0) &&
        (c.svgLayout.getLast? == some userId) && c.dot
      then specWeight s c.row else 0,
    botTowerTotalSafetyDistance := if decide (s.winningRules.safetyZone > 0) &&
        (c.svgLayout.getLast? == some botId) && c.dot
      then 5 - c.row else 0,
    userTowerTotalSafetyDistance := if decide (s.winningRules.safetyZone > 0) &&
        (c.svgLayout.getLast? == some userId) && c.dot
      then c.row else 0 }

lemma evalCell_eq (s : Settings) (botId userId : PlayerId) (acc : EvalAcc)
    (c : GridCell) :
    evalCell s botId userId acc c =
      (if (evalBadBot s botId c || evalBadUser s userId c) = true
       then .error .invalidEval
       else .ok (addAcc acc (cellAcc s botId userId c))) := by
  unfold evalCell
  rw [evalCellBot_eq]
  by_cases hb : evalBadBot s botId c = true
  · rw [if_pos hb, if_pos (by simp [hb])]
  · rw [if_neg hb]
    dsimp only
    rw [evalCellUser_eq]
    by_cases hu : evalBadUser s userId c = true
    · rw [if_pos hu, if_pos (by simp [hu])]
    · have hni : ¬ ((evalBadBot s botId c || evalBadUser s userId c) = true) := by
        simp only [Bool.or_eq_true]
        push_neg
        exact ⟨hb, hu⟩
      rw [if_neg hu, if_neg hni]
      unfold addAcc cellAcc
      rfl

lemma accFormula_cons (s : Settings) (botId userId : PlayerId) (c : GridCell)
    (rest : List GridCell) :
    accFormula s botId userId (c :: rest)
      = addAcc (cellAcc s botId userId c) (accFormula s botId userId rest) := by
  unfold accFormula addAcc cellAcc
  simp only [List.countP_cons, List.filter_cons, EvalAcc.mk.injEq]
  refine ⟨?_, ?_, ?_, ?_, ?_, ?_⟩ <;> split_ifs <;>
    simp [List.map_cons, List.sum_cons, add_comm]

lemma addAcc_assoc (a b c : EvalAcc) : addAcc (addAcc a b) c = addAcc a (addAcc b c) := by
  unfold addAcc
  simp only [EvalAcc.mk.injEq]
  refine ⟨?_, ?_, ?_, ?_, ?_, ?_⟩ <;> ring

lemma addAcc_init (x : EvalAcc) : addAcc initEvalAcc x = x := by
  cases x
  unfold addAcc initEvalAcc
  simp

lemma foldlM_evalCell_spec (s : Settings) (botId userId : PlayerId) :
    ∀ (cells : List GridCell) (acc : EvalAcc),
      cells.foldlM (evalCell s botId userId) acc =
        (if cells.any (fun c => evalBadBot s botId c || evalBadUser s userId c) = true
         then .error .invalidEval
         else .ok (addAcc acc (accFormula s botId userId cells))) := by
  intro cells
  induction cells with
  | nil =>
    intro acc
    rw [if_neg (by simp)]
    show Except.ok acc = _
    congr 1
    unfold accFormula
    simp only [List.countP_nil, List.filter_nil, List.map_nil, List.sum_nil]
    cases acc
    unfold addAcc
    simp
  | cons c rest ih =>
    intro acc
    rw [List.foldlM_cons, evalCell_eq]
    by_cases hbad : (evalBadBot s botId c || evalBadUser s userId c) = true
    · rw [if_pos hbad, if_pos (by simp [List.any_cons, hbad])]
      rfl
    · rw [if_neg hbad]
      show rest.foldlM (evalCell s botId userId) (addAcc acc (cellAcc s botId userId c))
        = _
      rw [ih]
      by_cases hrest : rest.any
          (fun c => evalBadBot s botId c || evalBadUser s userId c) = true
      · rw [if_pos hrest, if_pos (by simp [List.any_cons, hrest])]
      · have hni : ¬ ((c :: rest).any
            (fun c => evalBadBot s botId c || evalBadUser s userId c) = true) := by
          simp only [List.any_cons, Bool.or_eq_true]
          push_neg
          refine ⟨by simpa using hbad, by simpa using hrest⟩
        rw [if_neg hrest, if_neg hni]
        rw [accFormula_cons, ← addAcc_assoc]

/-- C8: the leaf evaluation.  (i) A bot win short-circuits to +Infinity
and a user win to -Infinity, in that order, for every depth and without
reaching the per-distance bucket logic (the conclusion holds even when
the cell pass would throw).  (ii) When neither player has won and the
depth equals the maximum search depth, the evaluation throws exactly when
some reversed tower sits outside the five distance buckets, and otherwise
returns the heuristic: the material-conquered term, plus (only with an
active safety zone) the rounded safety-proximity term and the binary
imminent-win bonus, plus (only with an active vault rule) the
accounted-material term.  (iii) At non-terminal, non-maximum-depth nodes
it returns null. -/
theorem getTerminalNodeState_spec (s : Settings) (b : BoardState) (depth : Nat)
    (pb pu : Player)
    (hfb : b.playerState.twoPlayer.find? (fun p => p.isMaximizing) = some pb)
    (hfu : b.playerState.twoPlayer.find? (fun p => !p.isMaximizing) = some pu) :
    (∀ pb2, checkWin b pb s = .ok (true, pb2) →
      getTerminalNodeState b depth s
        = .ok (some posInf, b.setFirstPlayer (fun p => p.isMaximizing) pb2)) ∧
    (∀ pb2 pu2, checkWin b pb s = .ok (false, pb2) → checkWin b pu s = .ok (true, pu2) →
      getTerminalNodeState b depth s
        = .ok (some negInf, b.setFirstPlayer (fun p => !p.isMaximizing) pu2)) ∧
    (∀ pb2 pu2, checkWin b pb s = .ok (false, pb2) → checkWin b pu s = .ok (false, pu2) →
      depth = s.searchRules.depth →
      getTerminalNodeState b depth s =
        (if b.cells.any (fun c => evalBadBot s pb.id c || evalBadUser s pu.id c) = true
         then .error .invalidEval
         else .ok (some (finScore (heuristicFormula s pb pu
             (accFormula s pb.id pu.id b.cells))), b))) ∧
    (∀ pb2 pu2, checkWin b pb s = .ok (false, pb2) → checkWin b pu s = .ok (false, pu2) →
      depth ≠ s.searchRules.depth →
      getTerminalNodeState b depth s = .ok (none, b)) := by
  refine ⟨?_, ?_, ?_, ?_⟩
  · intro pb2 hcw
    unfold getTerminalNodeState
    rw [hfb, hfu]
    dsimp only
    rw [hcw]
  · intro pb2 pu2 hcw1 hcw2
    unfold getTerminalNodeState
    rw [hfb, hfu]
    dsimp only
    rw [hcw1]
    dsimp only
    rw [hcw2]
  · intro pb2 pu2 hcw1 hcw2 hd
    unfold getTerminalNodeState
    rw [hfb, hfu]
    dsimp only
    rw [hcw1]
    dsimp only
    rw [hcw2]
    dsimp only
    rw [if_pos hd, foldlM_evalCell_spec]
    by_cases hbad : b.cells.any
        (fun c => evalBadBot s pb.id c || evalBadUser s pu.id c) = true
    · rw [if_pos hbad, if_pos hbad]
    · rw [if_neg hbad, if_neg hbad]
      dsimp only
      rw [addAcc_init, heuristicScore_eq_formula]
  · intro pb2 pu2 hcw1 hcw2 hd
    unfold getTerminalNodeState
    rw [hfb, hfu]
    dsimp only
    rw [hcw1]
    dsimp only
    rw [hcw2]
    dsimp only
    rw [if_neg hd]

/-- Witness for C8: the leaf characterization applied to the initial
board at the maximum depth of the depth-1 settings. -/
theorem getTerminalNodeState_spec_witness :
    (∀ pb2, checkWin initBoard botP settingsDepth1 = .ok (true, pb2) →
      getTerminalNodeState initBoard 1 settingsDepth1
        = .ok (some posInf, initBoard.setFirstPlayer (fun p => p.isMaximizing) pb2)) ∧
    (∀ pb2 pu2, checkWin initBoard botP settingsDepth1 = .ok (false, pb2) →
      checkWin initBoard userP settingsDepth1 = .ok (true, pu2) →
      getTerminalNodeState initBoard 1 settingsDepth1
        = .ok (some negInf, initBoard.setFirstPlayer (fun p => !p.isMaximizing) pu2)) ∧
    (∀ pb2 pu2, checkWin initBoard botP settingsDepth1 = .ok (false, pb2) →
      checkWin initBoard userP settingsDepth1 = .ok (false, pu2) →
      1 = settingsDepth1.searchRules.depth →
      getTerminalNodeState initBoard 1 settingsDepth1 =
        (if initBoard.cells.any (fun c => evalBadBot settingsDepth1 botP.id c ||
            evalBadUser settingsDepth1 userP.id c) = true
         then .error .invalidEval
         else .ok (some (finScore (heuristicFormula settingsDepth1 botP userP
             (accFormula settingsDepth1 botP.id userP.id initBoard.cells))),
           initBoard))) ∧
    (∀ pb2 pu2, checkWin initBoard botP settingsDepth1 = .ok (false, pb2) →
      checkWin initBoard userP settingsDepth1 = .ok (false, pu2) →
      1 ≠ settingsDepth1.searchRules.depth →
      getTerminalNodeState initBoard 1 settingsDepth1 = .ok (none, initBoard)) :=
  getTerminalNodeState_spec settingsDepth1 initBoard 1 botP userP (by decide) (by decide)


/-! C9: findBestMove.  The error cases are direct; the success case is
characterized through a pure selection function mirroring the loop and a
congruence of the search under BoardLike, since the loop board drifts
only in the winner flags between iterations. -/

lemma loops_congr (s : Settings)
    (recurse : BoardState → Score → Score → Except GErr (Score × BoardState))
    (hrecl : ∀ bb aa bb2 r, BoardInv bb → recurse bb aa bb2 = .ok r → BoardLike r.2 bb)
    (hrecc : ∀ bbF bbA aa bb2 v bf, BoardInv bbF → BoardLike bbA bbF →
      recurse bbF aa bb2 = .ok (v, bf) →
      ∃ bfA, recurse bbA aa bb2 = .ok (v, bfA)) :
    ∀ (moves : List (GridCell × GridCell)) (bcF bcA : BoardState)
      (alpha beta acc : Score) (rv : Score) (rb : BoardState) (player : Player),
      BoardInv bcF → BoardLike bcA bcF →
      (∀ m ∈ moves, m ∈ getAllPossibleMoves bcF player) →
      ((maxLoop s recurse moves bcF alpha beta acc = .ok (rv, rb) →
        ∃ bfA, maxLoop s recurse moves bcA alpha beta acc = .ok (rv, bfA)) ∧
       (minLoop s recurse moves bcF alpha beta acc = .ok (rv, rb) →
        ∃ bfA, minLoop s recurse moves bcA alpha beta acc = .ok (rv, bfA))) := by
  intro moves
  induction moves with
  | nil =>
    intro bcF bcA alpha beta acc rv rb player hinv hlike hmv
    constructor
    · intro h
      simp only [maxLoop, Except.ok.injEq, Prod.mk.injEq] at h ⊢
      exact ⟨bcA, h.1, rfl⟩
    · intro h
      simp only [minLoop, Except.ok.injEq, Prod.mk.injEq] at h ⊢
      exact ⟨bcA, h.1, rfl⟩
  | cons move rest ih =>
    intro bcF bcA alpha beta acc rv rb player hinv hlike hmv
    have hmem : move ∈ getAllPossibleMoves bcF player := hmv move (List.mem_cons_self _ _)
    obtain ⟨hsrcmem0, hsne, hstop, htgtmem0, htop⟩ :=
      getAllPossibleMoves_mem bcF player move.1 move.2 hmem
    obtain ⟨-, hsrcmem, -⟩ := mem_cells_index bcF.cells hinv.1 move.1 hsrcmem0
    obtain ⟨-, htgtmem, -⟩ := mem_cells_index bcF.cells hinv.1 move.2 htgtmem0
    have hne : move.1.id.toNat ≠ move.2.id.toNat := by
      intro hcon
      rw [hcon, htgtmem] at hsrcmem
      have hx := Option.some.inj hsrcmem
      rw [hx] at htop
      exact htop rfl
    have hsrcmemA : bcA.cells[move.1.id.toNat]? = some move.1 := by
      rw [hlike.1]
      exact hsrcmem
    have htgtmemA : bcA.cells[move.2.id.toNat]? = some move.2 := by
      rw [hlike.1]
      exact htgtmem
    have hgd1 : bcF.cells.getD move.1.id.toNat phantomCell = move.1 :=
      getD_of_getElem? _ _ _ _ hsrcmem
    have hgd2 : bcF.cells.getD move.2.id.toNat phantomCell = move.2 :=
      getD_of_getElem? _ _ _ _ htgtmem
    have hgd1A : bcA.cells.getD move.1.id.toNat phantomCell = move.1 :=
      getD_of_getElem? _ _ _ _ hsrcmemA
    have hgd2A : bcA.cells.getD move.2.id.toNat phantomCell = move.2 :=
      getD_of_getElem? _ _ _ _ htgtmemA
    have hinvA : BoardInv bcA := boardInv_of_like bcF bcA hinv hlike
    constructor
    · intro h
      simp only [maxLoop] at h ⊢
      rw [hgd1, hgd2] at h
      rw [hgd1A, hgd2A]
      cases happ : bcF.applyMoveAndTurn move.1.id.toNat move.2.id.toNat
          s.winningRules.maxStackSize with
      | error e => rw [happ] at h; cases h
      | ok b1 =>
        rw [happ] at h
        dsimp only at h
        cases hrec0 : recurse b1 alpha beta with
        | error e => rw [hrec0] at h; cases h
        | ok rr =>
          obtain ⟨evaluate, b2⟩ := rr
          rw [hrec0] at h
          dsimp only at h
          have hinv1 : BoardInv b1 := applyMoveAndTurn_inv bcF _ _ _ b1 hinv happ
          obtain ⟨b1A, happA, hlike1⟩ := applyMoveAndTurn_like bcA bcF
            move.1.id.toNat move.2.id.toNat s.winningRules.maxStackSize b1 hlike happ
          obtain ⟨b2A, hrecA⟩ := hrecc b1 b1A alpha beta evaluate b2 hinv1 hlike1 hrec0
          have hinv1A : BoardInv b1A := boardInv_of_like b1 b1A hinv1 hlike1
          have hlike2 : BoardLike b2 b1 := hrecl b1 alpha beta (evaluate, b2) hinv1 hrec0
          have hlike2A : BoardLike b2A b1A :=
            hrecl b1A alpha beta (evaluate, b2A) hinv1A hrecA
          have hundo := undo_restores bcF s.winningRules.maxStackSize move.1 move.2 b1 b2
            hinv hsrcmem htgtmem hne happ hlike2.1 hlike2.2
          have hundoA := undo_restores bcA s.winningRules.maxStackSize move.1 move.2
            b1A b2A hinvA hsrcmemA htgtmemA hne happA hlike2A.1 hlike2A.2
          have hlike3 : BoardLike (b2.undoMove ⟨move.1, move.2, bcF.playerState⟩) bcF :=
            ⟨hundo.1, hundo.2.1⟩
          have hlike3A : BoardLike (b2A.undoMove ⟨move.1, move.2, bcA.playerState⟩) bcA :=
            ⟨hundoA.1, hundoA.2.1⟩
          rw [happA]
          dsimp only
          rw [hrecA]
          dsimp only
          by_cases hcut : beta ≤ max alpha (max acc evaluate)
          · rw [if_pos hcut] at h ⊢
            simp only [Except.ok.injEq, Prod.mk.injEq] at h ⊢
            exact ⟨_, h.1, rfl⟩
          · rw [if_neg hcut] at h ⊢
            have hinv3 : BoardInv (b2.undoMove ⟨move.1, move.2, bcF.playerState⟩) :=
              boardInv_of_like bcF _ hinv hlike3
            have hlike33 : BoardLike (b2A.undoMove ⟨move.1, move.2, bcA.playerState⟩)
                (b2.undoMove ⟨move.1, move.2, bcF.playerState⟩) :=
              ((hlike3A.trans hlike).trans hlike3.symm)
            have hmv3 : ∀ m ∈ rest,
                m ∈ getAllPossibleMoves (b2.undoMove ⟨move.1, move.2, bcF.playerState⟩)
                  player := by
              intro m hm
              rw [getAllPossibleMoves_cells_congr _ bcF player hlike3.1]
              exact hmv m (List.mem_cons_of_mem _ hm)
            exact (ih (b2.undoMove ⟨move.1, move.2, bcF.playerState⟩)
              (b2A.undoMove ⟨move.1, move.2, bcA.playerState⟩)
              (max alpha (max acc evaluate)) beta (max acc evaluate) rv rb player
              hinv3 hlike33 hmv3).1 h
    · intro h
      simp only [minLoop] at h ⊢
      rw [hgd1, hgd2] at h
      rw [hgd1A, hgd2A]
      cases happ : bcF.applyMoveAndTurn move.1.id.toNat move.2.id.toNat
          s.winningRules.maxStackSize with
      | error e => rw [happ] at h; cases h
      | ok b1 =>
        rw [happ] at h
        dsimp only at h
        cases hrec0 : recurse b1 alpha beta with
        | error e => rw [hrec0] at h; cases h
        | ok rr =>
          obtain ⟨evaluate, b2⟩ := rr
          rw [hrec0] at h
          dsimp only at h
          have hinv1 : BoardInv b1 := applyMoveAndTurn_inv bcF _ _ _ b1 hinv happ
          obtain ⟨b1A, happA, hlike1⟩ := applyMoveAndTurn_like bcA bcF
            move.1.id.toNat move.2.id.toNat s.winningRules.maxStackSize b1 hlike happ
          obtain ⟨b2A, hrecA⟩ := hrecc b1 b1A alpha beta evaluate b2 hinv1 hlike1 hrec0
          have hinv1A : BoardInv b1A := boardInv_of_like b1 b1A hinv1 hlike1
          have hlike2 : BoardLike b2 b1 := hrecl b1 alpha beta (evaluate, b2) hinv1 hrec0
          have hlike2A : BoardLike b2A b1A :=
            hrecl b1A alpha beta (evaluate, b2A) hinv1A hrecA
          have hundo := undo_restores bcF s.winningRules.maxStackSize move.1 move.2 b1 b2
            hinv hsrcmem htgtmem hne happ hlike2.1 hlike2.2
          have hundoA := undo_restores bcA s.winningRules.maxStackSize move.1 move.2
            b1A b2A hinvA hsrcmemA htgtmemA hne happA hlike2A.1 hlike2A.2
          have hlike3 : BoardLike (b2.undoMove ⟨move.1, move.2, bcF.playerState⟩) bcF :=
            ⟨hundo.1, hundo.2.1⟩
          have hlike3A : BoardLike (b2A.undoMove ⟨move.1, move.2, bcA.playerState⟩) bcA :=
            ⟨hundoA.1, hundoA.2.1⟩
          rw [happA]
          dsimp only
          rw [hrecA]
          dsimp only
          by_cases hcut : min beta (min acc evaluate) ≤ alpha
          · rw [if_pos hcut] at h ⊢
            simp only [Except.ok.injEq, Prod.mk.injEq] at h ⊢
            exact ⟨_, h.1, rfl⟩
          · rw [if_neg hcut] at h ⊢
            have hinv3 : BoardInv (b2.undoMove ⟨move.1, move.2, bcF.playerState⟩) :=
              boardInv_of_like bcF _ hinv hlike3
            have hlike33 : BoardLike (b2A.undoMove ⟨move.1, move.2, bcA.playerState⟩)
                (b2.undoMove ⟨move.1, move.2, bcF.playerState⟩) :=
              ((hlike3A.trans hlike).trans hlike3.symm)
            have hmv3 : ∀ m ∈ rest,
                m ∈ getAllPossibleMoves (b2.undoMove ⟨move.1, move.2, bcF.playerState⟩)
                  player := by
              intro m hm
              rw [getAllPossibleMoves_cells_congr _ bcF player hlike3.1]
              exact hmv m (List.mem_cons_of_mem _ hm)
            exact (ih (b2.undoMove ⟨move.1, move.2, bcF.playerState⟩)
              (b2A.undoMove ⟨move.1, move.2, bcA.playerState⟩)
              alpha (min beta (min acc evaluate)) (min acc evaluate) rv rb player
              hinv3 hlike33 hmv3).2 h

lemma minimaxAux_congr (s : Settings) :
    ∀ (fuel : Nat) (bF bA : BoardState) (depth : Nat) (alpha beta : Score)
      (v : Score) (bf : BoardState),
      BoardInv bF → BoardLike bA bF →
      minimaxAux s fuel bF depth alpha beta = .ok (v, bf) →
      ∃ bfA, minimaxAux s fuel bA depth alpha beta = .ok (v, bfA) := by
  intro fuel
  induction fuel with
  | zero =>
    intro bF bA depth alpha beta v bf hinv hlike h
    simp only [minimaxAux] at h
    cases h
  | succ n ih =>
    intro bF bA depth alpha beta v bf hinv hlike h
    simp only [minimaxAux] at h ⊢
    cases htsF : getTerminalNodeState bF depth s with
    | error e => rw [htsF] at h; cases h
    | ok vF =>
      obtain ⟨o, bF1⟩ := vF
      rw [htsF] at h
      obtain ⟨bA1, htsA, hlike1⟩ := getTerminalNodeState_congr bA bF depth s hlike o bF1 htsF
      rw [htsA]
      cases o with
      | some evaluation =>
        dsimp only at h ⊢
        simp only [Except.ok.injEq, Prod.mk.injEq] at h ⊢
        exact ⟨bA1, h.1, rfl⟩
      | none =>
        dsimp only at h ⊢
        cases hfpF : bF.playerState.twoPlayer.find? (fun p => p.turn) with
        | none => rw [hfpF] at h; cases h
        | some cpF =>
          rw [hfpF] at h
          rcases find?_like (fun p => p.turn)
              (fun a b hab2 => (eraseWinner_fields a b hab2).2.2.1)
              bA.playerState.twoPlayer bF.playerState.twoPlayer hlike.2
            with ⟨hcA, hcF⟩ | ⟨cpA, cpF2, hcA, hcF, hce⟩
          · rw [hfpF] at hcF
            cases hcF
          · rw [hfpF] at hcF
            have hcc : cpF = cpF2 := Option.some.inj hcF
            subst hcc
            rw [hcA]
            dsimp only at h ⊢
            have hmax2 : cpA.isMaximizing = cpF.isMaximizing :=
              (eraseWinner_fields _ _ hce).2.1
            have hinvF1 : BoardInv bF1 := boardInv_of_like bF bF1 hinv
              (getTerminalNodeState_like bF depth s none bF1 htsF)
            have hmoves : getAllPossibleMoves bA1 cpA = getAllPossibleMoves bF1 cpF :=
              getAllPossibleMoves_congr2 bA1 bF1 cpA cpF hlike1.1
                (eraseWinner_fields _ _ hce).1 (eraseWinner_fields _ _ hce).2.2.2.1
            rw [hmax2, hmoves]
            by_cases hm : cpF.isMaximizing = true
            · rw [if_pos hm] at h ⊢
              exact (loops_congr s
                (fun bb aa bb2 => minimaxAux s n bb (depth + 1) aa bb2)
                (fun bb aa bb2 rr hbb hrr => minimaxAux_like s n bb (depth + 1) aa bb2 rr hbb hrr)
                (fun bbF bbA aa bb2 v2 bf2 h1 h2 h3 => ih bbF bbA (depth + 1) aa bb2 v2 bf2 h1 h2 h3)
                (getAllPossibleMoves bF1 cpF) bF1 bA1 alpha beta negInf v bf cpF
                hinvF1 hlike1 (fun m hm2 => hm2)).1 h
            · rw [if_neg hm] at h ⊢
              exact (loops_congr s
                (fun bb aa bb2 => minimaxAux s n bb (depth + 1) aa bb2)
                (fun bb aa bb2 rr hbb hrr => minimaxAux_like s n bb (depth + 1) aa bb2 rr hbb hrr)
                (fun bbF bbA aa bb2 v2 bf2 h1 h2 h3 => ih bbF bbA (depth + 1) aa bb2 v2 bf2 h1 h2 h3)
                (getAllPossibleMoves bF1 cpF) bF1 bA1 alpha beta posInf v bf cpF
                hinvF1 hlike1 (fun m hm2 => hm2)).2 h

lemma minimax_congr (s : Settings) (bF bA : BoardState) (depth : Nat)
    (alpha beta : Score) (v : Score) (bf : BoardState)
    (hinv : BoardInv bF) (hlike : BoardLike bA bF)
    (h : minimax s bF depth alpha beta = .ok (v, bf)) :
    ∃ bfA, minimax s bA depth alpha beta = .ok (v, bfA) := by
  unfold minimax at h ⊢
  exact minimaxAux_congr s _ bF bA depth alpha beta v bf hinv hlike h

/-- The pure selection the findBestMove loop performs on the one-ply
scores: keep the first strictly greater score. -/
def pickBest (sc : GridCell × GridCell → Score) :
    List (GridCell × GridCell) → Score → Option (GridCell × GridCell) →
    Score × Option (GridCell × GridCell)
  | [], best, bm => (best, bm)
  | m :: rest, best, bm =>
    if best < sc m then pickBest sc rest (sc m) (some m)
    else pickBest sc rest best bm

lemma pickBest_le (sc : GridCell × GridCell → Score) :
    ∀ (moves : List (GridCell × GridCell)) (best : Score)
      (bm : Option (GridCell × GridCell)),
      (∀ m ∈ moves, sc m ≤ best) → pickBest sc moves best bm = (best, bm) := by
  intro moves
  induction moves with
  | nil => intro best bm hle; rfl
  | cons m rest ih =>
    intro best bm hle
    simp only [pickBest]
    rw [if_neg (not_lt.mpr (hle m (List.mem_cons_self _ _)))]
    exact ih best bm (fun x hx => hle x (List.mem_cons_of_mem _ hx))

lemma pickBest_gt (sc : GridCell × GridCell → Score) :
    ∀ (moves : List (GridCell × GridCell)) (best : Score)
      (bm : Option (GridCell × GridCell)),
      (∃ m ∈ moves, best < sc m) →
      ∃ pre ret post, moves = pre ++ ret :: post ∧
        pickBest sc moves best bm = (sc ret, some ret) ∧
        best < sc ret ∧ (∀ m ∈ pre, sc m < sc ret) ∧ (∀ m ∈ post, sc m ≤ sc ret) := by
  intro moves
  induction moves with
  | nil =>
    intro best bm hx
    obtain ⟨m, hm, -⟩ := hx
    cases hm
  | cons m rest ih =>
    intro best bm hx
    simp only [pickBest]
    by_cases hm : best < sc m
    · rw [if_pos hm]
      by_cases hr : ∃ x ∈ rest, sc m < sc x
      · obtain ⟨pre, ret, post, hsplit, hpb, hlt, hpre, hpost⟩ := ih (sc m) (some m) hr
        exact ⟨m :: pre, ret, post, by rw [hsplit]; rfl, hpb, lt_trans hm hlt,
          fun x hx2 => by
            rcases List.mem_cons.mp hx2 with hx3 | hx3
            · rw [hx3]; exact hlt
            · exact hpre x hx3,
          hpost⟩
      · push_neg at hr
        refine ⟨[], m, rest, rfl, ?_, hm, fun x hx2 => absurd hx2 (List.not_mem_nil x), hr⟩
        exact pickBest_le sc rest (sc m) (some m) hr
    · rw [if_neg hm]
      have hx2 : ∃ x ∈ rest, best < sc x := by
        obtain ⟨x, hx3, hx4⟩ := hx
        rcases List.mem_cons.mp hx3 with hx5 | hx5
        · rw [hx5] at hx4; exact absurd hx4 hm
        · exact ⟨x, hx5, hx4⟩
      obtain ⟨pre, ret, post, hsplit, hpb, hlt, hpre, hpost⟩ := ih best bm hx2
      exact ⟨m :: pre, ret, post, by rw [hsplit]; rfl, hpb,
        hlt,
        fun x hx3 => by
          rcases List.mem_cons.mp hx3 with hx4 | hx4
          · rw [hx4]; exact lt_of_le_of_lt (not_lt.mp hm) hlt
          · exact hpre x hx4,
        hpost⟩

lemma fbmLoop_pickBest (s : Settings) (b : BoardState) (player : Player)
    (hinv : BoardInv b) :
    ∀ (moves : List (GridCell × GridCell)) (bc : BoardState)
      (best : Score) (bm : Option (GridCell × GridCell))
      (sc : GridCell × GridCell → Score),
      BoardLike bc b →
      (∀ m ∈ moves, m ∈ getAllPossibleMoves b player) →
      (∀ m ∈ moves, oneStepScore s b m = .ok (sc m)) →
      ∃ bf, fbmLoop s moves bc best bm
        = .ok ((pickBest sc moves best bm).2, bf) := by
  intro moves
  induction moves with
  | nil =>
    intro bc best bm sc hlike hmv hsc
    exact ⟨bc, rfl⟩
  | cons move rest ih =>
    intro bc best bm sc hlike hmv hsc
    have hmem : move ∈ getAllPossibleMoves b player := hmv move (List.mem_cons_self _ _)
    obtain ⟨hsrcmem0, hsne, hstop, htgtmem0, htop⟩ :=
      getAllPossibleMoves_mem b player move.1 move.2 hmem
    obtain ⟨-, hsrcmem, -⟩ := mem_cells_index b.cells hinv.1 move.1 hsrcmem0
    obtain ⟨-, htgtmem, -⟩ := mem_cells_index b.cells hinv.1 move.2 htgtmem0
    have hne : move.1.id.toNat ≠ move.2.id.toNat := by
      intro hcon
      rw [hcon, htgtmem] at hsrcmem
      have hx := Option.some.inj hsrcmem
      rw [hx] at htop
      exact htop rfl
    have hsrcmemc : bc.cells[move.1.id.toNat]? = some move.1 := by
      rw [hlike.1]
      exact hsrcmem
    have htgtmemc : bc.cells[move.2.id.toNat]? = some move.2 := by
      rw [hlike.1]
      exact htgtmem
    have hgd1 : bc.cells.getD move.1.id.toNat phantomCell = move.1 :=
      getD_of_getElem? _ _ _ _ hsrcmemc
    have hgd2 : bc.cells.getD move.2.id.toNat phantomCell = move.2 :=
      getD_of_getElem? _ _ _ _ htgtmemc
    have hinvc : BoardInv bc := boardInv_of_like b bc hinv hlike
    have hone := hsc move (List.mem_cons_self _ _)
    unfold oneStepScore at hone
    cases happb : b.applyMoveAndTurn move.1.id.toNat move.2.id.toNat
        s.winningRules.maxStackSize with
    | error e => rw [happb] at hone; cases hone
    | ok b1b =>
      rw [happb] at hone
      dsimp only at hone
      cases hmmb : minimax s b1b 0 negInf posInf with
      | error e => rw [hmmb] at hone; cases hone
      | ok rr =>
        obtain ⟨score0, b2b⟩ := rr
        rw [hmmb] at hone
        dsimp only at hone
        have hscore : score0 = sc move := Except.ok.inj hone
        subst hscore
        have hinv1b : BoardInv b1b := applyMoveAndTurn_inv b _ _ _ b1b hinv happb
        obtain ⟨b1c, happc, hlike1⟩ := applyMoveAndTurn_like bc b
          move.1.id.toNat move.2.id.toNat s.winningRules.maxStackSize b1b hlike happb
        obtain ⟨b2c, hmmc⟩ := minimax_congr s b1b b1c 0 negInf posInf (sc move) b2b
          hinv1b hlike1 hmmb
        have hinv1c : BoardInv b1c := boardInv_of_like b1b b1c hinv1b hlike1
        have hlike2c : BoardLike b2c b1c := by
          unfold minimax at hmmc
          exact minimaxAux_like s _ b1c 0 negInf posInf (sc move, b2c) hinv1c hmmc
        have hundo := undo_restores bc s.winningRules.maxStackSize move.1 move.2 b1c b2c
          hinvc hsrcmemc htgtmemc hne happc hlike2c.1 hlike2c.2
        have hlike3 : BoardLike (b2c.undoMove ⟨move.1, move.2, bc.playerState⟩) bc :=
          ⟨hundo.1, hundo.2.1⟩
        have hlike3b : BoardLike (b2c.undoMove ⟨move.1, move.2, bc.playerState⟩) b :=
          hlike3.trans hlike
        simp only [fbmLoop]
        rw [hgd1, hgd2, happc]
        dsimp only
        rw [hmmc]
        dsimp only
        simp only [pickBest]
        by_cases hbr : best < sc move
        · rw [if_pos hbr, if_pos hbr]
          exact ih (b2c.undoMove ⟨move.1, move.2, bc.playerState⟩) (sc move) (some move)
            sc hlike3b (fun m hm => hmv m (List.mem_cons_of_mem _ hm))
            (fun m hm => hsc m (List.mem_cons_of_mem _ hm))
        · rw [if_neg hbr, if_neg hbr]
          exact ih (b2c.undoMove ⟨move.1, move.2, bc.playerState⟩) best bm
            sc hlike3b (fun m hm => hmv m (List.mem_cons_of_mem _ hm))
            (fun m hm => hsc m (List.mem_cons_of_mem _ hm))

/-- C9: findBestMove.  With the turn player identified: (i) when the turn
player is not the maximizing player the result is the InvalidInvocation
error; (ii) when the maximizing turn player has no legal move the result
is the NoLegalMoves error; (iii) otherwise, whenever every legal move has
a defined one-ply search score, the returned move splits the generated
move list so that every earlier move scores strictly lower and every
later move scores no higher: the maximum is attained and, under the
strict greater-than update starting from best score -Infinity, the first
move in generation order wins ties. -/
theorem findBestMove_spec (s : Settings) (b : BoardState) (player : Player)
    (hinv : BoardInv b)
    (hfp : b.playerState.twoPlayer.find? (fun p => p.turn) = some player) :
    (player.isMaximizing = false → findBestMove b s = .error .invalidInvocation) ∧
    (player.isMaximizing = true → getAllPossibleMoves b player = [] →
      findBestMove b s = .error .noLegalMoves) ∧
    (∀ sc : GridCell × GridCell → Score,
      player.isMaximizing = true →
      getAllPossibleMoves b player ≠ [] →
      (∀ m ∈ getAllPossibleMoves b player, oneStepScore s b m = .ok (sc m)) →
      ∃ pre ret post, getAllPossibleMoves b player = pre ++ ret :: post ∧
        findBestMove b s = .ok ret ∧
        (∀ m ∈ pre, sc m < sc ret) ∧ (∀ m ∈ post, sc m ≤ sc ret)) := by
  refine ⟨?_, ?_, ?_⟩
  · intro hmax
    unfold findBestMove
    rw [hfp]
    dsimp only
    rw [if_pos hmax]
  · intro hmax hmv
    unfold findBestMove
    rw [hfp]
    dsimp only
    rw [if_neg (fun hcon => by rw [hmax] at hcon; cases hcon), hmv]
    rfl
  · intro sc hmax hne hsc
    unfold findBestMove
    rw [hfp]
    dsimp only
    rw [if_neg (fun hcon => by rw [hmax] at hcon; cases hcon)]
    rw [if_neg (by
      intro hcon
      exact hne (List.length_eq_zero.mp hcon))]
    obtain ⟨bf, hloop⟩ := fbmLoop_pickBest s b player hinv
      (getAllPossibleMoves b player) b negInf none sc ⟨rfl, rfl⟩
      (fun m hm => hm) hsc
    rw [hloop]
    by_cases hx : ∃ m ∈ getAllPossibleMoves b player, negInf < sc m
    · obtain ⟨pre, ret, post, hsplit, hpb, hlt, hpre, hpost⟩ :=
        pickBest_gt sc (getAllPossibleMoves b player) negInf none hx
      rw [hpb]
      exact ⟨pre, ret, post, hsplit, rfl, hpre, hpost⟩
    · push_neg at hx
      have hle : ∀ m ∈ getAllPossibleMoves b player, sc m ≤ negInf :=
        fun m hm => hx m hm
      rw [pickBest_le sc (getAllPossibleMoves b player) negInf none hle]
      cases hmoves : getAllPossibleMoves b player with
      | nil => exact absurd hmoves hne
      | cons m0 rest =>
        refine ⟨[], m0, rest, rfl, rfl, fun m hm => absurd hm (List.not_mem_nil m), ?_⟩
        intro m hm
        have h1 : sc m ≤ negInf := hle m (by rw [hmoves]; exact List.mem_cons_of_mem _ hm)
        exact le_trans h1 bot_le

/-- Witness for C9: the characterization applied to the initial board
with the maximizing bot to move, under the depth-1 settings. -/
theorem findBestMove_spec_witness :
    (({ botP with turn := true } : Player).isMaximizing = false →
      findBestMove initBoardBotTurn settingsDepth1 = .error .invalidInvocation) ∧
    (({ botP with turn := true } : Player).isMaximizing = true →
      getAllPossibleMoves initBoardBotTurn { botP with turn := true } = [] →
      findBestMove initBoardBotTurn settingsDepth1 = .error .noLegalMoves) ∧
    (∀ sc : GridCell × GridCell → Score,
      ({ botP with turn := true } : Player).isMaximizing = true →
      getAllPossibleMoves initBoardBotTurn { botP with turn := true } ≠ [] →
      (∀ m ∈ getAllPossibleMoves initBoardBotTurn { botP with turn := true },
        oneStepScore settingsDepth1 initBoardBotTurn m = .ok (sc m)) →
      ∃ pre ret post,
        getAllPossibleMoves initBoardBotTurn { botP with turn := true }
          = pre ++ ret :: post ∧
        findBestMove initBoardBotTurn settingsDepth1 = .ok ret ∧
        (∀ m ∈ pre, sc m < sc ret) ∧ (∀ m ∈ post, sc m ≤ sc ret)) :=
  findBestMove_spec settingsDepth1 initBoardBotTurn { botP with turn := true }
    (by decide) (by decide)


/-- Witness for C10: the locked user at cell (2,2) gets only forward
candidates, the unlocked user gets forward plus lateral candidates. -/
theorem lateral_lock_spec_witness :
    getLocalMoves (mkCell 14 [PlayerId.user] 1 false) { userP with lastHorizontal := true }
        ⟨initCells.set 14 (mkCell 14 [PlayerId.user] 1 false), ⟨[botP, userP]⟩⟩ =
      forwardMoves (mkCell 14 [PlayerId.user] 1 false)
        ⟨initCells.set 14 (mkCell 14 [PlayerId.user] 1 false), ⟨[botP, userP]⟩⟩ ∧
    getLocalMoves (mkCell 14 [PlayerId.user] 1 false) userP
        ⟨initCells.set 14 (mkCell 14 [PlayerId.user] 1 false), ⟨[botP, userP]⟩⟩ =
      forwardMoves (mkCell 14 [PlayerId.user] 1 false)
          ⟨initCells.set 14 (mkCell 14 [PlayerId.user] 1 false), ⟨[botP, userP]⟩⟩ ++
        lateralMoves (mkCell 14 [PlayerId.user] 1 false)
          ⟨initCells.set 14 (mkCell 14 [PlayerId.user] 1 false), ⟨[botP, userP]⟩⟩ :=
  ⟨lateral_lock_spec.2.1 (mkCell 14 [PlayerId.user] 1 false) { userP with lastHorizontal := true }
      ⟨initCells.set 14 (mkCell 14 [PlayerId.user] 1 false), ⟨[botP, userP]⟩⟩ (by decide),
   lateral_lock_spec.2.2.1 (mkCell 14 [PlayerId.user] 1 false) userP
      ⟨initCells.set 14 (mkCell 14 [PlayerId.user] 1 false), ⟨[botP, userP]⟩⟩ (by decide)⟩

end StackOrBolt
